import Mathlib

/-!
# Local-pickup marketplace backend: order workflow

A shallow embedding of the order fulfilment and PIN validation workflow
(`internal/domain/order.go`, `internal/repository/postgres/order_repo.go`,
`internal/service/payment_service.go`, `internal/service/order_service.go`).

* Go `float64` is embedded as the type `Float64` of IEEE-754 binary64 values with
  correctly rounded (nearest, ties to even) conversion, multiplication and addition. Every
  operation is rounded on its own, as in the code the Go compiler emits for amd64 (no fused
  multiply-add). What `int64(f)` yields when `f` does not fit is left to the target by the
  Go specification and is an argument of the model.
* The relational store and the key-value cache are explicit state (`World`); every
  service function maps a `World` to a result and a new `World`.
* What a collaborator answers during one call (random identifiers, the random number,
  the payment processor's reply, store and cache faults, the clock) is an explicit
  argument, so every outcome the Go code can observe is covered.
* Go `error` values are embedded by their message text (`Except String _`).
-/

namespace LocalPickup

/-! ## float64 -/

/-- IEEE-754 binary64 value. `finite neg m e` stands for `(-1)^neg * m * 2^e`; the values
that occur are canonical: `m < 2^53`, `-1074 ≤ e ≤ 971`, and `2^52 ≤ m` unless `e = -1074`
(zero is `m = 0`, `e = -1074`). -/
inductive Float64
  | finite (neg : Bool) (m : Nat) (e : Int)
  | inf (neg : Bool)
  | nan
  deriving DecidableEq, Repr

namespace Float64

/-- Loop computing the position of the highest set bit, bounded by `fuel`. -/
def log2Loop : Nat → Nat → Nat
  | 0, _ => 0
  | fuel + 1, n => if n < 2 then 0 else log2Loop fuel (n / 2) + 1

/-- Floor of the binary logarithm (0 for 0); the loop needs at most `n` rounds. -/
def floorLog2 (n : Nat) : Nat := log2Loop n n

/-- Floor of the binary logarithm of the rational `num / den` (`num, den > 0`): the
difference of the two bit positions, corrected by one when it overshoots. -/
def binExponent (num den : Nat) : Int :=
  let g : Int := (floorLog2 num : Int) - (floorLog2 den : Int)
  let below : Bool :=
    if 0 ≤ g then decide (num < den * 2 ^ g.toNat) else decide (num * 2 ^ (-g).toNat < den)
  if below then g - 1 else g

/-- The integer nearest to `a / b`, ties to the even one. -/
def roundHalfEven (a b : Nat) : Nat :=
  let q := a / b
  let r := a % b
  if 2 * r < b then q else if b < 2 * r then q + 1 else if q % 2 = 0 then q else q + 1

/-- Exponent of the unit in the last place for a value whose binary exponent is `ex`: 52
below it, but not under the subnormal exponent -1074. -/
def ulpExponent (ex : Int) : Int := max (ex - 52) (-1074)

/-- Nearest binary64 value, ties to even, of the rational `(-1)^neg * num / den` with
`den > 0`: the rounding every float64 operation and every decimal conversion applies to
its exact result. The significand is `num / den / 2^e` rounded to an integer, `e` the
exponent of the last place. Overflow gives an infinity, underflow a subnormal or zero. -/
def roundRat (neg : Bool) (num den : Nat) : Float64 :=
  if num = 0 then finite neg 0 (-1074) else
  let e : Int := ulpExponent (binExponent num den)
  let m : Nat :=
    if 0 ≤ e then roundHalfEven num (den * 2 ^ e.toNat)
    else roundHalfEven (num * 2 ^ (-e).toNat) den
  let m2 := if m = 2 ^ 53 then 2 ^ 52 else m
  let e2 := if m = 2 ^ 53 then e + 1 else e
  if 971 < e2 then inf neg else finite neg m2 e2

/-- The value `+0.0`, the zero value of a Go `float64` variable. -/
def zero : Float64 := finite false 0 (-1074)

/-- Go conversion `float64(n)` of an integer. -/
def ofInt (n : Int) : Float64 := roundRat (decide (n < 0)) n.natAbs 1

/-- The float64 nearest to the decimal `digits / 10^scale`, as a decimal literal or a JSON
number is read (`9.99` is `ofDecimal 999 2`). -/
def ofDecimal (digits scale : Nat) : Float64 := roundRat false digits (10 ^ scale)

/-- Go `x * y` on float64. -/
def mul : Float64 → Float64 → Float64
  | nan, _ => nan
  | _, nan => nan
  | inf s, inf t => inf (xor s t)
  | inf s, finite t m _ => if m = 0 then nan else inf (xor s t)
  | finite s m _, inf t => if m = 0 then nan else inf (xor s t)
  | finite s m e, finite t n f =>
      if m = 0 ∨ n = 0 then finite (xor s t) 0 (-1074)
      else
        let ex := e + f
        if 0 ≤ ex then roundRat (xor s t) (m * n * 2 ^ ex.toNat) 1
        else roundRat (xor s t) (m * n) (2 ^ (-ex).toNat)

/-- Go `x + y` on float64. -/
def add : Float64 → Float64 → Float64
  | nan, _ => nan
  | _, nan => nan
  | inf s, inf t => if s = t then inf s else nan
  | inf s, finite _ _ _ => inf s
  | finite _ _ _, inf t => inf t
  | finite s m e, finite t n f =>
      if m = 0 ∧ n = 0 then finite (s && t) 0 (-1074)
      else if m = 0 then finite t n f
      else if n = 0 then finite s m e
      else
        let ex := min e f
        let x : Int := (if s then -1 else 1) * ((m * 2 ^ (e - ex).toNat : Nat) : Int)
        let y : Int := (if t then -1 else 1) * ((n * 2 ^ (f - ex).toNat : Nat) : Int)
        let z := x + y
        if z = 0 then finite false 0 (-1074)
        else if 0 ≤ ex then roundRat (decide (z < 0)) (z.natAbs * 2 ^ ex.toNat) 1
        else roundRat (decide (z < 0)) z.natAbs (2 ^ (-ex).toNat)

/-- Integer part (truncation toward zero) of a finite value, `m * 2^e` or `m / 2^(-e)`
written with shifts; `none` for NaN and the infinities. -/
def truncate : Float64 → Option Int
  | finite s m e =>
      let a : Nat := if 0 ≤ e then m <<< e.toNat else m >>> (-e).toNat
      some (if s then -(a : Int) else (a : Int))
  | _ => none

/-- Go conversion `int64(f)`: the fractional part is discarded. When the integer part does
not fit in an int64 (or `f` is NaN or infinite) the Go specification leaves the result to
the implementation; `invalid` is what the target machine yields then. -/
def toInt64 (invalid : Float64 → Int) (f : Float64) : Int :=
  match truncate f with
  | some v => if -(2 ^ 63 : Int) ≤ v ∧ v < (2 ^ 63 : Int) then v else invalid f
  | none => invalid f

/-- The amd64 target: the conversion instruction CVTTSD2SQ returns the "integer indefinite"
value `-2^63` for every operand that does not fit. -/
def amd64Invalid : Float64 → Int := fun _ => -(2 ^ 63 : Int)

/-- The arm64 target: the conversion instruction FCVTZS saturates, and yields 0 for NaN. -/
def arm64Invalid : Float64 → Int
  | finite s _ _ => if s then -(2 ^ 63 : Int) else (2 ^ 63 : Int) - 1
  | inf s => if s then -(2 ^ 63 : Int) else (2 ^ 63 : Int) - 1
  | nan => 0

/-- The rational number a finite value stands for (0 for NaN and the infinities). -/
def toRat : Float64 → ℚ
  | finite s m e => (if s then -1 else 1) * ((m : ℚ) * (2 : ℚ) ^ e)
  | _ => 0

/-- Whether a value is in the canonical form of the encoding: a finite value has a
significand below 2^53 and an exponent from -1074 to 971, and the significand is at least
2^52 unless the exponent is the subnormal one. -/
def isCanonical : Float64 → Bool
  | finite _ m e => decide (m < 2 ^ 53 ∧ -1074 ≤ e ∧ e ≤ 971 ∧ (2 ^ 52 ≤ m ∨ e = -1074))
  | _ => true

end Float64

/-! ## Formatting (`fmt`) -/

/-- The byte `'0' + d` that Go's integer formatting writes for the digit `d`. -/
def digitChar (d : Nat) : Char := Char.ofNat (48 + d)

/-- Digit loop of Go's `fmt` integer formatting in base 10: writes the digits of `u` from the
least significant one, in front of `acc`. An int64 has at most 19 digits, so a `fuel` of 20
never runs out. -/
def fmtDigits : Nat → Nat → List Char → List Char
  | 0, u, acc => digitChar (u % 10) :: acc
  | fuel + 1, u, acc =>
      if u < 10 then digitChar u :: acc
      else fmtDigits fuel (u / 10) (digitChar (u % 10) :: acc)

/-- Go `fmt.Sprintf` of an int64 under the verb `%d` (`zeroWidth = 0`) or `%0Nd`
(`zeroWidth = N`): the digits are padded with zeros to the width, one less when a minus sign
is written, and the sign comes first. -/
def fmtInteger (zeroWidth : Nat) (v : Int) : String :=
  let negative : Bool := decide (v < 0)
  let prec : Nat := if negative then zeroWidth - 1 else zeroWidth
  let digits := fmtDigits 20 v.natAbs []
  let padded := List.replicate (prec - digits.length) '0' ++ digits
  String.mk (if negative then '-' :: padded else padded)

/-! ## Domain (`internal/domain/order.go`) -/

deriving instance DecidableEq for Except

/-- A `uuid.UUID`, identified with its canonical text form (`UUID.String()`). -/
structure UUID where
  text : String
  deriving DecidableEq, Repr

/-- The zero value of `uuid.UUID`. -/
def UUID.Nil : UUID := ⟨"00000000-0000-0000-0000-000000000000"⟩

/-- Go `id.String()`. -/
def UUID.String (u : UUID) : String := u.text

/-- The five declared values of `OrderStatus`. -/
inductive OrderStatus
  | Pending
  | Paid
  | Ready
  | Completed
  | Cancelled
  deriving DecidableEq, Repr

/-- The string constant behind each status. -/
def OrderStatus.toString : OrderStatus → String
  | .Pending => "pending"
  | .Paid => "paid"
  | .Ready => "ready"
  | .Completed => "completed"
  | .Cancelled => "cancelled"

/-- Go `%q` applied to a status: the five names are plain ASCII letters, for which quoting
adds the surrounding double quotes and nothing else. -/
def OrderStatus.quoted (s : OrderStatus) : String := "\"" ++ s.toString ++ "\""

/-- A point in time (nanoseconds since the epoch). -/
abbrev Time := Int

structure OrderItem where
  ID : UUID
  OrderID : UUID
  ProductName : String
  Quantity : Int
  UnitPrice : Float64
  deriving DecidableEq, Repr

structure Order where
  ID : UUID
  CustomerID : UUID
  BusinessID : UUID
  Items : List OrderItem
  TotalAmount : Float64
  Status : OrderStatus
  PIN : String
  StripePaymentID : String
  CreatedAt : Time
  UpdatedAt : Time
  deriving DecidableEq, Repr

/-- The response of Create: `OrderResponse` embeds `Order` and adds the PIN. -/
structure OrderResponse where
  Order : Order
  PIN : String
  deriving DecidableEq, Repr

structure CreateOrderItemReq where
  ProductName : String
  Quantity : Int
  UnitPrice : Float64
  deriving DecidableEq, Repr

/-- The request body of Create: a business and the cart lines. It has no field for a
total. -/
structure CreateOrderRequest where
  BusinessID : UUID
  Items : List CreateOrderItemReq
  deriving DecidableEq, Repr

/-! ## State of the collaborators -/

/-- One key of the Redis cache with its value and time-to-live (nanoseconds). -/
structure CacheEntry where
  key : String
  value : String
  ttl : Nat
  deriving DecidableEq, Repr

/-- The state the workflow acts on: the two Postgres tables, the Redis keys, and two logs:
the amounts `ChargeCustomer` was called with, and the amounts (in cents) of the
PaymentIntent requests that went out to the payment processor. A row of `orders` is an
`Order` whose `Items` are empty; the line items live in `order_items`. -/
structure World where
  orders : List Order
  order_items : List OrderItem
  redis : List CacheEntry
  chargeCalls : List Float64
  stripeRequests : List Int
  deriving DecidableEq, Repr

/-- The state before anything happened. -/
def World.empty : World := ⟨[], [], [], [], []⟩

/-! ## Order repository (`internal/repository/postgres/order_repo.go`)

A statement either takes effect and returns no error, or returns an error and leaves the
tables as they were (a failed transaction is rolled back). Which of the two happens is an
argument: `some msg` is a failure with that message. -/

/-- Failures of the two queries of `GetByID`: the row query and the item query. -/
structure ReadFaults where
  queryRow : Option String
  items : Option String
  deriving DecidableEq, Repr

/-- No query fails. -/
def ReadFaults.none : ReadFaults := ⟨Option.none, Option.none⟩

/-- The private `getItems`: the rows of `order_items` with the given order id. -/
def OrderRepository.getItems (w : World) (orderID : UUID) : List OrderItem :=
  w.order_items.filter (fun it => decide (it.OrderID = orderID))

/-- The method `OrderRepository.GetByID`: the first row of `orders` with the id, completed with its
items. A failed or empty row query is wrapped as "order <id> not found: ...", a failed item
query is returned as it is. -/
def OrderRepository.GetByID (w : World) (f : ReadFaults) (id : UUID) : Except String Order :=
  match f.queryRow with
  | some e => .error ("order " ++ id.String ++ " not found: " ++ e)
  | none =>
    match w.orders.find? (fun o => decide (o.ID = id)) with
    | none => .error ("order " ++ id.String ++ " not found: no rows in result set")
    | some row =>
      match f.items with
      | some e => .error e
      | none => .ok { row with Items := OrderRepository.getItems w id }

/-- The method `OrderRepository.Create`: one transaction inserting the header row and one row per
item, each item row under the order's id. -/
def OrderRepository.Create (w : World) (fault : Option String) (o : Order) :
    Except String Unit × World :=
  match fault with
  | some e => (.error e, w)
  | none =>
    (.ok (),
     { w with
       orders := w.orders ++ [{ o with Items := [] }]
       order_items := w.order_items ++ o.Items.map (fun it => { it with OrderID := o.ID }) })

/-- The method `OrderRepository.UpdateStatus`: `UPDATE orders SET status = $1, updated_at = NOW()
WHERE id = $2`. The statement carries no condition on the current status, and it is no
error when no row matches. -/
def OrderRepository.UpdateStatus (w : World) (fault : Option String) (now : Time) (id : UUID)
    (status : OrderStatus) : Except String Unit × World :=
  match fault with
  | some e => (.error e, w)
  | none =>
    (.ok (),
     { w with
       orders := w.orders.map (fun r =>
         if r.ID = id then { r with Status := status, UpdatedAt := now } else r) })

/-! ## Redis -/

/-- The three replies of a Redis `GET`: a value, the `redis.Nil` miss, or an error. -/
inductive RedisReply
  | value (v : String)
  | Nil
  | err (msg : String)
  deriving DecidableEq, Repr

/-- The call `redis.Get(key).Result()`. -/
def redisGet (w : World) (fault : Option String) (key : String) : RedisReply :=
  match fault with
  | some e => .err e
  | none =>
    match w.redis.find? (fun c => decide (c.key = key)) with
    | some c => .value c.value
    | none => .Nil

/-- The call `redis.Set(key, value, ttl).Err()`: on success the key holds the new value only. -/
def redisSet (w : World) (fault : Option String) (key value : String) (ttl : Nat) :
    Except String Unit × World :=
  match fault with
  | some e => (.error e, w)
  | none =>
    (.ok (),
     { w with redis := ⟨key, value, ttl⟩ :: w.redis.filter (fun c => !decide (c.key = key)) })

/-- The call `redis.Del(key)`, its result ignored by the caller: when the command fails the key
stays. -/
def redisDel (w : World) (fails : Bool) (key : String) : World :=
  if fails then w
  else { w with redis := w.redis.filter (fun c => !decide (c.key = key)) }

/-! ## Payment service (`internal/service/payment_service.go`) -/

/-- The method `PaymentService.ChargeCustomer`. `stripe` is the reply of
`paymentintent.New`: the id of the new PaymentIntent, or an error. The amount in cents is
`int64(amountUSD * 100)`; below 50 the call returns the minimum-charge error before any
request. A failed request is answered with a simulated payment id and no error. -/
def PaymentService.ChargeCustomer (invalid : Float64 → Int) (w : World)
    (stripe : Except String String) (amountUSD : Float64) : Except String String × World :=
  let w0 : World := { w with chargeCalls := w.chargeCalls ++ [amountUSD] }
  let amountCents : Int := Float64.toInt64 invalid (Float64.mul amountUSD (Float64.ofInt 100))
  if amountCents < 50 then (.error "minimum charge amount is $0.50", w0)
  else
    let w1 : World := { w0 with stripeRequests := w0.stripeRequests ++ [amountCents] }
    match stripe with
    | .error _ => (.ok ("pi_simulated_" ++ fmtInteger 0 amountCents ++ "_cents"), w1)
    | .ok id => (.ok id, w1)

/-! ## Order service (`internal/service/order_service.go`) -/

/-- The constant `pinTTL = 24 * time.Hour`, in nanoseconds. -/
def pinTTL : Nat := 24 * 3600 * 1000000000

/-- The constant `pinPrefix`. -/
def pinPrefix : String := "order:pin:"

/-- The function `generatePIN`. `rnd` is the reply of
`rand.Int(rand.Reader, big.NewInt(1_000_000))`: an error, or a number that the random source
draws below 1,000,000. -/
def generatePIN (rnd : Except String Nat) : Except String String :=
  match rnd with
  | .error e => .error e
  | .ok n => .ok (fmtInteger 6 (n : Int))

/-- What the collaborators answer during one call of Create: the identifier `uuid.New()`
gives for the k-th cart line and for the order, the payment processor's reply, the random
source's reply, the clock, and the failure (if any) of the store transaction and of the
cache write. -/
structure CreateEnv where
  newItemID : Nat → UUID
  stripe : Except String String
  rand : Except String Nat
  now : Time
  newOrderID : UUID
  dbCreate : Option String
  redisSet : Option String

/-- The loop of Create over the cart lines: it adds `float64(Quantity) * UnitPrice` to
`total` and appends one `OrderItem` (with a new id and no order id yet) per line; `k` counts
the lines done. -/
def OrderService.buildItems (newID : Nat → UUID) :
    List CreateOrderItemReq → Nat → Float64 → List OrderItem → Float64 × List OrderItem
  | [], _, total, items => (total, items)
  | i :: rest, k, total, items =>
      OrderService.buildItems newID rest (k + 1)
        (Float64.add total (Float64.mul (Float64.ofInt i.Quantity) i.UnitPrice))
        (items ++ [{ ID := newID k, OrderID := UUID.Nil, ProductName := i.ProductName,
                     Quantity := i.Quantity, UnitPrice := i.UnitPrice }])

/-- The method `OrderService.Create`: total, charge, PIN, store, cache, in this order; the
first error ends the call. The notification goroutine started at the end reads the business table and
calls the push service; it touches neither the orders nor the cache and is left out. -/
def OrderService.Create (invalid : Float64 → Int) (w : World) (env : CreateEnv)
    (customerID : UUID) (req : CreateOrderRequest) : Except String OrderResponse × World :=
  let built := OrderService.buildItems env.newItemID req.Items 0 Float64.zero []
  let total := built.1
  let items := built.2
  match PaymentService.ChargeCustomer invalid w env.stripe total with
  | (.error e, w1) => (.error ("payment failed: " ++ e), w1)
  | (.ok paymentID, w1) =>
    match generatePIN env.rand with
    | .error e => (.error ("pin generation failed: " ++ e), w1)
    | .ok pin =>
      let order : Order :=
        { ID := env.newOrderID, CustomerID := customerID, BusinessID := req.BusinessID,
          Items := items, TotalAmount := total, Status := OrderStatus.Paid, PIN := pin,
          StripePaymentID := paymentID, CreatedAt := env.now, UpdatedAt := env.now }
      match OrderRepository.Create w1 env.dbCreate order with
      | (.error e, w2) => (.error e, w2)
      | (.ok _, w2) =>
        match redisSet w2 env.redisSet ( pinPrefix ++ order.ID.String) pin pinTTL with
        | (.error e, w3) => (.error ("failed to cache PIN: " ++ e), w3)
        | (.ok _, w3) => (.ok { Order := order, PIN := pin }, w3)

/-- What the collaborators answer during one call of ValidatePIN: failures of the store
reads, of the cache read and of the status update, the store's clock, and whether the
final cache delete fails. -/
structure ValidateEnv where
  read : ReadFaults
  redisGet : Option String
  update : Option String
  now : Time
  redisDelFails : Bool
  deriving DecidableEq, Repr

/-- The method `OrderService.ValidatePIN`: lookup, owner check, status check, PIN resolved
from the cache or else the order record, comparison, status update, cache delete; the first
error ends the call. -/
def OrderService.ValidatePIN (w : World) (env : ValidateEnv) (orderID : UUID) (pin : String)
    (claimerID : UUID) : Except String Unit × World :=
  match OrderRepository.GetByID w env.read orderID with
  | .error _ => (.error "order not found", w)
  | .ok order =>
    if order.BusinessID ≠ claimerID then
      (.error "order does not belong to your business", w)
    else if order.Status ≠ OrderStatus.Paid ∧ order.Status ≠ OrderStatus.Ready then
      (.error ("order cannot be completed in status " ++ order.Status.quoted), w)
    else
      match redisGet w env.redisGet ( pinPrefix ++ orderID.String) with
      | .err e => (.error ("failed to verify PIN: " ++ e), w)
      | reply =>
        let cachedPIN : String :=
          match reply with
          | .value v => v
          | _ => order.PIN
        if cachedPIN ≠ pin then (.error "invalid PIN", w)
        else
          match OrderRepository.UpdateStatus w env.update env.now orderID
              OrderStatus.Completed with
          | (.error e, w1) => (.error e, w1)
          | (.ok _, w1) => (.ok (), redisDel w1 env.redisDelFails ( pinPrefix ++ orderID.String))

/-- The method `OrderService.GetByID` passes the call on to the repository. -/
def OrderService.GetByID (w : World) (f : ReadFaults) (id : UUID) : Except String Order :=
  OrderRepository.GetByID w f id

/-! ## The total of the loop as a fold, and the exact sum -/

/-- The float64 subtotal the loop of Create forms for a line, `float64(Quantity) * UnitPrice`:
the conversion and the product are float64 operations, the product is rounded. -/
def lineSubtotal (line : Int × Float64) : Float64 :=
  Float64.mul (Float64.ofInt line.1) line.2

/-- The float64 total the loop of Create arrives at, written as a left fold over the
(quantity, unit price) pairs from `+0`: every product and every sum is a float64 operation
and is rounded. This is the code's total in another form (`buildItems_total_eq_sum`), not
the exact sum, for which see `exactTotal`. -/
def sumOfSubtotals (lines : List (Int × Float64)) : Float64 :=
  (lines.map lineSubtotal).foldl Float64.add Float64.zero

/-- The six-character zero-padded decimal numeral of `n`, digit by digit. -/
def sixDigitNumeral (n : Nat) : String :=
  String.mk [digitChar (n / 100000 % 10), digitChar (n / 10000 % 10), digitChar (n / 1000 % 10),
    digitChar (n / 100 % 10), digitChar (n / 10 % 10), digitChar (n % 10)]

/-- Value of a decimal numeral: the inverse reading of a string of digits. -/
def numeralValue (s : String) : Nat :=
  s.data.foldl (fun acc c => 10 * acc + (c.toNat - 48)) 0

/-- The PIN a supplied PIN is compared with, in the specification's words: the cache entry
when present, otherwise the PIN on the durable order record. -/
def resolvedPIN (w : World) (orderID : UUID) (o : Order) : String :=
  match w.redis.find? (fun c => decide (c.key = pinPrefix ++ orderID.String)) with
  | some c => c.value
  | none => o.PIN

/-! ## JSON bodies (`encoding/json`) -/

/-- The value tree `encoding/json` writes for a Go value. Numbers are kept as the integer
or float64 they render, times as the instant they render (RFC 3339 text in the output). -/
inductive Json
  | null
  | str (s : String)
  | int (n : Int)
  | number (f : Float64)
  | time (t : Time)
  | arr (items : List Json)
  | obj (fields : List (String × Json))

mutual
/-- Every object key that occurs anywhere in a JSON value, in output order. -/
def Json.allKeys : Json → List String
  | .arr items => Json.allKeysList items
  | .obj fields => Json.allKeysFields fields
  | _ => []
/-- The keys occurring in the elements of an array. -/
def Json.allKeysList : List Json → List String
  | [] => []
  | j :: rest => Json.allKeys j ++ Json.allKeysList rest
/-- The keys occurring in the fields of an object. -/
def Json.allKeysFields : List (String × Json) → List String
  | [] => []
  | (k, j) :: rest => k :: (Json.allKeys j ++ Json.allKeysFields rest)
end

/-- Whether the encoder accepts a float64: NaN and the infinities are refused. -/
def Float64.isFinite : Float64 → Bool
  | .finite _ _ _ => true
  | _ => false

mutual
/-- Whether `json.Marshal` succeeds on the value: every float64 in it is finite. -/
def Json.encodable : Json → Bool
  | .number f => f.isFinite
  | .arr items => Json.encodableList items
  | .obj fields => Json.encodableFields fields
  | _ => true
/-- Whether every element of an array can be encoded. -/
def Json.encodableList : List Json → Bool
  | [] => true
  | j :: rest => Json.encodable j && Json.encodableList rest
/-- Whether every field of an object can be encoded. -/
def Json.encodableFields : List (String × Json) → Bool
  | [] => true
  | (_, j) :: rest => Json.encodable j && Json.encodableFields rest
end

/-- The JSON object of an `OrderItem`, field by field as its tags name them. -/
def OrderItem.toJSON (it : OrderItem) : Json :=
  .obj [("id", .str it.ID.String), ("order_id", .str it.OrderID.String),
        ("product_name", .str it.ProductName), ("quantity", .int it.Quantity),
        ("unit_price", .number it.UnitPrice)]

/-- The JSON value of a slice of items. A nil slice (what the store reads yield when there
is no item) is written `null`; the slice Create makes is never nil. -/
def itemsJSON (nilWhenEmpty : Bool) (items : List OrderItem) : Json :=
  if nilWhenEmpty ∧ items = [] then .null else .arr (items.map OrderItem.toJSON)

/-- The JSON fields of an `Order` in declaration order. The field `PIN` is tagged `json:"-"`
and is not written; `stripe_payment_id` is left out when empty. -/
def Order.jsonFields (nilWhenEmpty : Bool) (o : Order) : List (String × Json) :=
  [("id", .str o.ID.String), ("customer_id", .str o.CustomerID.String),
   ("business_id", .str o.BusinessID.String), ("items", itemsJSON nilWhenEmpty o.Items),
   ("total_amount", .number o.TotalAmount), ("status", .str o.Status.toString)] ++
  (if o.StripePaymentID = "" then [] else [("stripe_payment_id", .str o.StripePaymentID)]) ++
  [("created_at", .time o.CreatedAt), ("updated_at", .time o.UpdatedAt)]

/-- The JSON object of an `Order` read from the store. -/
def Order.toJSON (o : Order) : Json := .obj (o.jsonFields true)

/-- The JSON object of an `OrderResponse`: the fields of the embedded `Order`, then `pin`
(tagged `omitempty`). -/
def OrderResponse.toJSON (r : OrderResponse) : Json :=
  .obj (r.Order.jsonFields false ++ (if r.PIN = "" then [] else [("pin", .str r.PIN)]))

/-! ## Reads of the order repository and service -/

/-- Insertion of an order into a list kept newest first. -/
def insertNewestFirst (o : Order) : List Order → List Order
  | [] => [o]
  | r :: rest =>
      if r.CreatedAt ≤ o.CreatedAt then o :: r :: rest else r :: insertNewestFirst o rest

/-- Orders by `created_at DESC` (rows with equal time keep their table order). -/
def sortNewestFirst : List Order → List Order
  | [] => []
  | o :: rest => insertNewestFirst o (sortNewestFirst rest)

/-- The method `OrderRepository.ListByCustomer`: the customer's rows, newest first. The
query does not select the `pin` column and no items are read, so both stay at their zero
value. -/
def OrderRepository.ListByCustomer (w : World) (fault : Option String) (customerID : UUID) :
    Except String (List Order) :=
  match fault with
  | some e => .error e
  | none =>
    .ok ((sortNewestFirst (w.orders.filter (fun r => decide (r.CustomerID = customerID)))).map
      (fun r => { r with PIN := "", Items := [] }))

/-- The method `OrderService.ListByCustomer` passes the call on to the repository. -/
def OrderService.ListByCustomer (w : World) (fault : Option String) (customerID : UUID) :
    Except String (List Order) :=
  OrderRepository.ListByCustomer w fault customerID

/-! ## Order handler (`internal/handler/order_handler.go`)

The results of `uuid.Parse` on the token's user id and on the path parameter, and of
`c.Bind` on the body, are arguments of the handlers. -/

/-- What a handler returns to Echo: a JSON response it wrote, an `echo.HTTPError`, or another
error. -/
inductive HandlerResult
  | json (status : Nat) (body : Json)
  | httpError (code : Nat) (message : String)
  | failure (err : String)

/-- The call `c.JSON(status, v)`: writes the body, or returns the encoder's error. -/
def jsonResponse (status : Nat) (body : Json) : HandlerResult :=
  if body.encodable then .json status body else .failure "json: unsupported value"

/-- The body of `ValidatePINRequest`. -/
structure ValidatePINRequest where
  PIN : String
  deriving DecidableEq, Repr

/-- The handler `OrderHandler.Create`. -/
def OrderHandler.Create (invalid : Float64 → Int) (w : World) (env : CreateEnv)
    (userID : Option UUID) (bind : Except String CreateOrderRequest) : HandlerResult × World :=
  match userID with
  | none => (.httpError 400 "invalid user id in token", w)
  | some customerID =>
    match bind with
    | .error e => (.httpError 400 e, w)
    | .ok req =>
      match OrderService.Create invalid w env customerID req with
      | (.error e, w1) => (.httpError 422 e, w1)
      | (.ok resp, w1) => (jsonResponse 201 resp.toJSON, w1)

/-- The handler `OrderHandler.GetByID`. -/
def OrderHandler.GetByID (w : World) (f : ReadFaults) (idParam : Option UUID) : HandlerResult :=
  match idParam with
  | none => .httpError 400 "invalid order id"
  | some id =>
    match OrderService.GetByID w f id with
    | .error _ => .httpError 404 "order not found"
    | .ok order => jsonResponse 200 order.toJSON

/-- The handler `OrderHandler.ListByUser`. The body is an `echo.Map`, whose keys are
written in sorted order; a nil slice of orders is written `null`. -/
def OrderHandler.ListByUser (w : World) (fault : Option String) (userID : Option UUID) :
    HandlerResult :=
  match userID with
  | none => .httpError 400 "invalid user id in token"
  | some customerID =>
    match OrderService.ListByCustomer w fault customerID with
    | .error e => .httpError 500 e
    | .ok orders =>
      jsonResponse 200
        (.obj [("count", .int orders.length),
               ("data", if orders = [] then .null else .arr (orders.map Order.toJSON))])

/-- The handler `OrderHandler.ValidatePIN`. -/
def OrderHandler.ValidatePIN (w : World) (env : ValidateEnv) (userID idParam : Option UUID)
    (bind : Except String ValidatePINRequest) : HandlerResult × World :=
  match userID with
  | none => (.httpError 400 "invalid user id in token", w)
  | some businessID =>
    match idParam with
    | none => (.httpError 400 "invalid order id", w)
    | some orderID =>
      match bind with
      | .error e => (.httpError 400 e, w)
      | .ok req =>
        match OrderService.ValidatePIN w env orderID req.PIN businessID with
        | (.error e, w1) => (.httpError 400 e, w1)
        | (.ok _, w1) =>
          (jsonResponse 200 (.obj [("message", .str "order completed successfully")]), w1)

/-! ## ValidatePIN between its collaborator calls

Requests are served in parallel, so between two collaborator calls of one ValidatePIN call
the collaborator calls of another request may take place. `Progress` records how far a call
has come; a step is one collaborator call together with the checks that follow it. -/

/-- How far a call of ValidatePIN has come: not started, order fetched and checked, PIN
compared, status updated, or returned. -/
inductive Progress
  | start
  | fetched (order : Order)
  | compared
  | updated
  | done (result : Except String Unit)
  deriving DecidableEq, Repr

/-- The arguments of one ValidatePIN call with what the collaborators answer to it. -/
structure ValidateCall where
  env : ValidateEnv
  orderID : UUID
  pin : String
  claimerID : UUID
  deriving DecidableEq, Repr

/-- The next step of a ValidatePIN call: `GetByID` with the owner and status checks, the
cache read with the PIN comparison, `UpdateStatus`, the cache delete. -/
def OrderService.ValidatePINStep (call : ValidateCall) (p : Progress) (w : World) :
    Progress × World :=
  match p with
  | .start =>
    match OrderRepository.GetByID w call.env.read call.orderID with
    | .error _ => (.done (.error "order not found"), w)
    | .ok order =>
      if order.BusinessID ≠ call.claimerID then
        (.done (.error "order does not belong to your business"), w)
      else if order.Status ≠ OrderStatus.Paid ∧ order.Status ≠ OrderStatus.Ready then
        (.done (.error ("order cannot be completed in status " ++ order.Status.quoted)), w)
      else (.fetched order, w)
  | .fetched order =>
    match redisGet w call.env.redisGet ( pinPrefix ++ call.orderID.String) with
    | .err e => (.done (.error ("failed to verify PIN: " ++ e)), w)
    | reply =>
      let cachedPIN : String :=
        match reply with
        | .value v => v
        | _ => order.PIN
      if cachedPIN ≠ call.pin then (.done (.error "invalid PIN"), w) else (.compared, w)
  | .compared =>
    match OrderRepository.UpdateStatus w call.env.update call.env.now call.orderID
        OrderStatus.Completed with
    | (.error e, w1) => (.done (.error e), w1)
    | (.ok _, w1) => (.updated, w1)
  | .updated =>
    (.done (.ok ()), redisDel w call.env.redisDelFails ( pinPrefix ++ call.orderID.String))
  | .done r => (.done r, w)

/-- A call run on its own: its four steps with nothing in between. -/
def OrderService.ValidatePINAlone (call : ValidateCall) (w : World) : Progress × World :=
  let s1 := OrderService.ValidatePINStep call Progress.start w
  let s2 := OrderService.ValidatePINStep call s1.1 s1.2
  let s3 := OrderService.ValidatePINStep call s2.1 s2.2
  OrderService.ValidatePINStep call s3.1 s3.2

/-- Two calls `a` and `b` run under a schedule: `true` lets `a` take its next step, `false`
lets `b` take its next step. The state is the progress of `a`, of `b`, and the world. -/
def runSchedule (a b : ValidateCall) :
    List Bool → Progress × Progress × World → Progress × Progress × World
  | [], s => s
  | true :: rest, (pa, pb, w) =>
      runSchedule a b rest
        ((OrderService.ValidatePINStep a pa w).1, pb, (OrderService.ValidatePINStep a pa w).2)
  | false :: rest, (pa, pb, w) =>
      runSchedule a b rest
        (pa, (OrderService.ValidatePINStep b pb w).1, (OrderService.ValidatePINStep b pb w).2)

/-! ## Status lifecycle -/

/-- Position of a status in the lifecycle Pending → Paid → Ready → Completed. Cancelled is
not on that line. -/
def OrderStatus.rank : OrderStatus → Option Nat
  | .Pending => some 0
  | .Paid => some 1
  | .Ready => some 2
  | .Completed => some 3
  | .Cancelled => none

/-- Whether `new` comes later than `old` in the lifecycle. -/
def OrderStatus.laterThan (new old : OrderStatus) : Bool :=
  match old.rank, new.rank with
  | some i, some j => decide (i < j)
  | _, _ => false

/-- Modelled from the spec: the declaration of the `orders` table is not among the sources.
The specification gives every order a unique identifier assigned at creation; the predicate
says that no two rows of the table carry the same id (the id is the key of the table). -/
def World.uniqueOrderIDs (w : World) : Prop := (w.orders.map (fun r => r.ID)).Nodup

/-- What a step of the workflow may do to a row, in the words of the lifecycle: the id
stays, and the status stays or goes from Paid or Ready to Completed. -/
def rowStep (r r' : Order) : Prop :=
  r'.ID = r.ID ∧
  (r'.Status = r.Status ∨
    ((r.Status = OrderStatus.Paid ∨ r.Status = OrderStatus.Ready) ∧
      r'.Status = OrderStatus.Completed))

/-! ## States that differ in their PINs -/

/-- The state in which every stored PIN is replaced (`g` gives the new PIN of each row) and
the cache holds `cache`; every other column and table is as in `w`. -/
def World.withPINs (w : World) (g : Order → String) (cache : List CacheEntry) : World :=
  { w with orders := w.orders.map (fun r => { r with PIN := g r }), redis := cache }

/-! ## JWT middleware (`internal/middleware/auth.go`)

The token library `github.com/golang-jwt/jwt/v5` is not part of the repository: the decoding
of a token string, the signature check and the validation of the registered claims are
parameters. Header values are taken as text. -/

/-- The struct `JWTClaims`, with the expiry of the embedded `jwt.RegisteredClaims`. -/
structure JWTClaims where
  UserID : String
  Email : String
  Role : String
  ExpiresAt : Option Time
  deriving DecidableEq, Repr

/-- The signing method named in a token header, as far as the middleware tells methods
apart: `*jwt.SigningMethodHMAC` or any other type. -/
inductive SigningMethod
  | hmac
  | other
  deriving DecidableEq, Repr

/-- The token `jwt.Parser` decodes from the three segments, before any check. -/
structure DecodedToken where
  Method : SigningMethod
  Claims : JWTClaims
  deriving DecidableEq, Repr

/-- The token library: `decode` reads the segments of a token string (none when it is
malformed), `verify` checks the signature of a token string for a method under a key, and
`claimsValid` validates the registered claims (the expiry among them) at the time of the
call. -/
structure JWTLibrary where
  decode : String → Option DecodedToken
  verify : String → SigningMethod → String → Bool
  claimsValid : JWTClaims → Bool

/-- The function `jwt.ParseWithClaims`: decode, ask the key function for the key, check the
signature, validate the claims. With a nil error the token returned has `Valid` set. -/
def jwtParseWithClaims (lib : JWTLibrary) (tokenString : String)
    (keyFunc : DecodedToken → Except String String) : Except String DecodedToken :=
  match lib.decode tokenString with
  | none => .error "token is malformed"
  | some t =>
    match keyFunc t with
    | .error e => .error ("token is unverifiable: error while executing keyfunc: " ++ e)
    | .ok key =>
      if lib.verify tokenString t.Method key = false then .error "token signature is invalid"
      else if lib.claimsValid t.Claims = false then .error "token has invalid claims"
      else .ok t

/-- The part before the first space and the part after it; none when there is no space. -/
def cutAtSpace : List Char → Option (List Char × List Char)
  | [] => none
  | c :: rest =>
      if c = ' ' then some ([], rest)
      else (cutAtSpace rest).map (fun p => (c :: p.1, p.2))

/-- The call `strings.SplitN(s, " ", 2)`: at most two parts, split at the first space. -/
def splitN2 (s : String) : List String :=
  match cutAtSpace s.data with
  | none => [s]
  | some (a, b) => [String.mk a, String.mk b]

/-- The call `strings.EqualFold(s, "bearer")`. Under Unicode simple case folding the letters
b, e, a and r are equal to their capitals only, so the comparison is that of the ASCII
lowercase forms. -/
def equalFoldBearer (s : String) : Bool :=
  decide (s.data.map Char.toLower = "bearer".data)

/-- The part of an `echo.Context` the middleware works with: the Authorization header of
the request (empty when absent) and the value stored under the key "claims". -/
structure EchoContext where
  authorization : String
  claims : Option JWTClaims
  deriving DecidableEq, Repr

/-- The key function the middleware hands to the parser: the secret for an HMAC method,
an error for any other. -/
def JWT.keyFunc (secret : String) (t : DecodedToken) : Except String String :=
  match t.Method with
  | .hmac => .ok secret
  | .other => .error "unexpected signing method"

/-- The middleware `JWT(secret)(next)`. The handler `next` works on a state of type `σ`,
which the middleware itself never touches. -/
def JWT {σ : Type} (lib : JWTLibrary) (secret : String)
    (next : EchoContext → σ → HandlerResult × σ) (c : EchoContext) (s : σ) :
    HandlerResult × σ :=
  if c.authorization = "" then (.httpError 401 "missing authorization header", s)
  else
    match splitN2 c.authorization with
    | [scheme, token] =>
      if equalFoldBearer scheme = false then
        (.httpError 401 "authorization header must be: Bearer <token>", s)
      else
        match jwtParseWithClaims lib token (JWT.keyFunc secret) with
        | .error _ => (.httpError 401 "invalid or expired token", s)
        | .ok t => next { c with claims := some t.Claims } s
    | _ => (.httpError 401 "authorization header must be: Bearer <token>", s)

/-- Whether a token string passes the verification of the middleware under the secret: it
decodes, names an HMAC method, carries a signature valid under the secret, and its claims
are valid. -/
def tokenVerifies (lib : JWTLibrary) (secret token : String) : Bool :=
  match lib.decode token with
  | none => false
  | some t =>
    decide (t.Method = SigningMethod.hmac) && lib.verify token t.Method secret &&
      lib.claimsValid t.Claims

/-! ## Sequences of calls -/

/-- One event on the order store and the PIN cache: a Create call or a ValidatePIN call,
each with its arguments and with what the collaborators answer to it, or the expiry of
cache entries (`keep` tells which entries stay). -/
inductive Call
  | create (env : CreateEnv) (customerID : UUID) (req : CreateOrderRequest)
  | validatePIN (env : ValidateEnv) (orderID : UUID) (pin : String) (claimerID : UUID)
  | expire (keep : CacheEntry → Bool)

/-- The state after an event. -/
def Call.run (invalid : Float64 → Int) : Call → World → World
  | .create env customerID req, w => (OrderService.Create invalid w env customerID req).2
  | .validatePIN env orderID pin claimerID, w =>
      (OrderService.ValidatePIN w env orderID pin claimerID).2
  | .expire keep, w => { w with redis := w.redis.filter keep }

/-- Modelled from the spec: the declaration of the `orders` table is not among the sources.
The order store is keyed by the order identifier, so an insert under an id that a row
already carries does not succeed. The state after a sequence of events is given when the
ids stay unique all along, and none for a sequence that lets such an insert succeed. -/
def runCalls (invalid : Float64 → Int) : List Call → World → Option World
  | [], w => some w
  | c :: rest, w =>
      if ((c.run invalid w).orders.map (fun r => r.ID)).Nodup then
        runCalls invalid rest (c.run invalid w)
      else none

/-- ValidatePIN as it would be if the supplied PIN were always compared with the PIN on the
durable order record: the method with `cachedPIN != pin` replaced by `order.PIN != pin`, and
everything else, the cache read and its failure included, as it is. -/
def OrderService.ValidatePINAgainstDurablePIN (w : World) (env : ValidateEnv) (orderID : UUID)
    (pin : String) (claimerID : UUID) : Except String Unit × World :=
  match OrderRepository.GetByID w env.read orderID with
  | .error _ => (.error "order not found", w)
  | .ok order =>
    if order.BusinessID ≠ claimerID then
      (.error "order does not belong to your business", w)
    else if order.Status ≠ OrderStatus.Paid ∧ order.Status ≠ OrderStatus.Ready then
      (.error ("order cannot be completed in status " ++ order.Status.quoted), w)
    else
      match redisGet w env.redisGet ( pinPrefix ++ orderID.String) with
      | .err e => (.error ("failed to verify PIN: " ++ e), w)
      | _ =>
        if order.PIN ≠ pin then (.error "invalid PIN", w)
        else
          match OrderRepository.UpdateStatus w env.update env.now orderID
              OrderStatus.Completed with
          | (.error e, w1) => (.error e, w1)
          | (.ok _, w1) => (.ok (), redisDel w1 env.redisDelFails ( pinPrefix ++ orderID.String))

/-- Cache coherence: every cache entry lies under the PIN key of a stored order and holds
that order's PIN. -/
def World.cacheCoherent (w : World) : Prop :=
  ∀ c ∈ w.redis, ∃ row ∈ w.orders, c.key = pinPrefix ++ row.ID.String ∧ row.PIN = c.value

/-! ## Sample data -/

namespace Sample

def orderID : UUID := ⟨"6f1c2a9e-3b7d-4c55-9a10-2d8e4f6b7c01"⟩

def customerID : UUID := ⟨"0b9d6f3a-71c4-4e2b-8f0a-5c3e9d1a2b02"⟩

def businessID : UUID := ⟨"c4a7e1d2-9f3b-4a68-b5d0-7e2f1c8a9b03"⟩

def otherBusinessID : UUID := ⟨"d5b8f2e3-0a4c-4b79-86e1-8f3a2d9b0c04"⟩

/-- An order of the sample business with PIN 004217, in the given status. -/
def order (st : OrderStatus) : Order :=
  { ID := orderID, CustomerID := customerID, BusinessID := businessID, Items := [],
    TotalAmount := Float64.ofDecimal 2498 2, Status := st, PIN := "004217",
    StripePaymentID := "pi_3PqL", CreatedAt := 1000, UpdatedAt := 1000 }

/-- A store holding the sample order and the given cache keys. -/
def world (st : OrderStatus) (cache : List CacheEntry) : World :=
  { World.empty with orders := [order st], redis := cache }

/-- The cache entry Create wrote for the sample order. -/
def pinEntry : CacheEntry := ⟨"order:pin:6f1c2a9e-3b7d-4c55-9a10-2d8e4f6b7c01", "004217", pinTTL⟩

/-- A validation call during which no collaborator fails; the store's clock shows 2000. -/
def calm : ValidateEnv :=
  { read := ReadFaults.none, redisGet := none, update := none, now := 2000,
    redisDelFails := false }

/-- As `calm`, but the final cache delete fails. -/
def delFails : ValidateEnv := { calm with redisDelFails := true }

/-- The cart of the specification's example scenario: 2 widgets at 9.99, 1 gadget at 5.00. -/
def cart : CreateOrderRequest :=
  { BusinessID := businessID,
    Items := [⟨"widget", 2, Float64.ofDecimal 999 2⟩, ⟨"gadget", 1, Float64.ofDecimal 500 2⟩] }

/-- A cart worth 0.25. -/
def smallCart : CreateOrderRequest :=
  { BusinessID := businessID, Items := [⟨"sticker", 1, Float64.ofDecimal 25 2⟩] }

/-- The identifiers `uuid.New()` hands out for the cart lines. -/
def itemID (k : Nat) : UUID :=
  if k = 0 then ⟨"a1e2d3c4-5f60-4718-8293-a4b5c6d7e801"⟩
  else ⟨"a1e2d3c4-5f60-4718-8293-a4b5c6d7e802"⟩

/-- A Create call during which every collaborator answers: the processor returns a
PaymentIntent id, the random source draws 4217, the clock shows 1000. -/
def createEnv : CreateEnv :=
  { newItemID := itemID, stripe := .ok "pi_3PqL", rand := .ok 4217, now := 1000,
    newOrderID := orderID, dbCreate := none, redisSet := none }

/-- As `createEnv`, but the request to the payment processor fails. -/
def stripeDown : CreateEnv := { createEnv with stripe := .error "Invalid API Key provided" }

/-- The order Create assembles from `cart` under `createEnv`, for a given payment id. -/
def assembled (paymentID : String) : Order :=
  { ID := orderID, CustomerID := customerID, BusinessID := businessID,
    Items := [⟨itemID 0, UUID.Nil, "widget", 2, Float64.ofDecimal 999 2⟩,
              ⟨itemID 1, UUID.Nil, "gadget", 1, Float64.ofDecimal 500 2⟩],
    TotalAmount := Float64.ofDecimal 2498 2, Status := OrderStatus.Paid, PIN := "004217",
    StripePaymentID := paymentID, CreatedAt := 1000, UpdatedAt := 1000 }

/-- As `createEnv`, but the cache write fails. -/
def cacheDown : CreateEnv := { createEnv with redisSet := some "dial tcp: connection refused" }

/-- A validation call for the sample order by its business with the correct PIN, during
which no collaborator fails. -/
def claim : ValidateCall := ⟨calm, orderID, "004217", businessID⟩

/-- The schedule in which two calls take their steps in turn. -/
def alternating : List Bool := [true, false, true, false, true, false, true, false]

/-- The schedule in which the second call starts after the first has returned. -/
def oneAfterTheOther : List Bool := [true, true, true, true, false, false, false, false]

/-- A cart whose first line has quantity zero: 0 widgets at 9.99, 1 gadget at 5.00. -/
def zeroQuantityCart : CreateOrderRequest :=
  { BusinessID := businessID,
    Items := [⟨"widget", 0, Float64.ofDecimal 999 2⟩, ⟨"gadget", 1, Float64.ofDecimal 500 2⟩] }

/-- The order Create assembles from `zeroQuantityCart` under `createEnv`. -/
def zeroQuantityOrder : Order :=
  { ID := orderID, CustomerID := customerID, BusinessID := businessID,
    Items := [⟨itemID 0, UUID.Nil, "widget", 0, Float64.ofDecimal 999 2⟩,
              ⟨itemID 1, UUID.Nil, "gadget", 1, Float64.ofDecimal 500 2⟩],
    TotalAmount := Float64.ofDecimal 500 2, Status := OrderStatus.Paid, PIN := "004217",
    StripePaymentID := "pi_3PqL", CreatedAt := 1000, UpdatedAt := 1000 }

/-- A token library that knows three token strings: a good token, an expired one, and one
signed by a method that is not HMAC; signatures are those made under "test-secret-key". -/
def jwtLib : JWTLibrary :=
  { decode := fun tok =>
      if tok = "good.token.sig" then some ⟨.hmac, ⟨"user-123", "test@example.com", "customer", some 5000⟩⟩
      else if tok = "old.token.sig" then some ⟨.hmac, ⟨"user-123", "test@example.com", "customer", some 10⟩⟩
      else if tok = "rsa.token.sig" then some ⟨.other, ⟨"user-123", "test@example.com", "customer", some 5000⟩⟩
      else none
    verify := fun _ _ key => decide (key = "test-secret-key")
    claimsValid := fun cl => match cl.ExpiresAt with
      | none => true
      | some t => decide (1000 < t) }

/-- A next handler that answers 200 and counts its invocations. -/
def countingNext (_ : EchoContext) (n : Nat) : HandlerResult × Nat :=
  (.json 200 (.str "ok"), n + 1)

/-- A history: the example cart is ordered, then the business tries a wrong PIN. -/
def history : List Call :=
  [.create createEnv customerID cart, .validatePIN calm orderID "000000" businessID]

end Sample

set_option maxRecDepth 100000

/-! ## Lemmas on the repository -/

theorem find?_map_keeping_id (g : Order → Order) (hg : ∀ r, (g r).ID = r.ID) (id : UUID)
    (l : List Order) :
    (l.map g).find? (fun r => decide (r.ID = id)) =
      (l.find? (fun r => decide (r.ID = id))).map g := by
  induction l with
  | nil => rfl
  | cons a t ih =>
    by_cases h : a.ID = id
    · simp [List.find?_cons, hg, h]
    · simp [List.find?_cons, hg, h, ih]

/-- A successful `GetByID` means that neither query failed and that the first row with the
id is the order returned, up to its items. -/
theorem getByID_ok {w : World} {f : ReadFaults} {id : UUID} {o : Order}
    (h : OrderRepository.GetByID w f id = .ok o) :
    f = ReadFaults.none ∧
    ∃ row, w.orders.find? (fun r => decide (r.ID = id)) = some row ∧ row.ID = id ∧
      o = { row with Items := OrderRepository.getItems w id } := by
  unfold OrderRepository.GetByID at h
  split at h
  · cases h
  · split at h
    · cases h
    · split at h
      · cases h
      · rename_i hq row hrow _ hitems
        injection h with h
        have hid : row.ID = id := by simpa using List.find?_some hrow
        refine ⟨?_, row, hrow, hid, h.symm⟩
        cases f
        simp_all [ReadFaults.none]

/-- After a status update that took effect (and the cache delete, whatever its outcome),
`GetByID` returns the same order with the new status and update time. -/
theorem getByID_after_update (w : World) (now : Time) (id : UUID) (st : OrderStatus)
    (o : Order) (f : ReadFaults) (fails : Bool) (key : String)
    (h : OrderRepository.GetByID w f id = .ok o) :
    OrderRepository.GetByID
      (redisDel (OrderRepository.UpdateStatus w none now id st).2 fails key) ReadFaults.none id =
      .ok { o with Status := st, UpdatedAt := now } := by
  obtain ⟨_, row, hrow, hid, rfl⟩ := getByID_ok h
  have horders :
      (redisDel (OrderRepository.UpdateStatus w none now id st).2 fails key).orders =
        w.orders.map
          (fun r => if r.ID = id then { r with Status := st, UpdatedAt := now } else r) := by
    cases fails <;> rfl
  have hfind :
      (redisDel (OrderRepository.UpdateStatus w none now id st).2 fails key).orders.find?
        (fun r => decide (r.ID = id)) = some { row with Status := st, UpdatedAt := now } := by
    rw [horders, find?_map_keeping_id _ (fun r => by by_cases hr : r.ID = id <;> simp [hr]),
      hrow]
    simp [hid]
  have hitems : OrderRepository.getItems
      (redisDel (OrderRepository.UpdateStatus w none now id st).2 fails key) id =
      OrderRepository.getItems w id := by
    cases fails <;> rfl
  unfold OrderRepository.GetByID
  simp only [ReadFaults.none, hfind, hitems]

/-- Appending a non-empty string changes a string. -/
theorem append_ne_self (p rest : String) (h : rest ≠ "") : p ++ rest ≠ p := by
  intro heq
  have hlen := congrArg String.length heq
  rw [String.length_append] at hlen
  apply h
  cases rest with
  | mk data =>
    cases data with
    | nil => rfl
    | cons c t =>
      have hc : (String.mk (c :: t)).length = t.length + 1 := rfl
      omega

/-- Putting a non-empty string in front changes a string. -/
theorem prepend_ne_self (p rest : String) (h : rest ≠ "") : rest ++ p ≠ p := by
  intro heq
  have hlen := congrArg String.length heq
  rw [String.length_append] at hlen
  apply h
  cases rest with
  | mk data =>
    cases data with
    | nil => rfl
    | cons c t =>
      have hc : (String.mk (c :: t)).length = t.length + 1 := rfl
      omega

/-! ## ValidatePIN -/

/-- C1: when `GetByID` returns an order in status Paid that belongs to the claimer, the
supplied PIN equals the order's PIN, the cache read yields that PIN or a miss, and the
status update takes effect, then ValidatePIN returns no error and the order read back has
status Completed, whether or not the cache delete fails; a second call with the same
arguments on the resulting state returns the invalid-state error (not the invalid-PIN
error) and changes nothing, so the status stays Completed. -/
theorem validatePIN_paid_completes_once
    (w : World) (env env2 : ValidateEnv) (orderID claimerID : UUID) (pin : String) (o : Order)
    (hget : OrderRepository.GetByID w env.read orderID = .ok o)
    (hstatus : o.Status = OrderStatus.Paid)
    (hown : o.BusinessID = claimerID)
    (hpin : pin = o.PIN)
    (hcache : redisGet w env.redisGet ( pinPrefix ++ orderID.String) = RedisReply.value o.PIN ∨
      redisGet w env.redisGet ( pinPrefix ++ orderID.String) = RedisReply.Nil)
    (hupdate : env.update = none)
    (hread2 : env2.read = ReadFaults.none) :
    (OrderService.ValidatePIN w env orderID pin claimerID).1 = .ok () ∧
    OrderRepository.GetByID (OrderService.ValidatePIN w env orderID pin claimerID).2
        ReadFaults.none orderID =
      .ok { o with Status := OrderStatus.Completed, UpdatedAt := env.now } ∧
    OrderService.ValidatePIN (OrderService.ValidatePIN w env orderID pin claimerID).2 env2
        orderID pin claimerID =
      (.error "order cannot be completed in status \"completed\"",
        (OrderService.ValidatePIN w env orderID pin claimerID).2) := by
  have hfirst : OrderService.ValidatePIN w env orderID pin claimerID =
      (.ok (), redisDel (OrderRepository.UpdateStatus w none env.now orderID
        OrderStatus.Completed).2 env.redisDelFails ( pinPrefix ++ orderID.String)) := by
    unfold OrderService.ValidatePIN
    rcases hcache with hc | hc <;>
      simp [hget, hstatus, hown, hpin, hc, hupdate, OrderRepository.UpdateStatus]
  have hafter := getByID_after_update w env.now orderID OrderStatus.Completed o env.read
    env.redisDelFails ( pinPrefix ++ orderID.String) hget
  refine ⟨by rw [hfirst], by rw [hfirst]; exact hafter, ?_⟩
  rw [hfirst]
  unfold OrderService.ValidatePIN
  rw [hread2, hafter]
  simp [hown, OrderStatus.quoted, OrderStatus.toString]

/-- C1 at the sample order, with the PIN cached and the cache delete failing. -/
theorem validatePIN_paid_completes_once_witness :
    (OrderService.ValidatePIN (Sample.world OrderStatus.Paid [Sample.pinEntry]) Sample.delFails
        Sample.orderID "004217" Sample.businessID).1 = .ok () ∧
    OrderRepository.GetByID
        (OrderService.ValidatePIN (Sample.world OrderStatus.Paid [Sample.pinEntry])
          Sample.delFails Sample.orderID "004217" Sample.businessID).2
        ReadFaults.none Sample.orderID =
      .ok { Sample.order OrderStatus.Paid with
            Status := OrderStatus.Completed, UpdatedAt := Sample.delFails.now } ∧
    OrderService.ValidatePIN
        (OrderService.ValidatePIN (Sample.world OrderStatus.Paid [Sample.pinEntry])
          Sample.delFails Sample.orderID "004217" Sample.businessID).2
        Sample.calm Sample.orderID "004217" Sample.businessID =
      (.error "order cannot be completed in status \"completed\"",
        (OrderService.ValidatePIN (Sample.world OrderStatus.Paid [Sample.pinEntry])
          Sample.delFails Sample.orderID "004217" Sample.businessID).2) :=
  validatePIN_paid_completes_once (Sample.world OrderStatus.Paid [Sample.pinEntry])
    Sample.delFails Sample.calm Sample.orderID Sample.businessID "004217"
    (Sample.order OrderStatus.Paid) (by decide) (by decide) (by decide) (by decide)
    (Or.inl (by decide)) (by decide) (by decide)

/-- C2: when `GetByID` returns an order whose business differs from the claimer, ValidatePIN
returns the error "order does not belong to your business" for every supplied PIN and
every status, and the state (order store, cache, logs) is the one before the call. -/
theorem validatePIN_other_business_rejected
    (w : World) (env : ValidateEnv) (orderID claimerID : UUID) (pin : String) (o : Order)
    (hget : OrderRepository.GetByID w env.read orderID = .ok o)
    (hother : claimerID ≠ o.BusinessID) :
    OrderService.ValidatePIN w env orderID pin claimerID =
      (.error "order does not belong to your business", w) := by
  unfold OrderService.ValidatePIN
  simp [hget, Ne.symm hother]

/-- C2 at the sample order, claimed by another business with the correct PIN. -/
theorem validatePIN_other_business_rejected_witness :
    OrderService.ValidatePIN (Sample.world OrderStatus.Paid [Sample.pinEntry]) Sample.calm
        Sample.orderID "004217" Sample.otherBusinessID =
      (.error "order does not belong to your business",
        Sample.world OrderStatus.Paid [Sample.pinEntry]) :=
  validatePIN_other_business_rejected (Sample.world OrderStatus.Paid [Sample.pinEntry])
    Sample.calm Sample.orderID Sample.otherBusinessID "004217" (Sample.order OrderStatus.Paid)
    (by decide) (by decide)

/-- C3: for an order of the claimer in status Paid or Ready and a cache read that does not
fail, every supplied PIN that differs from the resolved PIN (the cache entry when present,
otherwise the durable PIN) gets the error "invalid PIN" and the state is the one before the
call; in particular a supplied PIN that is only a proper initial or final part of the
resolved PIN is rejected. -/
theorem validatePIN_wrong_pin_rejected
    (w : World) (env : ValidateEnv) (orderID claimerID : UUID) (o : Order)
    (hget : OrderRepository.GetByID w env.read orderID = .ok o)
    (hown : o.BusinessID = claimerID)
    (hstatus : o.Status = OrderStatus.Paid ∨ o.Status = OrderStatus.Ready)
    (hread : env.redisGet = none) :
    (∀ pin : String, pin ≠ resolvedPIN w orderID o →
      OrderService.ValidatePIN w env orderID pin claimerID = (.error "invalid PIN", w)) ∧
    (∀ pin rest : String, rest ≠ "" → pin ++ rest = resolvedPIN w orderID o →
      OrderService.ValidatePIN w env orderID pin claimerID = (.error "invalid PIN", w)) ∧
    (∀ pin rest : String, rest ≠ "" → rest ++ pin = resolvedPIN w orderID o →
      OrderService.ValidatePIN w env orderID pin claimerID = (.error "invalid PIN", w)) := by
  have main : ∀ pin : String, pin ≠ resolvedPIN w orderID o →
      OrderService.ValidatePIN w env orderID pin claimerID = (.error "invalid PIN", w) := by
    intro pin hne
    unfold resolvedPIN at hne
    unfold OrderService.ValidatePIN redisGet
    simp only [hget, hread]
    cases hfind : w.redis.find? (fun c => decide (c.key = pinPrefix ++ orderID.String)) with
    | none =>
      rw [hfind] at hne
      rcases hstatus with hs | hs <;> simp [hown, hs, Ne.symm hne]
    | some c =>
      rw [hfind] at hne
      rcases hstatus with hs | hs <;> simp [hown, hs, Ne.symm hne]
  refine ⟨main, ?_, ?_⟩
  · intro pin rest hrest heq
    exact main pin (heq ▸ (append_ne_self pin rest hrest).symm)
  · intro pin rest hrest heq
    exact main pin (heq ▸ (prepend_ne_self pin rest hrest).symm)

/-- C3 at the sample order in status Ready with its PIN cached: the supplied PIN 00421, the
first five digits of 004217, is rejected and the state is unchanged. -/
theorem validatePIN_wrong_pin_rejected_witness :
    OrderService.ValidatePIN (Sample.world OrderStatus.Ready [Sample.pinEntry]) Sample.calm
        Sample.orderID "00421" Sample.businessID =
      (.error "invalid PIN", Sample.world OrderStatus.Ready [Sample.pinEntry]) :=
  (validatePIN_wrong_pin_rejected (Sample.world OrderStatus.Ready [Sample.pinEntry])
    Sample.calm Sample.orderID Sample.businessID (Sample.order OrderStatus.Ready)
    (by decide) (by decide) (Or.inr (by decide)) (by decide)).2.1 "00421" "7"
    (by decide) (by decide)

/-- C4: for an order of the claimer in status Paid or Ready whose cache read is a miss, a
supplied PIN equal to the PIN on the durable record is accepted: when the status update
takes effect ValidatePIN returns no error and the order read back has status Completed. The
miss by itself is never the reason of a failure: on a miss every supplied PIN gets the
result it would get with the durable PIN in the cache. -/
theorem validatePIN_cache_miss_falls_back
    (w : World) (env : ValidateEnv) (orderID claimerID : UUID) (pin : String) (o : Order)
    (hget : OrderRepository.GetByID w env.read orderID = .ok o)
    (hown : o.BusinessID = claimerID)
    (hstatus : o.Status = OrderStatus.Paid ∨ o.Status = OrderStatus.Ready)
    (hmiss : redisGet w env.redisGet ( pinPrefix ++ orderID.String) = RedisReply.Nil)
    (hpin : pin = o.PIN)
    (hupdate : env.update = none) :
    (OrderService.ValidatePIN w env orderID pin claimerID).1 = .ok () ∧
    OrderRepository.GetByID (OrderService.ValidatePIN w env orderID pin claimerID).2
        ReadFaults.none orderID =
      .ok { o with Status := OrderStatus.Completed, UpdatedAt := env.now } ∧
    (∀ other : String, (OrderService.ValidatePIN w env orderID other claimerID).1 =
      if other = o.PIN then .ok () else .error "invalid PIN") := by
  have hfirst : OrderService.ValidatePIN w env orderID pin claimerID =
      (.ok (), redisDel (OrderRepository.UpdateStatus w none env.now orderID
        OrderStatus.Completed).2 env.redisDelFails ( pinPrefix ++ orderID.String)) := by
    unfold OrderService.ValidatePIN
    rcases hstatus with hs | hs <;>
      simp [hget, hs, hown, hpin, hmiss, hupdate, OrderRepository.UpdateStatus]
  have hafter := getByID_after_update w env.now orderID OrderStatus.Completed o env.read
    env.redisDelFails ( pinPrefix ++ orderID.String) hget
  refine ⟨by rw [hfirst], by rw [hfirst]; exact hafter, ?_⟩
  intro other
  unfold OrderService.ValidatePIN
  by_cases hother : other = o.PIN
  · rcases hstatus with hs | hs <;>
      simp [hget, hs, hown, hother, hmiss, hupdate, OrderRepository.UpdateStatus]
  · rcases hstatus with hs | hs <;>
      simp [hget, hs, hown, hother, Ne.symm hother, hmiss]

/-- C4 at the sample order in status Ready with an empty cache. -/
theorem validatePIN_cache_miss_falls_back_witness :
    (OrderService.ValidatePIN (Sample.world OrderStatus.Ready []) Sample.calm
        Sample.orderID "004217" Sample.businessID).1 = .ok () ∧
    OrderRepository.GetByID
        (OrderService.ValidatePIN (Sample.world OrderStatus.Ready []) Sample.calm
          Sample.orderID "004217" Sample.businessID).2 ReadFaults.none Sample.orderID =
      .ok { Sample.order OrderStatus.Ready with
            Status := OrderStatus.Completed, UpdatedAt := Sample.calm.now } ∧
    (∀ other : String,
      (OrderService.ValidatePIN (Sample.world OrderStatus.Ready []) Sample.calm
        Sample.orderID other Sample.businessID).1 =
      if other = (Sample.order OrderStatus.Ready).PIN then .ok () else .error "invalid PIN") :=
  validatePIN_cache_miss_falls_back (Sample.world OrderStatus.Ready []) Sample.calm
    Sample.orderID Sample.businessID "004217" (Sample.order OrderStatus.Ready)
    (by decide) (by decide) (Or.inr (by decide)) (by decide) (by decide) (by decide)

/-- C5: for an order of the claimer whose status is neither Paid nor Ready (so Pending,
Completed or Cancelled), ValidatePIN returns the invalid-state error, which names the
status, for every supplied PIN, the correct one included, and the state is the one before
the call. -/
theorem validatePIN_invalid_state
    (w : World) (env : ValidateEnv) (orderID claimerID : UUID) (pin : String) (o : Order)
    (hget : OrderRepository.GetByID w env.read orderID = .ok o)
    (hown : o.BusinessID = claimerID)
    (hstatus : o.Status ≠ OrderStatus.Paid ∧ o.Status ≠ OrderStatus.Ready) :
    (o.Status = OrderStatus.Pending ∨ o.Status = OrderStatus.Completed ∨
      o.Status = OrderStatus.Cancelled) ∧
    OrderService.ValidatePIN w env orderID pin claimerID =
      (.error ("order cannot be completed in status " ++ o.Status.quoted), w) := by
  constructor
  · cases hs : o.Status <;> simp_all
  · unfold OrderService.ValidatePIN
    simp [hget, hown, hstatus.1, hstatus.2]

/-- C5 at the sample order in status Cancelled, with its PIN still cached and supplied. -/
theorem validatePIN_invalid_state_witness :
    ((Sample.order OrderStatus.Cancelled).Status = OrderStatus.Pending ∨
      (Sample.order OrderStatus.Cancelled).Status = OrderStatus.Completed ∨
      (Sample.order OrderStatus.Cancelled).Status = OrderStatus.Cancelled) ∧
    OrderService.ValidatePIN (Sample.world OrderStatus.Cancelled [Sample.pinEntry]) Sample.calm
        Sample.orderID "004217" Sample.businessID =
      (.error ("order cannot be completed in status " ++
          (Sample.order OrderStatus.Cancelled).Status.quoted),
        Sample.world OrderStatus.Cancelled [Sample.pinEntry]) :=
  validatePIN_invalid_state (Sample.world OrderStatus.Cancelled [Sample.pinEntry]) Sample.calm
    Sample.orderID Sample.businessID "004217" (Sample.order OrderStatus.Cancelled)
    (by decide) (by decide) (by decide)

/-! ## generatePIN -/

theorem digitChar_zero : digitChar 0 = '0' := rfl

/-- A digit below ten is written as one of the characters 0 to 9, and read back as itself. -/
theorem digitChar_spec (d : Nat) (h : d < 10) :
    '0' ≤ digitChar d ∧ digitChar d ≤ '9' ∧ (digitChar d).toNat - 48 = d := by
  interval_cases d <;> decide

/-- The digit loop followed by zero padding to width 6 writes exactly the six decimal digits
of a number below one million. -/
theorem fmtDigits_six (n : Nat) (h : n < 1000000) :
    List.replicate (6 - (fmtDigits 20 n []).length) '0' ++ fmtDigits 20 n [] =
      [digitChar (n / 100000 % 10), digitChar (n / 10000 % 10), digitChar (n / 1000 % 10),
        digitChar (n / 100 % 10), digitChar (n / 10 % 10), digitChar (n % 10)] := by
  have d2 : n / 10 / 10 = n / 100 := by omega
  have d3 : n / 100 / 10 = n / 1000 := by omega
  have d4 : n / 1000 / 10 = n / 10000 := by omega
  have d5 : n / 10000 / 10 = n / 100000 := by omega
  by_cases h1 : n < 10
  · have e5 : n / 100000 % 10 = 0 := by omega
    have e4 : n / 10000 % 10 = 0 := by omega
    have e3 : n / 1000 % 10 = 0 := by omega
    have e2 : n / 100 % 10 = 0 := by omega
    have e1 : n / 10 % 10 = 0 := by omega
    have e0 : n % 10 = n := by omega
    rw [e5, e4, e3, e2, e1, e0]
    simp [fmtDigits, h1, digitChar_zero, List.replicate]
  by_cases h2 : n / 10 < 10
  · have e5 : n / 100000 % 10 = 0 := by omega
    have e4 : n / 10000 % 10 = 0 := by omega
    have e3 : n / 1000 % 10 = 0 := by omega
    have e2 : n / 100 % 10 = 0 := by omega
    have e1 : n / 10 % 10 = n / 10 := by omega
    rw [e5, e4, e3, e2, e1]
    simp [fmtDigits, h1, h2, digitChar_zero, List.replicate]
  by_cases h3 : n / 100 < 10
  · have e5 : n / 100000 % 10 = 0 := by omega
    have e4 : n / 10000 % 10 = 0 := by omega
    have e3 : n / 1000 % 10 = 0 := by omega
    have e2 : n / 100 % 10 = n / 100 := by omega
    rw [e5, e4, e3, e2]
    simp [fmtDigits, h1, h2, h3, d2, digitChar_zero, List.replicate]
  by_cases h4 : n / 1000 < 10
  · have e5 : n / 100000 % 10 = 0 := by omega
    have e4 : n / 10000 % 10 = 0 := by omega
    have e3 : n / 1000 % 10 = n / 1000 := by omega
    rw [e5, e4, e3]
    simp [fmtDigits, h1, h2, h3, h4, d2, d3, digitChar_zero, List.replicate]
  by_cases h5 : n / 10000 < 10
  · have e5 : n / 100000 % 10 = 0 := by omega
    have e4 : n / 10000 % 10 = n / 10000 := by omega
    rw [e5, e4]
    simp [fmtDigits, h1, h2, h3, h4, h5, d2, d3, d4, digitChar_zero, List.replicate]
  · have h6 : n / 100000 < 10 := by omega
    have e5 : n / 100000 % 10 = n / 100000 := by omega
    rw [e5]
    simp [fmtDigits, h1, h2, h3, h4, h5, h6, d2, d3, d4, d5, digitChar_zero, List.replicate]

/-- Reading the six-digit numeral of a number below one million gives the number back. -/
theorem numeralValue_sixDigitNumeral (n : Nat) (h : n < 1000000) :
    numeralValue (sixDigitNumeral n) = n := by
  have v5 := (digitChar_spec (n / 100000 % 10) (Nat.mod_lt _ (by decide))).2.2
  have v4 := (digitChar_spec (n / 10000 % 10) (Nat.mod_lt _ (by decide))).2.2
  have v3 := (digitChar_spec (n / 1000 % 10) (Nat.mod_lt _ (by decide))).2.2
  have v2 := (digitChar_spec (n / 100 % 10) (Nat.mod_lt _ (by decide))).2.2
  have v1 := (digitChar_spec (n / 10 % 10) (Nat.mod_lt _ (by decide))).2.2
  have v0 := (digitChar_spec (n % 10) (Nat.mod_lt _ (by decide))).2.2
  simp only [numeralValue, sixDigitNumeral, List.foldl_cons, List.foldl_nil, v5, v4, v3, v2,
    v1, v0]
  omega

/-- On a draw below one million `generatePIN` returns the six-digit numeral of the draw. -/
theorem generatePIN_ok (n : Nat) (h : n < 1000000) :
    generatePIN (.ok n) = .ok (sixDigitNumeral n) := by
  have hneg : ¬ ((n : Int) < 0) := by omega
  simp only [generatePIN, fmtInteger, sixDigitNumeral, hneg, decide_False, Int.natAbs_ofNat]
  simp [fmtDigits_six n h]

/-- C7: for every draw `n` below 1,000,000 of the random source, `generatePIN` returns,
without error, the zero-padded six-digit decimal numeral of `n`: a string of exactly 6
characters, each between the characters 0 and 9, whose decimal value is `n`, so that
different draws give different PINs; and `generatePIN` returns an error exactly when the
random source returns one (the same error). -/
theorem generatePIN_six_digit_numeral (n : Nat) (h : n < 1000000) :
    generatePIN (.ok n) = .ok (sixDigitNumeral n) ∧
    (sixDigitNumeral n).length = 6 ∧
    (∀ c ∈ (sixDigitNumeral n).data, '0' ≤ c ∧ c ≤ '9') ∧
    numeralValue (sixDigitNumeral n) = n ∧
    (∀ m : Nat, m < 1000000 → generatePIN (.ok m) = generatePIN (.ok n) → m = n) ∧
    (∀ (rnd : Except String Nat) (e : String),
      generatePIN rnd = .error e ↔ rnd = .error e) := by
  refine ⟨generatePIN_ok n h, rfl, ?_, numeralValue_sixDigitNumeral n h, ?_, ?_⟩
  · intro c hc
    simp only [sixDigitNumeral, List.mem_cons, List.mem_singleton, List.not_mem_nil,
      or_false] at hc
    rcases hc with rfl | rfl | rfl | rfl | rfl | rfl <;>
      exact ⟨(digitChar_spec _ (Nat.mod_lt _ (by decide))).1,
        (digitChar_spec _ (Nat.mod_lt _ (by decide))).2.1⟩
  · intro m hm heq
    rw [generatePIN_ok n h, generatePIN_ok m hm] at heq
    injection heq with heq
    rw [← numeralValue_sixDigitNumeral m hm, heq, numeralValue_sixDigitNumeral n h]
  · intro rnd e
    cases rnd with
    | error e' => simp [generatePIN]
    | ok k => simp [generatePIN]

/-- C7 at the draw 4217: the PIN is 004217. -/
theorem generatePIN_six_digit_numeral_witness :
    4217 < 1000000 ∧ generatePIN (.ok 4217) = .ok "004217" ∧
    (sixDigitNumeral 4217).length = 6 :=
  ⟨by decide, (generatePIN_six_digit_numeral 4217 (by decide)).1.trans (by decide),
    (generatePIN_six_digit_numeral 4217 (by decide)).2.1⟩

/-! ## float64: rounding -/

namespace Float64

/-- With enough fuel the loop returns the position of the highest set bit. -/
theorem log2Loop_spec (fuel n : Nat) (hfuel : n ≤ fuel) (hn : 0 < n) :
    2 ^ log2Loop fuel n ≤ n ∧ n < 2 ^ (log2Loop fuel n + 1) := by
  induction fuel generalizing n with
  | zero => omega
  | succ k ih =>
    unfold log2Loop
    by_cases h2 : n < 2
    · have h1 : n = 1 := by omega
      simp [h2, h1]
    · simp only [h2, if_false]
      have hk : n / 2 ≤ k := by omega
      have hpos : 0 < n / 2 := by omega
      obtain ⟨hlo, hhi⟩ := ih (n / 2) hk hpos
      constructor
      · rw [pow_succ]; omega
      · rw [pow_succ] at hhi ⊢
        rw [pow_succ]
        omega

/-- The value `floorLog2 n` is the floor of the binary logarithm of a positive `n`. -/
theorem floorLog2_spec (n : Nat) (hn : 0 < n) :
    2 ^ floorLog2 n ≤ n ∧ n < 2 ^ (floorLog2 n + 1) :=
  log2Loop_spec n n (le_refl n) hn

/-- The value `binExponent num den` is the floor of the binary logarithm of `num / den`. -/
theorem binExponent_spec (num den : Nat) (hn : 0 < num) (hd : 0 < den) :
    (2 : ℚ) ^ (binExponent num den) ≤ (num : ℚ) / den ∧
    (num : ℚ) / den < (2 : ℚ) ^ (binExponent num den + 1) := by
  obtain ⟨n1, n2⟩ := floorLog2_spec num hn
  obtain ⟨d1, d2⟩ := floorLog2_spec den hd
  have hdq : (0 : ℚ) < den := by exact_mod_cast hd
  have n1q : (2 : ℚ) ^ (floorLog2 num : ℤ) ≤ num := by
    rw [zpow_natCast]; exact_mod_cast n1
  have n2q : (num : ℚ) < (2 : ℚ) ^ ((floorLog2 num : ℤ) + 1) := by
    have : (num : ℚ) < (2 : ℚ) ^ (floorLog2 num + 1) := by exact_mod_cast n2
    rwa [← zpow_natCast, Nat.cast_add, Nat.cast_one] at this
  have d1q : (2 : ℚ) ^ (floorLog2 den : ℤ) ≤ den := by
    rw [zpow_natCast]; exact_mod_cast d1
  have d2q : (den : ℚ) < (2 : ℚ) ^ ((floorLog2 den : ℤ) + 1) := by
    have : (den : ℚ) < (2 : ℚ) ^ (floorLog2 den + 1) := by exact_mod_cast d2
    rwa [← zpow_natCast, Nat.cast_add, Nat.cast_one] at this
  have h2 : (2 : ℚ) ≠ 0 := by norm_num
  -- strict bounds with g
  have hup : (num : ℚ) / den < (2 : ℚ) ^ ((floorLog2 num : ℤ) - (floorLog2 den : ℤ) + 1) := by
    rw [div_lt_iff₀ hdq]
    calc (num : ℚ) < (2 : ℚ) ^ ((floorLog2 num : ℤ) + 1) := n2q
      _ = (2 : ℚ) ^ ((floorLog2 num : ℤ) - (floorLog2 den : ℤ) + 1) * (2 : ℚ) ^ (floorLog2 den : ℤ) := by
          rw [← zpow_add₀ h2]; congr 1; ring
      _ ≤ _ := by
          apply mul_le_mul_of_nonneg_left d1q
          positivity
  have hlo : (2 : ℚ) ^ ((floorLog2 num : ℤ) - (floorLog2 den : ℤ) - 1) ≤ (num : ℚ) / den := by
    rw [le_div_iff₀ hdq]
    calc (2 : ℚ) ^ ((floorLog2 num : ℤ) - (floorLog2 den : ℤ) - 1) * den
        ≤ (2 : ℚ) ^ ((floorLog2 num : ℤ) - (floorLog2 den : ℤ) - 1) * (2 : ℚ) ^ ((floorLog2 den : ℤ) + 1) := by
          apply mul_le_mul_of_nonneg_left (le_of_lt d2q)
          positivity
      _ = (2 : ℚ) ^ (floorLog2 num : ℤ) := by
          rw [← zpow_add₀ h2]; congr 1; ring
      _ ≤ num := n1q
  unfold binExponent
  simp only []
  generalize hg : (floorLog2 num : ℤ) - (floorLog2 den : ℤ) = g at hup hlo ⊢
  have hbelow : ((if 0 ≤ g then decide (num < den * 2 ^ g.toNat)
      else decide (num * 2 ^ (-g).toNat < den)) = true) ↔ (num : ℚ) / den < (2 : ℚ) ^ g := by
    rw [div_lt_iff₀ hdq]
    by_cases h0 : 0 ≤ g
    · simp only [h0, if_true, decide_eq_true_eq]
      have hgc : (2 : ℚ) ^ g = ((2 ^ g.toNat : ℕ) : ℚ) := by
        rw [Nat.cast_pow, ← zpow_natCast, Int.toNat_of_nonneg h0]; norm_num
      rw [hgc, mul_comm]
      exact_mod_cast Iff.rfl
    · simp only [h0, if_false, decide_eq_true_eq]
      have hneg : 0 ≤ -g := by omega
      have hgc : (2 : ℚ) ^ g = (((2 ^ (-g).toNat : ℕ) : ℚ))⁻¹ := by
        rw [Nat.cast_pow, ← zpow_natCast, Int.toNat_of_nonneg hneg, zpow_neg, inv_inv]; norm_num
      rw [hgc]
      have hp : (0 : ℚ) < ((2 ^ (-g).toNat : ℕ) : ℚ) := by positivity
      rw [← div_eq_inv_mul, lt_div_iff₀ hp]
      exact_mod_cast Iff.rfl
  by_cases hb : (if 0 ≤ g then decide (num < den * 2 ^ g.toNat)
      else decide (num * 2 ^ (-g).toNat < den)) = true
  · simp only [hb, if_true]
    refine ⟨hlo, ?_⟩
    have := hbelow.mp hb
    simpa using this
  · simp only [hb]
    have := mt hbelow.mpr hb
    exact ⟨not_lt.mp this, hup⟩

/-- The value `roundHalfEven a b` is within one half of `a / b` and not below its integer part. -/
theorem roundHalfEven_spec (a b : Nat) (hb : 0 < b) :
    2 * (roundHalfEven a b) * b ≤ 2 * a + b ∧ 2 * a ≤ 2 * (roundHalfEven a b) * b + b ∧
    a / b ≤ roundHalfEven a b := by
  have hdm := Nat.div_add_mod a b
  have hlt := Nat.mod_lt a hb
  unfold roundHalfEven
  simp only []
  generalize a / b = q at *
  generalize a % b = r at *
  have e1 : 2 * q * b = 2 * (b * q) := by ring
  have e2 : 2 * (q + 1) * b = 2 * (b * q) + 2 * b := by ring
  split
  · refine ⟨?_, ?_, le_refl _⟩ <;> omega
  · split
    · refine ⟨?_, ?_, Nat.le_succ _⟩ <;> omega
    · split
      · refine ⟨?_, ?_, le_refl _⟩ <;> omega
      · refine ⟨?_, ?_, Nat.le_succ _⟩ <;> omega


/-- The significand `roundRat` computes for the last-place exponent `e`: at most half a unit
above the exact quotient, and at least every integer that is not above it. -/
theorem significand_spec (num den : Nat) (e : Int) (hd : 0 < den) :
    let m : Nat := if 0 ≤ e then roundHalfEven num (den * 2 ^ e.toNat)
      else roundHalfEven (num * 2 ^ (-e).toNat) den
    (m : ℚ) * (2 : ℚ) ^ e ≤ (num : ℚ) / den + (2 : ℚ) ^ e / 2 ∧
    (∀ k : Nat, (k : ℚ) * (2 : ℚ) ^ e ≤ (num : ℚ) / den → k ≤ m) := by
  intro m
  have hdq : (0 : ℚ) < den := by exact_mod_cast hd
  have hpe : (0 : ℚ) < (2 : ℚ) ^ e := by positivity
  by_cases h0 : 0 ≤ e
  · have hm : m = roundHalfEven num (den * 2 ^ e.toNat) := by simp [m, h0]
    have hb : 0 < den * 2 ^ e.toNat := by positivity
    obtain ⟨s1, _, s3⟩ := roundHalfEven_spec num (den * 2 ^ e.toNat) hb
    rw [← hm] at s1 s3
    have he : (2 : ℚ) ^ e = ((2 ^ e.toNat : ℕ) : ℚ) := by
      rw [Nat.cast_pow, ← zpow_natCast, Int.toNat_of_nonneg h0]; norm_num
    have s1q : 2 * (m : ℚ) * ((den : ℚ) * ((2 ^ e.toNat : ℕ) : ℚ)) ≤
        2 * num + (den : ℚ) * ((2 ^ e.toNat : ℕ) : ℚ) := by exact_mod_cast s1
    rw [← he] at s1q
    constructor
    · rw [← sub_le_iff_le_add, le_div_iff₀ hdq]
      nlinarith
    · intro k hk
      refine le_trans ?_ s3
      rw [Nat.le_div_iff_mul_le hb]
      rw [le_div_iff₀ hdq, he] at hk
      have : ((k * (den * 2 ^ e.toNat) : ℕ) : ℚ) ≤ (num : ℚ) := by
        push_cast
        push_cast at hk
        linarith
      exact_mod_cast this
  · have hm : m = roundHalfEven (num * 2 ^ (-e).toNat) den := by simp [m, h0]
    obtain ⟨s1, _, s3⟩ := roundHalfEven_spec (num * 2 ^ (-e).toNat) den hd
    rw [← hm] at s1 s3
    have hneg : 0 ≤ -e := by omega
    have he : ((2 : ℚ) ^ e)⁻¹ = ((2 ^ (-e).toNat : ℕ) : ℚ) := by
      rw [Nat.cast_pow, ← zpow_natCast, Int.toNat_of_nonneg hneg, zpow_neg]; norm_num
    have s1q : 2 * (m : ℚ) * (den : ℚ) ≤
        2 * ((num : ℚ) * ((2 ^ (-e).toNat : ℕ) : ℚ)) + (den : ℚ) := by exact_mod_cast s1
    rw [← he] at s1q
    constructor
    · rw [← sub_le_iff_le_add, le_div_iff₀ hdq]
      have : 2 * (m : ℚ) * den * 2 ^ e ≤ (2 * (num * (2 ^ e)⁻¹) + den) * 2 ^ e :=
        mul_le_mul_of_nonneg_right s1q hpe.le
      have hc : (num : ℚ) * (2 ^ e)⁻¹ * 2 ^ e = num := by
        field_simp
      nlinarith
    · intro k hk
      refine le_trans ?_ s3
      rw [Nat.le_div_iff_mul_le hd]
      rw [le_div_iff₀ hdq] at hk
      have hk2 : (k : ℚ) * den ≤ (num : ℚ) * (2 ^ e)⁻¹ := by
        rw [le_mul_inv_iff₀ hpe]
        linarith
      rw [he] at hk2
      exact_mod_cast hk2


/-- The result of `roundRat` on a positive rational: an infinity (only with a last-place
exponent of 970 or more), or a finite value equal to the rounded significand times the
unit in the last place. -/
theorem roundRat_spec (neg : Bool) (num den : Nat) (hn : 0 < num) (hd : 0 < den) :
    ∃ m : Nat,
      (m : ℚ) * (2 : ℚ) ^ ulpExponent (binExponent num den) ≤
        (num : ℚ) / den + (2 : ℚ) ^ ulpExponent (binExponent num den) / 2 ∧
      (∀ k : Nat, (k : ℚ) * (2 : ℚ) ^ ulpExponent (binExponent num den) ≤ (num : ℚ) / den →
        k ≤ m) ∧
      ((roundRat neg num den = inf neg ∧ 970 ≤ ulpExponent (binExponent num den)) ∨
        ∃ (m2 : Nat) (e2 : Int), roundRat neg num den = finite neg m2 e2 ∧
          (m2 : ℚ) * (2 : ℚ) ^ e2 = (m : ℚ) * (2 : ℚ) ^ ulpExponent (binExponent num den)) := by
  obtain ⟨s1, s2⟩ := significand_spec num den (ulpExponent (binExponent num den)) hd
  refine ⟨_, s1, s2, ?_⟩
  unfold roundRat
  simp only [Nat.ne_of_gt hn, if_false]
  generalize ulpExponent (binExponent num den) = e
  generalize (if 0 ≤ e then roundHalfEven num (den * 2 ^ e.toNat)
      else roundHalfEven (num * 2 ^ (-e).toNat) den) = m
  by_cases hm : m = 2 ^ 53
  · simp only [hm, if_true]
    by_cases ho : 971 < e + 1
    · left
      simp only [ho, if_true]
      exact ⟨trivial, by omega⟩
    · right
      simp only [ho, if_false]
      refine ⟨2 ^ 52, e + 1, rfl, ?_⟩
      rw [zpow_add_one₀ (by norm_num : (2 : ℚ) ≠ 0)]
      push_cast
      ring
  · simp only [hm, if_false]
    by_cases ho : 971 < e
    · left
      simp only [ho, if_true]
      exact ⟨trivial, by omega⟩
    · right
      simp only [ho, if_false]
      exact ⟨m, e, rfl, rfl⟩


/-- Powers of two grow with the exponent. -/
theorem two_zpow_le {a b : Int} (h : a ≤ b) : (2 : ℚ) ^ a ≤ (2 : ℚ) ^ b :=
  (zpow_le_zpow_iff_right₀ (by norm_num : (1 : ℚ) < 2)).mpr h

/-- A positive rational below 50 - 2^-48 is rounded to a finite value below 50. -/
theorem roundRat_lt_fifty (neg : Bool) (num den : Nat) (hn : 0 < num) (hd : 0 < den)
    (hq : (num : ℚ) / den < 50 - (2 : ℚ) ^ (-48 : ℤ)) :
    ∃ (m2 : Nat) (e2 : Int), roundRat neg num den = finite neg m2 e2 ∧
      (m2 : ℚ) * (2 : ℚ) ^ e2 < 50 := by
  obtain ⟨b1, _⟩ := binExponent_spec num den hn hd
  have hpos : (0 : ℚ) < (2 : ℚ) ^ (-48 : ℤ) := by positivity
  have hex : binExponent num den < 6 := by
    have h64 : (2 : ℚ) ^ (binExponent num den) < (2 : ℚ) ^ (6 : ℤ) := by
      have : (2 : ℚ) ^ (6 : ℤ) = 64 := by norm_num
      rw [this]; linarith
    exact (zpow_lt_zpow_iff_right₀ (by norm_num : (1 : ℚ) < 2)).mp h64
  have he : ulpExponent (binExponent num den) ≤ -47 := by
    unfold ulpExponent; omega
  obtain ⟨m, s1, _, hres⟩ := roundRat_spec neg num den hn hd
  rcases hres with ⟨_, hbig⟩ | ⟨m2, e2, hfin, hval⟩
  · omega
  · refine ⟨m2, e2, hfin, ?_⟩
    rw [hval]
    have hul : (2 : ℚ) ^ ulpExponent (binExponent num den) ≤ (2 : ℚ) ^ (-47 : ℤ) :=
      two_zpow_le he
    have h47 : (2 : ℚ) ^ (-47 : ℤ) / 2 = (2 : ℚ) ^ (-48 : ℤ) := by norm_num
    have hhalf : (2 : ℚ) ^ ulpExponent (binExponent num den) / 2 ≤ (2 : ℚ) ^ (-48 : ℤ) := by
      rw [← h47]
      exact div_le_div_of_nonneg_right hul (by norm_num)
    calc (m : ℚ) * (2 : ℚ) ^ ulpExponent (binExponent num den)
        ≤ (num : ℚ) / den + (2 : ℚ) ^ ulpExponent (binExponent num den) / 2 := s1
      _ ≤ (num : ℚ) / den + (2 : ℚ) ^ (-48 : ℤ) := add_le_add_left hhalf _
      _ < 50 := lt_sub_iff_add_lt.mp hq

/-- A rational of at least 50 is rounded to an infinity or to a finite value of at least 50. -/
theorem roundRat_ge_fifty (neg : Bool) (num den : Nat) (hn : 0 < num) (hd : 0 < den)
    (hq : 50 ≤ (num : ℚ) / den) :
    roundRat neg num den = inf neg ∨
    ∃ (m2 : Nat) (e2 : Int), roundRat neg num den = finite neg m2 e2 ∧
      50 ≤ (m2 : ℚ) * (2 : ℚ) ^ e2 := by
  obtain ⟨b1, b2⟩ := binExponent_spec num den hn hd
  have hex : 5 ≤ binExponent num den := by
    have h32 : (2 : ℚ) ^ (5 : ℤ) < (2 : ℚ) ^ (binExponent num den + 1) := by
      have : (2 : ℚ) ^ (5 : ℤ) = 32 := by norm_num
      rw [this]; linarith
    have := (zpow_lt_zpow_iff_right₀ (by norm_num : (1 : ℚ) < 2)).mp h32
    omega
  have he : ulpExponent (binExponent num den) = binExponent num den - 52 := by
    unfold ulpExponent; omega
  obtain ⟨m, _, s2, hres⟩ := roundRat_spec neg num den hn hd
  rcases hres with ⟨hinf, _⟩ | ⟨m2, e2, hfin, hval⟩
  · exact Or.inl hinf
  · right
    refine ⟨m2, e2, hfin, ?_⟩
    rw [hval, he]
    rw [he] at s2
    have hpe : (0 : ℚ) < (2 : ℚ) ^ (binExponent num den - 52) := by positivity
    by_cases h5 : binExponent num den = 5
    · rw [h5] at s2 ⊢
      have hk : ((50 * 2 ^ 47 : ℕ) : ℚ) * (2 : ℚ) ^ ((5 : ℤ) - 52) = 50 := by norm_num
      have := s2 (50 * 2 ^ 47) (by rw [hk]; exact hq)
      have hm : ((50 * 2 ^ 47 : ℕ) : ℚ) ≤ (m : ℚ) := by exact_mod_cast this
      calc (50 : ℚ) = ((50 * 2 ^ 47 : ℕ) : ℚ) * (2 : ℚ) ^ ((5 : ℤ) - 52) := hk.symm
        _ ≤ (m : ℚ) * (2 : ℚ) ^ ((5 : ℤ) - 52) :=
            mul_le_mul_of_nonneg_right hm (by positivity)
    · have h6 : 6 ≤ binExponent num den := by omega
      have hk : ((2 ^ 52 : ℕ) : ℚ) * (2 : ℚ) ^ (binExponent num den - 52) =
          (2 : ℚ) ^ (binExponent num den) := by
        have h52 : ((2 ^ 52 : ℕ) : ℚ) = (2 : ℚ) ^ (52 : ℤ) := by norm_num
        rw [h52, ← zpow_add₀ (by norm_num : (2 : ℚ) ≠ 0)]
        congr 1
        ring
      have := s2 (2 ^ 52) (by rw [hk]; exact b1)
      have hm : ((2 ^ 52 : ℕ) : ℚ) ≤ (m : ℚ) := by exact_mod_cast this
      have h64 : (64 : ℚ) ≤ (2 : ℚ) ^ (binExponent num den) := by
        have : (2 : ℚ) ^ (6 : ℤ) = 64 := by norm_num
        rw [← this]
        exact two_zpow_le h6
      calc (50 : ℚ) ≤ (2 : ℚ) ^ (binExponent num den) := by linarith
        _ = ((2 ^ 52 : ℕ) : ℚ) * (2 : ℚ) ^ (binExponent num den - 52) := hk.symm
        _ ≤ (m : ℚ) * (2 : ℚ) ^ (binExponent num den - 52) :=
            mul_le_mul_of_nonneg_right hm hpe.le

/-- The function `truncate` returns the integer part of the magnitude, with the sign. -/
theorem truncate_finite (s : Bool) (m : Nat) (e : Int) :
    ∃ a : Nat, truncate (finite s m e) = some (if s then -(a : Int) else (a : Int)) ∧
      (a : ℚ) ≤ (m : ℚ) * (2 : ℚ) ^ e ∧ (m : ℚ) * (2 : ℚ) ^ e < (a : ℚ) + 1 := by
  unfold truncate
  simp only []
  by_cases h0 : 0 ≤ e
  · simp only [h0, if_true]
    refine ⟨_, rfl, ?_, ?_⟩
    · rw [Nat.shiftLeft_eq]
      have he : (2 : ℚ) ^ e = ((2 ^ e.toNat : ℕ) : ℚ) := by
        rw [Nat.cast_pow, ← zpow_natCast, Int.toNat_of_nonneg h0]; norm_num
      rw [he]; push_cast; exact le_refl _
    · rw [Nat.shiftLeft_eq]
      have he : (2 : ℚ) ^ e = ((2 ^ e.toNat : ℕ) : ℚ) := by
        rw [Nat.cast_pow, ← zpow_natCast, Int.toNat_of_nonneg h0]; norm_num
      rw [he]; push_cast; linarith
  · simp only [h0, if_false]
    refine ⟨_, rfl, ?_, ?_⟩
    all_goals
      rw [Nat.shiftRight_eq_div_pow]
      have hneg : 0 ≤ -e := by omega
      have hp : 0 < 2 ^ (-e).toNat := by positivity
      have hpq : (0 : ℚ) < ((2 ^ (-e).toNat : ℕ) : ℚ) := by exact_mod_cast hp
      have he : (2 : ℚ) ^ e = (((2 ^ (-e).toNat : ℕ) : ℚ))⁻¹ := by
        rw [Nat.cast_pow, ← zpow_natCast, Int.toNat_of_nonneg hneg, zpow_neg, inv_inv]
        norm_num
      rw [he, ← div_eq_mul_inv]
    · rw [le_div_iff₀ hpq]
      exact_mod_cast Nat.div_mul_le_self m (2 ^ (-e).toNat)
    · rw [div_lt_iff₀ hpq]
      have := Nat.lt_div_mul_add (a := m) hp
      have h2 : m < (m / 2 ^ (-e).toNat + 1) * 2 ^ (-e).toNat := by
        rw [add_mul, one_mul]; exact this
      exact_mod_cast h2


/-- The constant 100 as a float64. -/
theorem ofInt_hundred : ofInt 100 = finite false 7036874417766400 (-46) := by decide

/-- Multiplying a non-zero finite value by 100 rounds the exact product. -/
theorem mul_hundred (s : Bool) (m : Nat) (e : Int) (hm : 0 < m) :
    ∃ N D : Nat, 0 < N ∧ 0 < D ∧ (N : ℚ) / D = 100 * ((m : ℚ) * (2 : ℚ) ^ e) ∧
      mul (finite s m e) (ofInt 100) = roundRat s N D := by
  rw [ofInt_hundred]
  unfold mul
  have hm0 : ¬ (m = 0 ∨ (7036874417766400 : Nat) = 0) := by omega
  simp only [hm0, if_false, Bool.xor_false]
  have h2 : (2 : ℚ) ≠ 0 := by norm_num
  have hc : (7036874417766400 : ℚ) = 100 * (2 : ℚ) ^ (46 : ℤ) := by norm_num
  by_cases h0 : 0 ≤ e + -46
  · simp only [h0, if_true]
    refine ⟨m * 7036874417766400 * 2 ^ (e + -46).toNat, 1, by positivity, by norm_num, ?_, rfl⟩
    have he : ((2 ^ (e + -46).toNat : ℕ) : ℚ) = (2 : ℚ) ^ (e + -46) := by
      rw [Nat.cast_pow, ← zpow_natCast, Int.toNat_of_nonneg h0]; norm_num
    push_cast at he ⊢
    rw [he, hc, zpow_add₀ h2]
    have : (2 : ℚ) ^ (46 : ℤ) * (2 : ℚ) ^ (-46 : ℤ) = 1 := by norm_num
    field_simp
    nlinarith
  · simp only [h0, if_false]
    refine ⟨m * 7036874417766400, 2 ^ (-(e + -46)).toNat, by positivity, by positivity, ?_, rfl⟩
    have hneg : 0 ≤ -(e + -46) := by omega
    have he : ((2 ^ (-(e + -46)).toNat : ℕ) : ℚ) = (2 : ℚ) ^ (-(e + -46)) := by
      rw [Nat.cast_pow, ← zpow_natCast, Int.toNat_of_nonneg hneg]; norm_num
    rw [he]
    push_cast
    rw [hc, zpow_neg, zpow_add₀ h2, div_eq_mul_inv, inv_inv]
    have : (2 : ℚ) ^ (46 : ℤ) * (2 : ℚ) ^ (-46 : ℤ) = 1 := by norm_num
    calc (m : ℚ) * (100 * (2 : ℚ) ^ (46 : ℤ)) * ((2 : ℚ) ^ e * (2 : ℚ) ^ (-46 : ℤ))
        = 100 * ((m : ℚ) * (2 : ℚ) ^ e) * ((2 : ℚ) ^ (46 : ℤ) * (2 : ℚ) ^ (-46 : ℤ)) := by ring
      _ = 100 * ((m : ℚ) * (2 : ℚ) ^ e) := by rw [this, mul_one]


/-- A canonical positive value below one half is at most one half less 2^-54. -/
theorem canonical_below_half (m : Nat) (e : Int)
    (hc : isCanonical (finite false m e) = true)
    (hlt : (m : ℚ) * (2 : ℚ) ^ e < 1 / 2) :
    (m : ℚ) * (2 : ℚ) ^ e ≤ 1 / 2 - (2 : ℚ) ^ (-54 : ℤ) := by
  simp only [isCanonical, decide_eq_true_eq] at hc
  obtain ⟨hm, _, _, hnorm⟩ := hc
  have hmq : (m : ℚ) ≤ 9007199254740991 := by
    exact_mod_cast (by omega : m ≤ 9007199254740991)
  have he : e ≤ -54 := by
    by_contra hcon
    have hge : -53 ≤ e := by omega
    have hm52 : 4503599627370496 ≤ m := by
      rcases hnorm with h | h
      · omega
      · omega
    have hmq52 : (4503599627370496 : ℚ) ≤ (m : ℚ) := by exact_mod_cast hm52
    have hpe : (2 : ℚ) ^ (-53 : ℤ) ≤ (2 : ℚ) ^ e := two_zpow_le hge
    have hprod : (4503599627370496 : ℚ) * (2 : ℚ) ^ (-53 : ℤ) ≤ (m : ℚ) * (2 : ℚ) ^ e :=
      mul_le_mul hmq52 hpe (by positivity) (by positivity)
    have hhalf : (4503599627370496 : ℚ) * (2 : ℚ) ^ (-53 : ℤ) = 1 / 2 := by norm_num
    rw [hhalf] at hprod
    exact absurd hlt (not_lt.mpr hprod)
  have hpe : (2 : ℚ) ^ e ≤ (2 : ℚ) ^ (-54 : ℤ) := two_zpow_le he
  have hprod : (m : ℚ) * (2 : ℚ) ^ e ≤ 9007199254740991 * (2 : ℚ) ^ (-54 : ℤ) :=
    mul_le_mul hmq hpe (by positivity) (by norm_num)
  have hval : (9007199254740991 : ℚ) * (2 : ℚ) ^ (-54 : ℤ) = 1 / 2 - (2 : ℚ) ^ (-54 : ℤ) := by
    norm_num
  rw [hval] at hprod
  exact hprod

end Float64

/-! ## Create and the payment step -/

/-- The total the loop of Create returns is the left fold of the line subtotals over its
starting total; the item list and the counter play no part in it. -/
theorem buildItems_total (newID : Nat → UUID) (l : List CreateOrderItemReq) (k : Nat)
    (total : Float64) (items : List OrderItem) :
    (OrderService.buildItems newID l k total items).1 =
      (l.map (fun i => lineSubtotal (i.Quantity, i.UnitPrice))).foldl Float64.add total := by
  induction l generalizing k total items with
  | nil => rfl
  | cons i rest ih =>
    simp only [OrderService.buildItems, List.map_cons, List.foldl_cons]
    rw [ih]
    rfl

/-- Started as in Create, the loop returns the sum of the line subtotals. -/
theorem buildItems_total_eq_sum (newID : Nat → UUID) (l : List CreateOrderItemReq) :
    (OrderService.buildItems newID l 0 Float64.zero []).1 =
      sumOfSubtotals (l.map (fun i => (i.Quantity, i.UnitPrice))) := by
  rw [buildItems_total, sumOfSubtotals, List.map_map]
  rfl

/-- The payment step `ChargeCustomer` leaves tables and cache alone and logs the amount it was called with. -/
theorem chargeCustomer_state (invalid : Float64 → Int) (w : World)
    (stripe : Except String String) (a : Float64) :
    (PaymentService.ChargeCustomer invalid w stripe a).2.orders = w.orders ∧
    (PaymentService.ChargeCustomer invalid w stripe a).2.order_items = w.order_items ∧
    (PaymentService.ChargeCustomer invalid w stripe a).2.redis = w.redis ∧
    (PaymentService.ChargeCustomer invalid w stripe a).2.chargeCalls = w.chargeCalls ++ [a] := by
  unfold PaymentService.ChargeCustomer
  simp only []
  split
  · exact ⟨rfl, rfl, rfl, rfl⟩
  · split <;> exact ⟨rfl, rfl, rfl, rfl⟩

/-- The only error of `ChargeCustomer` is the minimum-charge error; it is returned when the
amount in cents is below 50, and then no request went out. -/
theorem chargeCustomer_error (invalid : Float64 → Int) (w : World)
    (stripe : Except String String) (a : Float64) (e : String)
    (h : (PaymentService.ChargeCustomer invalid w stripe a).1 = .error e) :
    e = "minimum charge amount is $0.50" ∧
    Float64.toInt64 invalid (Float64.mul a (Float64.ofInt 100)) < 50 ∧
    (PaymentService.ChargeCustomer invalid w stripe a).2.stripeRequests = w.stripeRequests := by
  unfold PaymentService.ChargeCustomer at h ⊢
  simp only [] at h ⊢
  split at h
  · rename_i hlt
    injection h with h
    refine ⟨h.symm, hlt, ?_⟩
    rw [if_pos hlt]
  · split at h <;> cases h

/-- For every float64 amount in canonical form whose amount in cents (the integer part of
the rounded product with 100) fits in an int64, on every target: `ChargeCustomer` returns
the minimum-charge error exactly when the amount is below one half, and then no request
goes out to the payment processor. -/
theorem chargeCustomer_decides_when_cents_fit (invalid : Float64 → Int) (w : World)
    (stripe : Except String String) (x : Float64) (v : Int)
    (hx : x.isCanonical = true)
    (htr : Float64.truncate (Float64.mul x (Float64.ofInt 100)) = some v)
    (hfit : -(2 ^ 63 : Int) ≤ v ∧ v < (2 ^ 63 : Int)) :
    ((PaymentService.ChargeCustomer invalid w stripe x).1 =
        .error "minimum charge amount is $0.50" ↔ x.toRat < 1 / 2) ∧
    (x.toRat < 1 / 2 →
      (PaymentService.ChargeCustomer invalid w stripe x).2.stripeRequests =
        w.stripeRequests) := by
  have hc : Float64.toInt64 invalid (Float64.mul x (Float64.ofInt 100)) = v := by
    unfold Float64.toInt64
    rw [htr]
    simp only [hfit.1, hfit.2, and_self, if_true]
  have herr : (PaymentService.ChargeCustomer invalid w stripe x).1 =
      .error "minimum charge amount is $0.50" ↔ v < 50 := by
    unfold PaymentService.ChargeCustomer
    simp only [hc]
    by_cases hv : v < 50
    · simp [hv]
    · simp only [hv, if_false, iff_false]
      cases stripe <;> simp
  have hreq : v < 50 → (PaymentService.ChargeCustomer invalid w stripe x).2.stripeRequests =
      w.stripeRequests := by
    intro hv
    unfold PaymentService.ChargeCustomer
    simp only [hc, hv, if_true]
  have hkey : v < 50 ↔ x.toRat < 1 / 2 := by
    cases x with
    | nan => simp [Float64.mul, Float64.truncate] at htr
    | inf s =>
      rw [Float64.ofInt_hundred] at htr
      simp [Float64.mul, Float64.truncate] at htr
    | finite s m e =>
      by_cases hm : m = 0
      · subst hm
        rw [Float64.ofInt_hundred] at htr
        simp [Float64.mul, Float64.truncate] at htr
        subst htr
        cases s <;> simp [Float64.toRat]
      · have hmpos : 0 < m := Nat.pos_of_ne_zero hm
        obtain ⟨N, D, hN, hD, hval, hmul⟩ := Float64.mul_hundred s m e hmpos
        rw [hmul] at htr
        have hmq : (0 : ℚ) < (m : ℚ) * (2 : ℚ) ^ e := by positivity
        cases s with
        | true =>
          have hneg : (Float64.finite true m e).toRat < 1 / 2 := by
            simp only [Float64.toRat, if_true]
            linarith
          simp only [hneg, iff_true]
          obtain ⟨_, _, _, hres⟩ := Float64.roundRat_spec true N D hN hD
          rcases hres with ⟨hinf, _⟩ | ⟨m2, e2, hfin, _⟩
          · rw [hinf] at htr
            simp [Float64.truncate] at htr
          · obtain ⟨a, ha, _, _⟩ := Float64.truncate_finite true m2 e2
            rw [hfin, ha] at htr
            simp only [if_true, Option.some.injEq] at htr
            omega
        | false =>
          have hrat : (Float64.finite false m e).toRat = (m : ℚ) * (2 : ℚ) ^ e := by
            simp [Float64.toRat]
          rw [hrat]
          by_cases hlt : (m : ℚ) * (2 : ℚ) ^ e < 1 / 2
          · simp only [hlt, iff_true]
            have hle := Float64.canonical_below_half m e hx hlt
            have hq : (N : ℚ) / D < 50 - (2 : ℚ) ^ (-48 : ℤ) := by
              rw [hval]
              have h54 : 100 * (2 : ℚ) ^ (-54 : ℤ) = 2 ^ (-48 : ℤ) + 36 * (2 : ℚ) ^ (-54 : ℤ) := by
                norm_num
              have hp : (0 : ℚ) < 36 * (2 : ℚ) ^ (-54 : ℤ) := by positivity
              have h100 : 100 * ((m : ℚ) * (2 : ℚ) ^ e) ≤
                  100 * (1 / 2 - (2 : ℚ) ^ (-54 : ℤ)) :=
                mul_le_mul_of_nonneg_left hle (by norm_num)
              have hexp : 100 * (1 / 2 - (2 : ℚ) ^ (-54 : ℤ)) =
                  50 - (2 ^ (-48 : ℤ) + 36 * (2 : ℚ) ^ (-54 : ℤ)) := by
                rw [← h54]; ring
              rw [hexp] at h100
              calc 100 * ((m : ℚ) * (2 : ℚ) ^ e)
                  ≤ 50 - (2 ^ (-48 : ℤ) + 36 * (2 : ℚ) ^ (-54 : ℤ)) := h100
                _ < 50 - (2 : ℚ) ^ (-48 : ℤ) := by
                    apply sub_lt_sub_left
                    exact lt_add_of_pos_right _ hp
            obtain ⟨m2, e2, hfin, hr⟩ := Float64.roundRat_lt_fifty false N D hN hD hq
            obtain ⟨a, ha, hlo, _⟩ := Float64.truncate_finite false m2 e2
            rw [hfin, ha] at htr
            simp only [Bool.false_eq_true, if_false, Option.some.injEq] at htr
            have ha50 : (a : ℚ) < 50 := lt_of_le_of_lt hlo hr
            have : a < 50 := by exact_mod_cast ha50
            omega
          · simp only [hlt, iff_false, not_lt]
            have hq : 50 ≤ (N : ℚ) / D := by
              rw [hval]
              have := not_lt.mp hlt
              calc (50 : ℚ) = 100 * (1 / 2) := by norm_num
                _ ≤ 100 * ((m : ℚ) * (2 : ℚ) ^ e) :=
                    mul_le_mul_of_nonneg_left this (by norm_num)
            rcases Float64.roundRat_ge_fifty false N D hN hD hq with hinf | ⟨m2, e2, hfin, hr⟩
            · rw [hinf] at htr
              simp [Float64.truncate] at htr
            · obtain ⟨a, ha, _, hhi⟩ := Float64.truncate_finite false m2 e2
              rw [hfin, ha] at htr
              simp only [Bool.false_eq_true, if_false, Option.some.injEq] at htr
              have ha50 : (50 : ℚ) < (a : ℚ) + 1 := lt_of_le_of_lt hr hhi
              have : 50 < a + 1 := by exact_mod_cast ha50
              omega
  exact ⟨herr.trans hkey, fun h => hreq (hkey.mpr h)⟩

/-- The decision at the amount 0.49: the cents are 49 and the call is refused. -/
theorem chargeCustomer_decides_when_cents_fit_witness :
    ((PaymentService.ChargeCustomer Float64.amd64Invalid World.empty (.ok "pi_3PqL")
        (Float64.ofDecimal 49 2)).1 = .error "minimum charge amount is $0.50" ↔
      (Float64.ofDecimal 49 2).toRat < 1 / 2) ∧
    ((Float64.ofDecimal 49 2).toRat < 1 / 2 →
      (PaymentService.ChargeCustomer Float64.amd64Invalid World.empty (.ok "pi_3PqL")
        (Float64.ofDecimal 49 2)).2.stripeRequests = World.empty.stripeRequests) :=
  chargeCustomer_decides_when_cents_fit Float64.amd64Invalid World.empty (.ok "pi_3PqL")
    (Float64.ofDecimal 49 2) 49 (by decide) (by decide) (by decide)

/-- C8: when the payment step `ChargeCustomer`, called with the cart's total, returns an
error, Create returns that error wrapped as "payment failed: ..." and no order, and the
orders table, the items table and the cache are as before the call (nor did a request go
out to the payment processor). -/
theorem create_payment_failure (invalid : Float64 → Int) (w : World) (env : CreateEnv)
    (customerID : UUID) (req : CreateOrderRequest) (e : String)
    (h : (PaymentService.ChargeCustomer invalid w env.stripe
      (sumOfSubtotals (req.Items.map (fun i => (i.Quantity, i.UnitPrice))))).1 = .error e) :
    (OrderService.Create invalid w env customerID req).1 = .error ("payment failed: " ++ e) ∧
    (OrderService.Create invalid w env customerID req).2.orders = w.orders ∧
    (OrderService.Create invalid w env customerID req).2.order_items = w.order_items ∧
    (OrderService.Create invalid w env customerID req).2.redis = w.redis ∧
    (OrderService.Create invalid w env customerID req).2.stripeRequests = w.stripeRequests := by
  have hs := chargeCustomer_state invalid w env.stripe
    (sumOfSubtotals (req.Items.map (fun i => (i.Quantity, i.UnitPrice))))
  have he := chargeCustomer_error invalid w env.stripe _ e h
  unfold OrderService.Create
  simp only [buildItems_total_eq_sum]
  generalize PaymentService.ChargeCustomer invalid w env.stripe
      (sumOfSubtotals (req.Items.map (fun i => (i.Quantity, i.UnitPrice)))) = r at h hs he
  obtain ⟨r1, r2⟩ := r
  simp only at h hs he
  subst h
  exact ⟨rfl, hs.1, hs.2.1, hs.2.2.1, he.2.2⟩

/-- C8 at a cart worth 0.25, which the payment step refuses. -/
theorem create_payment_failure_witness :
    (PaymentService.ChargeCustomer Float64.amd64Invalid World.empty Sample.createEnv.stripe
      (sumOfSubtotals (Sample.smallCart.Items.map (fun i => (i.Quantity, i.UnitPrice))))).1 =
      .error "minimum charge amount is $0.50" ∧
    (OrderService.Create Float64.amd64Invalid World.empty Sample.createEnv Sample.customerID
      Sample.smallCart).1 = .error "payment failed: minimum charge amount is $0.50" ∧
    (OrderService.Create Float64.amd64Invalid World.empty Sample.createEnv Sample.customerID
      Sample.smallCart).2.orders = [] :=
  ⟨by decide,
   (create_payment_failure Float64.amd64Invalid World.empty Sample.createEnv Sample.customerID
      Sample.smallCart "minimum charge amount is $0.50" (by decide)).1,
   (create_payment_failure Float64.amd64Invalid World.empty Sample.createEnv Sample.customerID
      Sample.smallCart "minimum charge amount is $0.50" (by decide)).2.1⟩

/-- C9 fails at the example cart (total 24.98, at least the minimum) when the request to
the payment processor fails: `ChargeCustomer` returns the reference
pi_simulated_2498_cents and no error, Create returns the order, and the order is stored. -/
theorem create_stripe_failure_counterexample :
    Sample.stripeDown.stripe = .error "Invalid API Key provided" ∧
    (50 : Int) ≤ Float64.toInt64 Float64.amd64Invalid
      (Float64.mul (Float64.ofDecimal 2498 2) (Float64.ofInt 100)) ∧
    (PaymentService.ChargeCustomer Float64.amd64Invalid World.empty Sample.stripeDown.stripe
      (sumOfSubtotals (Sample.cart.Items.map (fun i => (i.Quantity, i.UnitPrice))))).1 =
      .ok "pi_simulated_2498_cents" ∧
    (OrderService.Create Float64.amd64Invalid World.empty Sample.stripeDown Sample.customerID
        Sample.cart).1 = .ok ⟨Sample.assembled "pi_simulated_2498_cents", "004217"⟩ ∧
    (OrderService.Create Float64.amd64Invalid World.empty Sample.stripeDown Sample.customerID
        Sample.cart).2.orders =
      [{ Sample.assembled "pi_simulated_2498_cents" with Items := [] }] := by
  decide

/-- At the boundary the payment step decides on the truncated cents: $0.50 is accepted (a
request for 50 cents goes out), while the largest float64 below 0.5, the amount 0.49, zero
and -1 get the minimum-charge error and no request. -/
theorem chargeCustomer_boundary :
    (PaymentService.ChargeCustomer Float64.amd64Invalid World.empty (.ok "pi_3PqL")
      (Float64.ofDecimal 5 1)) =
      (.ok "pi_3PqL", { World.empty with
        chargeCalls := [Float64.ofDecimal 5 1], stripeRequests := [50] }) ∧
    (PaymentService.ChargeCustomer Float64.amd64Invalid World.empty (.ok "pi_3PqL")
      (Float64.finite false 9007199254740991 (-54))) =
      (.error "minimum charge amount is $0.50", { World.empty with
        chargeCalls := [Float64.finite false 9007199254740991 (-54)] }) ∧
    (PaymentService.ChargeCustomer Float64.amd64Invalid World.empty (.ok "pi_3PqL")
      (Float64.ofDecimal 49 2)).1 = .error "minimum charge amount is $0.50" ∧
    (PaymentService.ChargeCustomer Float64.amd64Invalid World.empty (.ok "pi_3PqL")
      Float64.zero).1 = .error "minimum charge amount is $0.50" ∧
    (PaymentService.ChargeCustomer Float64.amd64Invalid World.empty (.ok "pi_3PqL")
      (Float64.ofInt (-1))).1 = .error "minimum charge amount is $0.50" := by
  decide

/-- C10 at the amount 100,000,000,000,000,000 dollars, far above $0.50: the amount times
100 is 10^19, which does not fit in an int64. On amd64 the conversion yields -2^63 and
`ChargeCustomer` returns the minimum-charge error without a request; on arm64 the conversion
saturates and a request for 9,223,372,036,854,775,807 cents goes out. -/
theorem chargeCustomer_cents_overflow :
    Float64.truncate (Float64.mul (Float64.ofDecimal 100000000000000000 0) (Float64.ofInt 100)) =
      some 10000000000000000000 ∧
    ¬ ((10000000000000000000 : Int) < 2 ^ 63) ∧
    PaymentService.ChargeCustomer Float64.amd64Invalid World.empty (.ok "pi_3PqL")
        (Float64.ofDecimal 100000000000000000 0) =
      (.error "minimum charge amount is $0.50",
        { World.empty with chargeCalls := [Float64.ofDecimal 100000000000000000 0] }) ∧
    PaymentService.ChargeCustomer Float64.arm64Invalid World.empty (.ok "pi_3PqL")
        (Float64.ofDecimal 100000000000000000 0) =
      (.ok "pi_3PqL",
        { World.empty with
          chargeCalls := [Float64.ofDecimal 100000000000000000 0]
          stripeRequests := [9223372036854775807] }) := by
  decide

/-- C9 as amended: for every Create call whose total in cents is at least 50, if the
request to the payment processor fails, `ChargeCustomer` reports no error but the simulated
reference pi_simulated_<cents>_cents, and Create goes on with it: when PIN generation, the
store transaction and the cache write succeed, Create returns an order in status Paid that
carries the simulated reference, and the order is stored. -/
theorem create_stripe_failure_simulated (invalid : Float64 → Int) (w : World)
    (env : CreateEnv) (customerID : UUID) (req : CreateOrderRequest) (msg : String)
    (hmin : 50 ≤ Float64.toInt64 invalid (Float64.mul
      (sumOfSubtotals (req.Items.map (fun i => (i.Quantity, i.UnitPrice)))) (Float64.ofInt 100)))
    (hfail : env.stripe = .error msg) :
    (PaymentService.ChargeCustomer invalid w env.stripe
      (sumOfSubtotals (req.Items.map (fun i => (i.Quantity, i.UnitPrice))))).1 =
      .ok ("pi_simulated_" ++ fmtInteger 0 (Float64.toInt64 invalid (Float64.mul
        (sumOfSubtotals (req.Items.map (fun i => (i.Quantity, i.UnitPrice))))
        (Float64.ofInt 100))) ++ "_cents") ∧
    (∀ n : Nat, env.rand = .ok n → env.dbCreate = none → env.redisSet = none →
      ∃ resp : OrderResponse,
        (OrderService.Create invalid w env customerID req).1 = .ok resp ∧
        resp.Order.Status = OrderStatus.Paid ∧
        resp.Order.StripePaymentID =
          "pi_simulated_" ++ fmtInteger 0 (Float64.toInt64 invalid (Float64.mul
            (sumOfSubtotals (req.Items.map (fun i => (i.Quantity, i.UnitPrice))))
            (Float64.ofInt 100))) ++ "_cents" ∧
        { resp.Order with Items := [] } ∈
          (OrderService.Create invalid w env customerID req).2.orders) := by
  have hnot : ¬ Float64.toInt64 invalid (Float64.mul
      (sumOfSubtotals (req.Items.map (fun i => (i.Quantity, i.UnitPrice))))
      (Float64.ofInt 100)) < 50 := by omega
  have hcharge : PaymentService.ChargeCustomer invalid w env.stripe
      (sumOfSubtotals (req.Items.map (fun i => (i.Quantity, i.UnitPrice)))) =
      (.ok ("pi_simulated_" ++ fmtInteger 0 (Float64.toInt64 invalid (Float64.mul
        (sumOfSubtotals (req.Items.map (fun i => (i.Quantity, i.UnitPrice))))
        (Float64.ofInt 100))) ++ "_cents"),
       { w with
         chargeCalls := w.chargeCalls ++
           [sumOfSubtotals (req.Items.map (fun i => (i.Quantity, i.UnitPrice)))]
         stripeRequests := w.stripeRequests ++ [Float64.toInt64 invalid (Float64.mul
           (sumOfSubtotals (req.Items.map (fun i => (i.Quantity, i.UnitPrice))))
           (Float64.ofInt 100))] }) := by
    unfold PaymentService.ChargeCustomer
    simp only [hnot, if_false, hfail]
  refine ⟨by rw [hcharge], ?_⟩
  intro n hrand hdb hset
  unfold OrderService.Create
  simp only [buildItems_total_eq_sum, hcharge, hrand, hdb, hset, generatePIN,
    OrderRepository.Create, redisSet]
  exact ⟨_, rfl, rfl, rfl, by simp⟩

/-- C9 as amended, at the example cart with the payment processor failing. -/
theorem create_stripe_failure_simulated_witness :
    (PaymentService.ChargeCustomer Float64.amd64Invalid World.empty Sample.stripeDown.stripe
      (sumOfSubtotals (Sample.cart.Items.map (fun i => (i.Quantity, i.UnitPrice))))).1 =
      .ok "pi_simulated_2498_cents" :=
  (create_stripe_failure_simulated Float64.amd64Invalid World.empty Sample.stripeDown
    Sample.customerID Sample.cart "Invalid API Key provided" (by decide) (by decide)).1.trans
    (by decide)

/-! ## Create: empty cart, success, cache failure -/

/-- The cents of the zero total are 0 on every target. -/
theorem zero_total_cents (invalid : Float64 → Int) :
    Float64.toInt64 invalid (Float64.mul Float64.zero (Float64.ofInt 100)) = 0 := by
  rw [Float64.ofInt_hundred]
  rfl

/-- C11: for every customer and business (and every state and collaborator behaviour),
Create called with a cart of zero line items returns an error: the total is zero, the
payment step refuses it as below the minimum charge, and Create returns "payment failed:
minimum charge amount is $0.50". No order row, no item row and no cache entry is written,
and no request goes out to the payment processor. -/
theorem create_empty_cart_rejected (invalid : Float64 → Int) (w : World) (env : CreateEnv)
    (customerID businessID : UUID) :
    OrderService.Create invalid w env customerID ⟨businessID, []⟩ =
      (.error "payment failed: minimum charge amount is $0.50",
        { w with chargeCalls := w.chargeCalls ++ [Float64.zero] }) ∧
    (OrderService.Create invalid w env customerID ⟨businessID, []⟩).2.orders = w.orders ∧
    (OrderService.Create invalid w env customerID ⟨businessID, []⟩).2.order_items =
      w.order_items ∧
    (OrderService.Create invalid w env customerID ⟨businessID, []⟩).2.redis = w.redis ∧
    (OrderService.Create invalid w env customerID ⟨businessID, []⟩).2.stripeRequests =
      w.stripeRequests := by
  have h : OrderService.Create invalid w env customerID ⟨businessID, []⟩ =
      (.error "payment failed: minimum charge amount is $0.50",
        { w with chargeCalls := w.chargeCalls ++ [Float64.zero] }) := by
    unfold OrderService.Create PaymentService.ChargeCustomer
    simp only [OrderService.buildItems, zero_total_cents]
    rfl
  rw [h]
  exact ⟨rfl, rfl, rfl, rfl, rfl⟩

/-- The items the loop of Create builds carry, line by line and in cart order, the product
name, quantity and unit price of the cart lines (after those already collected). -/
theorem buildItems_items (newID : Nat → UUID) (l : List CreateOrderItemReq) (k : Nat)
    (total : Float64) (items : List OrderItem) :
    (OrderService.buildItems newID l k total items).2.map
        (fun it => (it.ProductName, it.Quantity, it.UnitPrice)) =
      items.map (fun it => (it.ProductName, it.Quantity, it.UnitPrice)) ++
        l.map (fun i => (i.ProductName, i.Quantity, i.UnitPrice)) := by
  induction l generalizing k total items with
  | nil => simp [OrderService.buildItems]
  | cons i rest ih =>
    simp only [OrderService.buildItems]
    rw [ih]
    simp

/-- After a cache write that took effect the key holds the value and time-to-live written. -/
theorem redisGet_after_set (w : World) (key value : String) (ttl : Nat) :
    (redisSet w none key value ttl).2.redis.find? (fun c => decide (c.key = key)) =
      some ⟨key, value, ttl⟩ := by
  simp [redisSet, List.find?_cons]

/-- When no row had the id before, `GetByID` returns the row appended for it, with the item
rows of that id. -/
theorem getByID_after_insert (w w2 : World) (o : Order)
    (hfresh : ∀ r ∈ w.orders, r.ID ≠ o.ID)
    (h : w2.orders = w.orders ++ [{ o with Items := [] }]) :
    OrderRepository.GetByID w2 ReadFaults.none o.ID =
      .ok { o with Items := OrderRepository.getItems w2 o.ID } := by
  have hnone : w.orders.find? (fun r => decide (r.ID = o.ID)) = none := by
    rw [List.find?_eq_none]
    intro r hr
    simpa using hfresh r hr
  unfold OrderRepository.GetByID
  simp [ReadFaults.none, h, List.find?_append, hnone]

/-- C13: when the payment step returns a reference, the PIN is generated, and neither the
store transaction nor the cache write fails, Create returns the order it assembled: status
Paid, the caller's customer id, the request's business id, and one line item per cart line
in cart order with the same product name, quantity and unit price. The PIN of the response
is the PIN of the row appended to the orders table (the one read back under the new id when
that id was not in the table before), and the cache holds, under the key "order:pin:"
followed by the order id, that same PIN with a time-to-live of 24 hours. -/
theorem create_success_contents (invalid : Float64 → Int) (w : World) (env : CreateEnv)
    (customerID : UUID) (req : CreateOrderRequest) (paymentID pin : String)
    (hpay : (PaymentService.ChargeCustomer invalid w env.stripe
      (sumOfSubtotals (req.Items.map (fun i => (i.Quantity, i.UnitPrice))))).1 = .ok paymentID)
    (hpin : generatePIN env.rand = .ok pin)
    (hdb : env.dbCreate = none)
    (hset : env.redisSet = none) :
    (OrderService.Create invalid w env customerID req).1 =
      .ok ⟨{ ID := env.newOrderID, CustomerID := customerID, BusinessID := req.BusinessID,
             Items := (OrderService.buildItems env.newItemID req.Items 0 Float64.zero []).2,
             TotalAmount := sumOfSubtotals (req.Items.map (fun i => (i.Quantity, i.UnitPrice))),
             Status := OrderStatus.Paid, PIN := pin, StripePaymentID := paymentID,
             CreatedAt := env.now, UpdatedAt := env.now }, pin⟩ ∧
    (OrderService.buildItems env.newItemID req.Items 0 Float64.zero []).2.map
        (fun it => (it.ProductName, it.Quantity, it.UnitPrice)) =
      req.Items.map (fun i => (i.ProductName, i.Quantity, i.UnitPrice)) ∧
    (OrderService.Create invalid w env customerID req).2.orders = w.orders ++
      [{ ID := env.newOrderID, CustomerID := customerID, BusinessID := req.BusinessID,
         Items := [],
         TotalAmount := sumOfSubtotals (req.Items.map (fun i => (i.Quantity, i.UnitPrice))),
         Status := OrderStatus.Paid, PIN := pin, StripePaymentID := paymentID,
         CreatedAt := env.now, UpdatedAt := env.now }] ∧
    (OrderService.Create invalid w env customerID req).2.order_items = w.order_items ++
      (OrderService.buildItems env.newItemID req.Items 0 Float64.zero []).2.map
        (fun it => { it with OrderID := env.newOrderID }) ∧
    (OrderService.Create invalid w env customerID req).2.redis.find?
        (fun c => decide (c.key = pinPrefix ++ env.newOrderID.String)) =
      some ⟨ pinPrefix ++ env.newOrderID.String, pin, pinTTL⟩ ∧
    pinTTL = 24 * 60 * 60 * 1000000000 ∧
    redisGet (OrderService.Create invalid w env customerID req).2 none
        ( pinPrefix ++ env.newOrderID.String) = RedisReply.value pin ∧
    ((∀ r ∈ w.orders, r.ID ≠ env.newOrderID) →
      (OrderRepository.GetByID (OrderService.Create invalid w env customerID req).2
          ReadFaults.none env.newOrderID).map (fun o => (o.PIN, o.Status)) =
        .ok (pin, OrderStatus.Paid)) := by
  have hs := chargeCustomer_state invalid w env.stripe
    (sumOfSubtotals (req.Items.map (fun i => (i.Quantity, i.UnitPrice))))
  have hitems := buildItems_items env.newItemID req.Items 0 Float64.zero []
  have hcreate : OrderService.Create invalid w env customerID req =
      (.ok ⟨{ ID := env.newOrderID, CustomerID := customerID, BusinessID := req.BusinessID,
              Items := (OrderService.buildItems env.newItemID req.Items 0 Float64.zero []).2,
              TotalAmount := sumOfSubtotals (req.Items.map (fun i => (i.Quantity, i.UnitPrice))),
              Status := OrderStatus.Paid, PIN := pin, StripePaymentID := paymentID,
              CreatedAt := env.now, UpdatedAt := env.now }, pin⟩,
        (redisSet (OrderRepository.Create (PaymentService.ChargeCustomer invalid w env.stripe
          (sumOfSubtotals (req.Items.map (fun i => (i.Quantity, i.UnitPrice))))).2 none
          { ID := env.newOrderID, CustomerID := customerID, BusinessID := req.BusinessID,
              Items := (OrderService.buildItems env.newItemID req.Items 0 Float64.zero []).2,
              TotalAmount := sumOfSubtotals (req.Items.map (fun i => (i.Quantity, i.UnitPrice))),
              Status := OrderStatus.Paid, PIN := pin, StripePaymentID := paymentID,
              CreatedAt := env.now, UpdatedAt := env.now }).2 none
          ( pinPrefix ++ env.newOrderID.String) pin pinTTL).2) := by
    unfold OrderService.Create
    simp only [buildItems_total_eq_sum]
    generalize PaymentService.ChargeCustomer invalid w env.stripe
      (sumOfSubtotals (req.Items.map (fun i => (i.Quantity, i.UnitPrice)))) = r at hpay
    obtain ⟨r1, w1⟩ := r
    simp only at hpay
    subst hpay
    simp only [hpin, hdb, hset, OrderRepository.Create, redisSet, UUID.String]
  have horders : (OrderService.Create invalid w env customerID req).2.orders = w.orders ++
      [{ ID := env.newOrderID, CustomerID := customerID, BusinessID := req.BusinessID,
         Items := [],
         TotalAmount := sumOfSubtotals (req.Items.map (fun i => (i.Quantity, i.UnitPrice))),
         Status := OrderStatus.Paid, PIN := pin, StripePaymentID := paymentID,
         CreatedAt := env.now, UpdatedAt := env.now }] := by
    rw [hcreate]
    simp only [redisSet, OrderRepository.Create, hs.1]
  refine ⟨by rw [hcreate], by simpa using hitems, horders, ?_, ?_, rfl, ?_, ?_⟩
  · rw [hcreate]
    simp only [redisSet, OrderRepository.Create, hs.2.1]
  · rw [hcreate]
    exact redisGet_after_set _ _ _ _
  · rw [hcreate]
    unfold redisGet
    simp only [redisGet_after_set]
  · intro hfresh
    have hget := getByID_after_insert w (OrderService.Create invalid w env customerID req).2
      { ID := env.newOrderID, CustomerID := customerID, BusinessID := req.BusinessID,
        Items := (OrderService.buildItems env.newItemID req.Items 0 Float64.zero []).2,
        TotalAmount := sumOfSubtotals (req.Items.map (fun i => (i.Quantity, i.UnitPrice))),
        Status := OrderStatus.Paid, PIN := pin, StripePaymentID := paymentID,
        CreatedAt := env.now, UpdatedAt := env.now } hfresh horders
    simp only at hget
    rw [hget]
    rfl

/-- C14: when the payment step returned a reference, the PIN was generated (the store
transaction comes after both) and the store transaction succeeded, but the cache write fails
with an error e, Create returns the error "failed to cache PIN: e"; being an error, the
result carries neither the order nor the PIN. -/
theorem create_cache_write_failure (invalid : Float64 → Int) (w : World) (env : CreateEnv)
    (customerID : UUID) (req : CreateOrderRequest) (paymentID pin e : String)
    (hpay : (PaymentService.ChargeCustomer invalid w env.stripe
      (sumOfSubtotals (req.Items.map (fun i => (i.Quantity, i.UnitPrice))))).1 = .ok paymentID)
    (hpin : generatePIN env.rand = .ok pin)
    (hdb : env.dbCreate = none)
    (hset : env.redisSet = some e) :
    (OrderService.Create invalid w env customerID req).1 =
      .error ("failed to cache PIN: " ++ e) := by
  unfold OrderService.Create
  simp only [buildItems_total_eq_sum]
  generalize PaymentService.ChargeCustomer invalid w env.stripe
    (sumOfSubtotals (req.Items.map (fun i => (i.Quantity, i.UnitPrice)))) = r at hpay
  obtain ⟨r1, w1⟩ := r
  simp only at hpay
  subst hpay
  simp only [hpin, hdb, hset, OrderRepository.Create, redisSet]

/-- C14 at the example cart with the cache refusing the connection. -/
theorem create_cache_write_failure_witness :
    (OrderService.Create Float64.amd64Invalid World.empty Sample.cacheDown Sample.customerID
      Sample.cart).1 = .error "failed to cache PIN: dial tcp: connection refused" :=
  create_cache_write_failure Float64.amd64Invalid World.empty Sample.cacheDown
    Sample.customerID Sample.cart "pi_3PqL" "004217" "dial tcp: connection refused"
    (by decide) (by decide) (by decide) (by decide)

/-- C13 at the example cart: the order returned and the cache entry written. -/
theorem create_success_contents_witness :
    (OrderService.Create Float64.amd64Invalid World.empty Sample.createEnv Sample.customerID
        Sample.cart).1 = .ok ⟨Sample.assembled "pi_3PqL", "004217"⟩ ∧
    (OrderService.Create Float64.amd64Invalid World.empty Sample.createEnv Sample.customerID
        Sample.cart).2.redis.find?
        (fun c => decide (c.key = pinPrefix ++ Sample.createEnv.newOrderID.String)) =
      some ⟨ pinPrefix ++ Sample.createEnv.newOrderID.String, "004217", pinTTL⟩ :=
  ⟨(create_success_contents Float64.amd64Invalid World.empty Sample.createEnv
      Sample.customerID Sample.cart "pi_3PqL" "004217" (by decide) (by decide) (by decide)
      (by decide)).1.trans (by decide),
   (create_success_contents Float64.amd64Invalid World.empty Sample.createEnv
      Sample.customerID Sample.cart "pi_3PqL" "004217" (by decide) (by decide) (by decide)
      (by decide)).2.2.2.2.1⟩

/-! ## ValidatePIN: messages and what they reveal -/

/-- C18 fails at the sample order in status Completed: the message ValidatePIN returns has
the status name in double quotes, and so differs from the bare text of the claim. -/
theorem validatePIN_completed_message_counterexample :
    (OrderService.ValidatePIN (Sample.world OrderStatus.Completed []) Sample.calm
        Sample.orderID "004217" Sample.businessID).1 =
      .error "order cannot be completed in status \"completed\"" ∧
    (OrderService.ValidatePIN (Sample.world OrderStatus.Completed []) Sample.calm
        Sample.orderID "004217" Sample.businessID).1 ≠
      .error "order cannot be completed in status completed" := by
  decide

/-- C18 as amended: for every order in status Completed owned by the claimer the error of
ValidatePIN has exactly the text `order cannot be completed in status "completed"`, the
status name in double quotes as the verb `%q` writes it; in general the invalid-state
message is "order cannot be completed in status " followed by the order's current status
name in double quotes. -/
theorem validatePIN_invalid_state_message
    (w : World) (env : ValidateEnv) (orderID claimerID : UUID) (pin : String) (o : Order)
    (hget : OrderRepository.GetByID w env.read orderID = .ok o)
    (hown : o.BusinessID = claimerID) :
    (o.Status = OrderStatus.Completed →
      (OrderService.ValidatePIN w env orderID pin claimerID).1 =
        .error "order cannot be completed in status \"completed\"") ∧
    (o.Status ≠ OrderStatus.Paid ∧ o.Status ≠ OrderStatus.Ready →
      (OrderService.ValidatePIN w env orderID pin claimerID).1 =
        .error ("order cannot be completed in status " ++ "\"" ++ o.Status.toString ++ "\"")) := by
  constructor
  · intro hs
    unfold OrderService.ValidatePIN
    simp [hget, hown, hs, OrderStatus.quoted, OrderStatus.toString]
  · intro hs
    unfold OrderService.ValidatePIN
    simp [hget, hown, hs.1, hs.2, OrderStatus.quoted, String.append_assoc]
    rw [← String.append_assoc]
    rfl

/-- C18 as amended, at the sample order in status Completed. -/
theorem validatePIN_invalid_state_message_witness :
    (OrderService.ValidatePIN (Sample.world OrderStatus.Completed [Sample.pinEntry]) Sample.calm
        Sample.orderID "004217" Sample.businessID).1 =
      .error "order cannot be completed in status \"completed\"" :=
  (validatePIN_invalid_state_message (Sample.world OrderStatus.Completed [Sample.pinEntry])
    Sample.calm Sample.orderID Sample.businessID "004217" (Sample.order OrderStatus.Completed)
    (by decide) (by decide)).1 (by decide)

/-- C16 fails at the sample order: claimed by another business with its identifier the
result is "order does not belong to your business", while on a store without that order the
result is "order not found"; the two results differ. -/
theorem validatePIN_reveals_existence_counterexample :
    OrderService.ValidatePIN (Sample.world OrderStatus.Paid [Sample.pinEntry]) Sample.calm
        Sample.orderID "004217" Sample.otherBusinessID =
      (.error "order does not belong to your business",
        Sample.world OrderStatus.Paid [Sample.pinEntry]) ∧
    OrderService.ValidatePIN World.empty Sample.calm
        Sample.orderID "004217" Sample.otherBusinessID =
      (.error "order not found", World.empty) ∧
    (OrderService.ValidatePIN (Sample.world OrderStatus.Paid [Sample.pinEntry]) Sample.calm
        Sample.orderID "004217" Sample.otherBusinessID).1 ≠
    (OrderService.ValidatePIN World.empty Sample.calm
        Sample.orderID "004217" Sample.otherBusinessID).1 := by
  decide

/-- C16 as amended: for every claimer, order identifier and supplied PIN, when the order
exists but belongs to another business ValidatePIN fails with "order does not belong to your
business", and when no order with the identifier exists it fails with "order not found";
neither call changes the state, neither result depends on the PIN or the order's status, and
the handler passes both on as HTTP 400 with the respective message, so the two cases can be
told apart. -/
theorem validatePIN_other_business_vs_unknown
    (w w0 : World) (env env0 : ValidateEnv) (orderID claimerID : UUID) (pin : String)
    (o : Order)
    (hget : OrderRepository.GetByID w env.read orderID = .ok o)
    (hother : o.BusinessID ≠ claimerID)
    (hread0 : env0.read.queryRow = none)
    (habsent : ∀ r ∈ w0.orders, r.ID ≠ orderID) :
    OrderService.ValidatePIN w env orderID pin claimerID =
      (.error "order does not belong to your business", w) ∧
    OrderService.ValidatePIN w0 env0 orderID pin claimerID = (.error "order not found", w0) ∧
    (OrderHandler.ValidatePIN w env (some claimerID) (some orderID) (.ok ⟨pin⟩)) =
      (.httpError 400 "order does not belong to your business", w) ∧
    (OrderHandler.ValidatePIN w0 env0 (some claimerID) (some orderID) (.ok ⟨pin⟩)) =
      (.httpError 400 "order not found", w0) := by
  have h1 : OrderService.ValidatePIN w env orderID pin claimerID =
      (.error "order does not belong to your business", w) := by
    unfold OrderService.ValidatePIN
    simp [hget, hother]
  have hnone : w0.orders.find? (fun r => decide (r.ID = orderID)) = none := by
    rw [List.find?_eq_none]
    intro r hr
    simpa using habsent r hr
  have h0 : OrderService.ValidatePIN w0 env0 orderID pin claimerID =
      (.error "order not found", w0) := by
    unfold OrderService.ValidatePIN OrderRepository.GetByID
    simp [hread0, hnone]
  refine ⟨h1, h0, ?_, ?_⟩
  · unfold OrderHandler.ValidatePIN
    simp only [h1]
  · unfold OrderHandler.ValidatePIN
    simp only [h0]

/-- C16 as amended, at the sample order and at the empty store. -/
theorem validatePIN_other_business_vs_unknown_witness :
    (OrderHandler.ValidatePIN (Sample.world OrderStatus.Paid [Sample.pinEntry]) Sample.calm
        (some Sample.otherBusinessID) (some Sample.orderID) (.ok ⟨"004217"⟩)) =
      (.httpError 400 "order does not belong to your business",
        Sample.world OrderStatus.Paid [Sample.pinEntry]) ∧
    (OrderHandler.ValidatePIN World.empty Sample.calm
        (some Sample.otherBusinessID) (some Sample.orderID) (.ok ⟨"004217"⟩)) =
      (.httpError 400 "order not found", World.empty) :=
  ⟨(validatePIN_other_business_vs_unknown (Sample.world OrderStatus.Paid [Sample.pinEntry])
      World.empty Sample.calm Sample.calm Sample.orderID Sample.otherBusinessID "004217"
      (Sample.order OrderStatus.Paid) (by decide) (by decide) (by decide) (by decide)).2.2.1,
   (validatePIN_other_business_vs_unknown (Sample.world OrderStatus.Paid [Sample.pinEntry])
      World.empty Sample.calm Sample.calm Sample.orderID Sample.otherBusinessID "004217"
      (Sample.order OrderStatus.Paid) (by decide) (by decide) (by decide) (by decide)).2.2.2⟩

/-! ## The status lifecycle -/

/-- With unique ids, every row with the id is the row `find?` returns. -/
theorem row_eq_of_unique (l : List Order) (id : UUID) (row r : Order)
    (hnd : (l.map (fun r => r.ID)).Nodup)
    (hfind : l.find? (fun r => decide (r.ID = id)) = some row)
    (hr : r ∈ l) (hid : r.ID = id) : r = row := by
  induction l with
  | nil => cases hr
  | cons a t ih =>
    simp only [List.map_cons, List.nodup_cons] at hnd
    by_cases ha : a.ID = id
    · simp [List.find?_cons, ha] at hfind
      subst hfind
      rcases List.mem_cons.mp hr with h | h
      · exact h
      · exfalso
        apply hnd.1
        rw [ha, ← hid]
        exact List.mem_map_of_mem (fun r => r.ID) h
    · simp [List.find?_cons, ha] at hfind
      rcases List.mem_cons.mp hr with h | h
      · subst h; exact absurd hid ha
      · exact ih hnd.2 hfind h

/-- A table that did not change satisfies the row relation. -/
theorem rowStep_refl (l : List Order) : List.Forall₂ rowStep l l :=
  List.forall₂_same.mpr (fun _ _ => ⟨rfl, Or.inl rfl⟩)

/-- On a table with unique ids, ValidatePIN leaves every row as it is or takes it from Paid
or Ready to Completed. -/
theorem validatePIN_rows (w : World) (env : ValidateEnv) (orderID claimerID : UUID)
    (pin : String) (huniq : w.uniqueOrderIDs) :
    List.Forall₂ rowStep w.orders
      (OrderService.ValidatePIN w env orderID pin claimerID).2.orders := by
  unfold OrderService.ValidatePIN
  cases hget : OrderRepository.GetByID w env.read orderID with
  | error e => exact rowStep_refl _
  | ok o =>
    simp only []
    split
    · exact rowStep_refl _
    · split
      · exact rowStep_refl _
      · rename_i hown hstatus
        split
        · exact rowStep_refl _
        · split
          · exact rowStep_refl _
          · cases hupd : env.update with
            | some e => simp only [OrderRepository.UpdateStatus]; exact rowStep_refl _
            | none =>
              simp only [OrderRepository.UpdateStatus]
              have horders : (redisDel { w with orders := w.orders.map (fun r =>
                  if r.ID = orderID then
                    { r with Status := OrderStatus.Completed, UpdatedAt := env.now }
                  else r) } env.redisDelFails ( pinPrefix ++ orderID.String)).orders =
                  w.orders.map (fun r => if r.ID = orderID then
                    { r with Status := OrderStatus.Completed, UpdatedAt := env.now }
                  else r) := by
                cases env.redisDelFails <;> rfl
              rw [horders, List.forall₂_map_right_iff, List.forall₂_same]
              intro r hr
              obtain ⟨_, row, hrow, _, ho⟩ := getByID_ok hget
              by_cases hid : r.ID = orderID
              · have hrr := row_eq_of_unique w.orders orderID row r huniq hrow hr hid
                subst hrr
                have hst : r.Status = o.Status := by rw [ho]
                simp only [hid, if_true]
                refine ⟨hid.symm ▸ hid ▸ rfl, Or.inr ⟨?_, rfl⟩⟩
                rw [hst]
                by_contra hcon
                push_neg at hcon
                exact hstatus ⟨hcon.1, hcon.2⟩
              · simp only [hid, if_false]
                exact ⟨rfl, Or.inl rfl⟩

/-- Create leaves the orders table as it is or appends one row in status Paid. -/
theorem create_rows (invalid : Float64 → Int) (w : World) (env : CreateEnv)
    (customerID : UUID) (req : CreateOrderRequest) :
    (OrderService.Create invalid w env customerID req).2.orders = w.orders ∨
    ∃ row : Order, (OrderService.Create invalid w env customerID req).2.orders =
        w.orders ++ [row] ∧ row.Status = OrderStatus.Paid ∧ row.ID = env.newOrderID := by
  have hs := chargeCustomer_state invalid w env.stripe
    (sumOfSubtotals (req.Items.map (fun i => (i.Quantity, i.UnitPrice))))
  unfold OrderService.Create
  simp only [buildItems_total_eq_sum]
  generalize PaymentService.ChargeCustomer invalid w env.stripe
      (sumOfSubtotals (req.Items.map (fun i => (i.Quantity, i.UnitPrice)))) = r at hs
  obtain ⟨r1, w1⟩ := r
  simp only at hs
  cases r1 with
  | error e => exact Or.inl hs.1
  | ok paymentID =>
    cases hpin : generatePIN env.rand with
    | error e => exact Or.inl hs.1
    | ok pin =>
      cases hdb : env.dbCreate with
      | some e =>
        simp only [OrderRepository.Create]
        exact Or.inl hs.1
      | none =>
        right
        cases hset : env.redisSet with
        | some e =>
          simp only [OrderRepository.Create, redisSet, hs.1]
          exact ⟨_, rfl, rfl, rfl⟩
        | none =>
          simp only [OrderRepository.Create, redisSet, hs.1]
          exact ⟨_, rfl, rfl, rfl⟩

/-- C19: on a store whose order ids are unique, for every ValidatePIN call the table
afterwards holds the same rows, each with its status unchanged or taken from Paid or Ready
to Completed; for every Create call the table afterwards is the table before, or the table
before with one new row in status Paid. A row changed in this way never moves backward on
the line Pending → Paid → Ready → Completed, and a row in status Completed or Cancelled
keeps its status. -/
theorem status_never_moves_backward (invalid : Float64 → Int) (w : World)
    (cenv : CreateEnv) (venv : ValidateEnv) (customerID : UUID) (req : CreateOrderRequest)
    (orderID claimerID : UUID) (pin : String)
    (huniq : w.uniqueOrderIDs) :
    List.Forall₂ rowStep w.orders
      (OrderService.ValidatePIN w venv orderID pin claimerID).2.orders ∧
    ((OrderService.Create invalid w cenv customerID req).2.orders = w.orders ∨
      ∃ row : Order, (OrderService.Create invalid w cenv customerID req).2.orders =
        w.orders ++ [row] ∧ row.Status = OrderStatus.Paid ∧ row.ID = cenv.newOrderID) ∧
    (∀ r r' : Order, rowStep r r' →
      (r'.Status = r.Status ∨ r'.Status.laterThan r.Status = true) ∧
      (r.Status = OrderStatus.Completed ∨ r.Status = OrderStatus.Cancelled →
        r'.Status = r.Status)) := by
  refine ⟨validatePIN_rows w venv orderID claimerID pin huniq,
    create_rows invalid w cenv customerID req, ?_⟩
  intro r r' h
  obtain ⟨_, h | ⟨h1, h2⟩⟩ := h
  · exact ⟨Or.inl h, fun _ => h⟩
  · constructor
    · right
      rcases h1 with h1 | h1 <;> rw [h1, h2] <;> rfl
    · intro hc
      rcases h1 with h1 | h1 <;> rcases hc with hc | hc <;> rw [h1] at hc <;> cases hc

/-- C19 at the sample order in status Ready, redeemed with its PIN. -/
theorem status_never_moves_backward_witness :
    List.Forall₂ rowStep (Sample.world OrderStatus.Ready [Sample.pinEntry]).orders
      (OrderService.ValidatePIN (Sample.world OrderStatus.Ready [Sample.pinEntry]) Sample.calm
        Sample.orderID "004217" Sample.businessID).2.orders :=
  (status_never_moves_backward Float64.amd64Invalid
    (Sample.world OrderStatus.Ready [Sample.pinEntry]) Sample.createEnv Sample.calm
    Sample.customerID Sample.cart Sample.orderID Sample.businessID "004217"
    (by unfold World.uniqueOrderIDs; decide)).1

/-! ## Concurrent ValidatePIN calls -/

/-- The four steps of a call run one after the other, with nothing in between, are the
method ValidatePIN: same result, same state. -/
theorem validatePINAlone_eq (call : ValidateCall) (w : World) :
    OrderService.ValidatePINAlone call w =
      (Progress.done (OrderService.ValidatePIN w call.env call.orderID call.pin
          call.claimerID).1,
        (OrderService.ValidatePIN w call.env call.orderID call.pin call.claimerID).2) := by
  unfold OrderService.ValidatePINAlone OrderService.ValidatePIN
  cases hget : OrderRepository.GetByID w call.env.read call.orderID with
  | error e => simp [OrderService.ValidatePINStep, hget]
  | ok o =>
    by_cases hown : o.BusinessID = call.claimerID
    · by_cases hst : o.Status ≠ OrderStatus.Paid ∧ o.Status ≠ OrderStatus.Ready
      · simp [OrderService.ValidatePINStep, hget, hown, hst]
      · cases hreply : redisGet w call.env.redisGet ( pinPrefix ++ call.orderID.String) with
        | err e => simp [OrderService.ValidatePINStep, hget, hown, hst, hreply]
        | value v =>
          by_cases hpin : v = call.pin
          · cases hupd : call.env.update with
            | some e =>
              simp [OrderService.ValidatePINStep, hget, hown, hst, hreply, hpin, hupd,
                OrderRepository.UpdateStatus]
            | none =>
              simp [OrderService.ValidatePINStep, hget, hown, hst, hreply, hpin, hupd,
                OrderRepository.UpdateStatus]
          · simp [OrderService.ValidatePINStep, hget, hown, hst, hreply, hpin]
        | Nil =>
          by_cases hpin : o.PIN = call.pin
          · cases hupd : call.env.update with
            | some e =>
              simp [OrderService.ValidatePINStep, hget, hown, hst, hreply, hpin, hupd,
                OrderRepository.UpdateStatus]
            | none =>
              simp [OrderService.ValidatePINStep, hget, hown, hst, hreply, hpin, hupd,
                OrderRepository.UpdateStatus]
          · simp [OrderService.ValidatePINStep, hget, hown, hst, hreply, hpin]
    · simp [OrderService.ValidatePINStep, hget, hown]


/-- C17 at the sample order in status Paid with two calls by its business with the correct
PIN: when the second call runs after the first has returned, the first succeeds and the
second gets the invalid-state error; when the two calls take their steps in turn, both read
the status Paid before either updates it, and both succeed. -/
theorem validatePIN_concurrent_double_redemption :
    runSchedule Sample.claim Sample.claim Sample.oneAfterTheOther
        (Progress.start, Progress.start, Sample.world OrderStatus.Paid [Sample.pinEntry]) =
      (Progress.done (.ok ()),
        Progress.done (.error "order cannot be completed in status \"completed\""),
        { World.empty with
          orders := [{ Sample.order OrderStatus.Completed with UpdatedAt := 2000 }] }) ∧
    runSchedule Sample.claim Sample.claim Sample.alternating
        (Progress.start, Progress.start, Sample.world OrderStatus.Paid [Sample.pinEntry]) =
      (Progress.done (.ok ()), Progress.done (.ok ()),
        { World.empty with
          orders := [{ Sample.order OrderStatus.Completed with UpdatedAt := 2000 }] }) := by
  decide

/-- The first step of a call for an order of the claimer in status Paid or Ready fetches it. -/
theorem step_start (w : World) (c : ValidateCall) (o : Order)
    (hget : OrderRepository.GetByID w c.env.read c.orderID = .ok o)
    (hstatus : o.Status = OrderStatus.Paid ∨ o.Status = OrderStatus.Ready)
    (hown : o.BusinessID = c.claimerID) :
    OrderService.ValidatePINStep c Progress.start w = (Progress.fetched o, w) := by
  have hst : ¬ (o.Status ≠ OrderStatus.Paid ∧ o.Status ≠ OrderStatus.Ready) := by
    rcases hstatus with h | h <;> simp [h]
  simp [OrderService.ValidatePINStep, hget, hown, hst]

/-- The second step passes when the cache holds the order's PIN, or nothing, and the
supplied PIN is the order's. -/
theorem step_fetched (w : World) (c : ValidateCall) (o : Order)
    (hpin : c.pin = o.PIN)
    (hcache : redisGet w c.env.redisGet ( pinPrefix ++ c.orderID.String) =
        RedisReply.value o.PIN ∨
      redisGet w c.env.redisGet ( pinPrefix ++ c.orderID.String) = RedisReply.Nil) :
    OrderService.ValidatePINStep c (Progress.fetched o) w = (Progress.compared, w) := by
  rcases hcache with hc | hc <;> simp [OrderService.ValidatePINStep, hc, hpin]

/-- The third step, the status update, looks at no status: it goes through on every state. -/
theorem step_compared (w : World) (c : ValidateCall) (hupd : c.env.update = none) :
    (OrderService.ValidatePINStep c Progress.compared w).1 = Progress.updated := by
  simp [OrderService.ValidatePINStep, hupd, OrderRepository.UpdateStatus]

/-- The last step returns success. -/
theorem step_updated (w : World) (c : ValidateCall) :
    (OrderService.ValidatePINStep c Progress.updated w).1 = Progress.done (.ok ()) := by
  simp [OrderService.ValidatePINStep]

/-- For every order in status Paid or Ready and two calls by the owning business with the
correct PIN, under the schedule in which the calls take their steps in turn both calls
return success. -/
theorem validatePIN_interleaved_both_succeed (w : World) (a b : ValidateCall) (o : Order)
    (hgetA : OrderRepository.GetByID w a.env.read a.orderID = .ok o)
    (hgetB : OrderRepository.GetByID w b.env.read b.orderID = .ok o)
    (hstatus : o.Status = OrderStatus.Paid ∨ o.Status = OrderStatus.Ready)
    (hownA : o.BusinessID = a.claimerID) (hownB : o.BusinessID = b.claimerID)
    (hpinA : a.pin = o.PIN) (hpinB : b.pin = o.PIN)
    (hcacheA : redisGet w a.env.redisGet ( pinPrefix ++ a.orderID.String) =
        RedisReply.value o.PIN ∨
      redisGet w a.env.redisGet ( pinPrefix ++ a.orderID.String) = RedisReply.Nil)
    (hcacheB : redisGet w b.env.redisGet ( pinPrefix ++ b.orderID.String) =
        RedisReply.value o.PIN ∨
      redisGet w b.env.redisGet ( pinPrefix ++ b.orderID.String) = RedisReply.Nil)
    (hupdA : a.env.update = none) (hupdB : b.env.update = none) :
    (runSchedule a b [true, false, true, false, true, false, true, false]
        (Progress.start, Progress.start, w)).1 = Progress.done (.ok ()) ∧
    (runSchedule a b [true, false, true, false, true, false, true, false]
        (Progress.start, Progress.start, w)).2.1 = Progress.done (.ok ()) := by
  simp only [runSchedule, step_start w a o hgetA hstatus hownA,
    step_start w b o hgetB hstatus hownB, step_fetched w a o hpinA hcacheA,
    step_fetched w b o hpinB hcacheB, step_compared _ a hupdA, step_compared _ b hupdB,
    step_updated, and_self]

/-! ## Where the PIN is written -/

/-- No key of an item object is "pin". -/
theorem items_no_pin_key (items : List OrderItem) :
    "pin" ∉ Json.allKeysList (items.map OrderItem.toJSON) := by
  induction items with
  | nil => simp [Json.allKeysList]
  | cons it rest ih =>
    simp only [List.map_cons, Json.allKeysList, OrderItem.toJSON, Json.allKeys,
      Json.allKeysFields, List.mem_append, List.mem_cons, List.append_nil]
    simp [ih]

/-- No key of an order object is "pin". -/
theorem order_no_pin_key (o : Order) : "pin" ∉ (Order.toJSON o).allKeys := by
  have h := items_no_pin_key o.Items
  unfold Order.toJSON Order.jsonFields itemsJSON
  by_cases hi : o.Items = [] <;> by_cases hs : o.StripePaymentID = "" <;>
    simp [Json.allKeys, Json.allKeysFields, hi, hs] <;> simpa [hi] using h

/-- No key in an array of order objects is "pin". -/
theorem orders_no_pin_key (orders : List Order) :
    "pin" ∉ Json.allKeysList (orders.map Order.toJSON) := by
  induction orders with
  | nil => simp [Json.allKeysList]
  | cons o rest ih =>
    simp only [List.map_cons, Json.allKeysList, List.mem_append, not_or]
    exact ⟨order_no_pin_key o, ih⟩

/-- Insertion by creation time goes along with a change of rows that keeps the time. -/
theorem insertNewestFirst_map (g : Order → Order) (hg : ∀ r, (g r).CreatedAt = r.CreatedAt)
    (o : Order) (l : List Order) :
    insertNewestFirst (g o) (l.map g) = (insertNewestFirst o l).map g := by
  induction l with
  | nil => rfl
  | cons r rest ih =>
    by_cases h : r.CreatedAt ≤ o.CreatedAt
    · simp [insertNewestFirst, hg, h]
    · simp [insertNewestFirst, hg, h, ih]

/-- Sorting by creation time goes along with a change of rows that keeps the time. -/
theorem sortNewestFirst_map (g : Order → Order) (hg : ∀ r, (g r).CreatedAt = r.CreatedAt)
    (l : List Order) : sortNewestFirst (l.map g) = (sortNewestFirst l).map g := by
  induction l with
  | nil => rfl
  | cons r rest ih =>
    simp only [List.map_cons, sortNewestFirst, ih, insertNewestFirst_map g hg]

/-- The read by id gives the same order, up to its PIN, when the stored PINs change. -/
theorem getByID_withPINs (w : World) (g : Order → String) (cache : List CacheEntry)
    (f : ReadFaults) (id : UUID) :
    (OrderService.GetByID (w.withPINs g cache) f id).map Order.toJSON =
      (OrderService.GetByID w f id).map Order.toJSON := by
  unfold OrderService.GetByID OrderRepository.GetByID World.withPINs
  simp only [find?_map_keeping_id (fun r => { r with PIN := g r }) (fun _ => rfl)]
  cases f.queryRow with
  | some e => rfl
  | none =>
    cases w.orders.find? (fun o => decide (o.ID = id)) with
    | none => rfl
    | some row =>
      cases f.items with
      | some e => rfl
      | none => rfl

/-- The customer's list is the same when the stored PINs change. -/
theorem listByCustomer_withPINs (w : World) (g : Order → String) (cache : List CacheEntry)
    (fault : Option String) (customerID : UUID) :
    OrderService.ListByCustomer (w.withPINs g cache) fault customerID =
      OrderService.ListByCustomer w fault customerID := by
  unfold OrderService.ListByCustomer OrderRepository.ListByCustomer World.withPINs
  cases fault with
  | some e => rfl
  | none =>
    simp only [List.filter_map]
    rw [sortNewestFirst_map (fun r => { r with PIN := g r }) (fun _ => rfl)]
    simp [List.map_map, Function.comp_def]

/-- The keys of the fields of an object, for fields written one group after another. -/
theorem allKeysFields_append (a b : List (String × Json)) :
    Json.allKeysFields (a ++ b) = Json.allKeysFields a ++ Json.allKeysFields b := by
  induction a with
  | nil => rfl
  | cons x t ih =>
    obtain ⟨k, j⟩ := x
    simp [Json.allKeysFields, ih]

/-- A JSON response that was written has the body handed to `c.JSON`. -/
theorem jsonResponse_body {status s : Nat} {body b : Json}
    (h : jsonResponse status body = .json s b) : b = body := by
  unfold jsonResponse at h
  split at h
  · injection h with _ hb
    exact hb.symm
  · cases h

/-- A successful Create returns the PIN that `generatePIN` made. -/
theorem create_ok_pin {invalid : Float64 → Int} {w w' : World} {env : CreateEnv}
    {customerID : UUID} {req : CreateOrderRequest} {resp : OrderResponse}
    (h : OrderService.Create invalid w env customerID req = (.ok resp, w')) :
    generatePIN env.rand = .ok resp.PIN := by
  unfold OrderService.Create at h
  simp only at h
  split at h
  · cases h
  · split at h
    · cases h
    · rename_i pin hpin
      split at h
      · cases h
      · split at h
        · cases h
        · simp only [Prod.mk.injEq, Except.ok.injEq] at h
          rw [← h.1]; exact hpin

/-- C15: when Create succeeds on a draw `n` below 1,000,000, its response carries the PIN
`generatePIN` made, the JSON body of the response is the order's fields followed by the
field "pin" holding that PIN, and this is the body the handler writes with status 201. For
every state and every later read, the body written by the GetByID handler and by the
ListByUser handler has no key "pin" at any depth and is the same whatever PINs the orders
table and the cache hold, and every order that ListByCustomer returns has an empty PIN. -/
theorem pin_only_in_create_response (invalid : Float64 → Int) (w w' : World) (env : CreateEnv)
    (customerID : UUID) (req : CreateOrderRequest) (resp : OrderResponse) (n : Nat)
    (hcreate : OrderService.Create invalid w env customerID req = (.ok resp, w'))
    (hrand : env.rand = .ok n) (hn : n < 1000000) :
    (resp.PIN = sixDigitNumeral n ∧
     resp.toJSON =
       .obj (resp.Order.jsonFields false ++ [("pin", .str (sixDigitNumeral n))]) ∧
     "pin" ∈ resp.toJSON.allKeys ∧
     OrderHandler.Create invalid w env (some customerID) (.ok req) =
       (jsonResponse 201 resp.toJSON, w')) ∧
    (∀ (w2 : World) (f : ReadFaults) (idParam : Option UUID),
      (∀ status body, OrderHandler.GetByID w2 f idParam = .json status body →
        "pin" ∉ body.allKeys) ∧
      (∀ (g : Order → String) (cache : List CacheEntry),
        OrderHandler.GetByID (w2.withPINs g cache) f idParam =
          OrderHandler.GetByID w2 f idParam)) ∧
    (∀ (w2 : World) (fault : Option String) (userID : Option UUID),
      (∀ status body, OrderHandler.ListByUser w2 fault userID = .json status body →
        "pin" ∉ body.allKeys) ∧
      (∀ (g : Order → String) (cache : List CacheEntry),
        OrderHandler.ListByUser (w2.withPINs g cache) fault userID =
          OrderHandler.ListByUser w2 fault userID) ∧
      (∀ customerID2 orders,
        OrderService.ListByCustomer w2 fault customerID2 = .ok orders →
          ∀ o ∈ orders, o.PIN = "")) := by
  have hpin : resp.PIN = sixDigitNumeral n := by
    have h := create_ok_pin hcreate
    rw [hrand, generatePIN_ok n hn] at h
    injection h with h
    exact h.symm
  have hne : sixDigitNumeral n ≠ "" := by
    intro h
    have := congrArg String.length h
    simp [sixDigitNumeral] at this
  have hjson : resp.toJSON =
      .obj (resp.Order.jsonFields false ++ [("pin", .str (sixDigitNumeral n))]) := by
    simp [OrderResponse.toJSON, hpin, hne]
  refine ⟨⟨hpin, hjson, ?_, ?_⟩, ?_, ?_⟩
  · rw [hjson]
    simp [Json.allKeys, allKeysFields_append, Json.allKeysFields]
  · simp only [OrderHandler.Create, hcreate]
  · intro w2 f idParam
    refine ⟨?_, ?_⟩
    · intro status body h
      unfold OrderHandler.GetByID at h
      split at h
      · cases h
      · split at h
        · cases h
        · rw [jsonResponse_body h]; exact order_no_pin_key _
    · intro g cache
      unfold OrderHandler.GetByID
      cases idParam with
      | none => rfl
      | some id =>
        have h := getByID_withPINs w2 g cache f id
        cases ha : OrderService.GetByID (w2.withPINs g cache) f id <;>
          cases hb : OrderService.GetByID w2 f id <;>
          rw [ha, hb] at h <;> simp only [ha, hb] <;> simp [Except.map] at h
        rw [h]
  · intro w2 fault userID
    refine ⟨?_, ?_, ?_⟩
    · intro status body h
      unfold OrderHandler.ListByUser at h
      cases userID with
      | none => cases h
      | some cid =>
        simp only at h
        cases hL : OrderService.ListByCustomer w2 fault cid with
        | error e => rw [hL] at h; cases h
        | ok orders =>
          rw [hL] at h
          rw [jsonResponse_body h]
          by_cases ho : orders = []
          · simp [ho, Json.allKeys, Json.allKeysFields]
          · have := orders_no_pin_key orders
            simp [ho, Json.allKeys, Json.allKeysFields, this]
    · intro g cache
      unfold OrderHandler.ListByUser
      cases userID with
      | none => rfl
      | some id => simp only [listByCustomer_withPINs]
    · intro cid orders h o ho
      unfold OrderService.ListByCustomer OrderRepository.ListByCustomer at h
      cases fault with
      | some e => cases h
      | none =>
        simp only [Except.ok.injEq] at h
        rw [← h] at ho
        obtain ⟨r, _, hr⟩ := List.mem_map.mp ho
        rw [← hr]

/-- C15 at the example cart: the response of Create has the field "pin" with 004217, and the
order read back under its id is written without a key "pin". -/
theorem pin_only_in_create_response_witness :
    ((OrderService.Create Float64.amd64Invalid World.empty Sample.createEnv Sample.customerID
        Sample.cart).1 = .ok ⟨Sample.assembled "pi_3PqL", "004217"⟩ ∧
      Sample.createEnv.rand = .ok 4217 ∧ 4217 < 1000000) ∧
    OrderResponse.toJSON ⟨Sample.assembled "pi_3PqL", "004217"⟩ =
      .obj ((Sample.assembled "pi_3PqL").jsonFields false ++
        [("pin", .str (sixDigitNumeral 4217))]) ∧
    (∀ status body,
      OrderHandler.GetByID
        (OrderService.Create Float64.amd64Invalid World.empty Sample.createEnv
          Sample.customerID Sample.cart).2 ReadFaults.none (some Sample.orderID) =
        .json status body → "pin" ∉ body.allKeys) :=
  ⟨⟨by decide, by decide, by decide⟩,
   (pin_only_in_create_response Float64.amd64Invalid World.empty
      (OrderService.Create Float64.amd64Invalid World.empty Sample.createEnv
        Sample.customerID Sample.cart).2 Sample.createEnv Sample.customerID Sample.cart
      ⟨Sample.assembled "pi_3PqL", "004217"⟩ 4217 (by decide) (by decide) (by decide)).1.2.1,
   ((pin_only_in_create_response Float64.amd64Invalid World.empty
      (OrderService.Create Float64.amd64Invalid World.empty Sample.createEnv
        Sample.customerID Sample.cart).2 Sample.createEnv Sample.customerID Sample.cart
      ⟨Sample.assembled "pi_3PqL", "004217"⟩ 4217 (by decide) (by decide) (by decide)).2.1
      _ ReadFaults.none (some Sample.orderID)).1⟩

/-! ## Create: a cart line with quantity zero -/

/-- C12 fails at a cart with a zero-quantity line: Create on the cart of 0 widgets at 9.99
and 1 gadget at 5.00 returns an order and its PIN with no error. -/
theorem create_zero_quantity_accepted :
    OrderService.Create Float64.amd64Invalid World.empty Sample.createEnv Sample.customerID
        Sample.zeroQuantityCart =
      (.ok ⟨Sample.zeroQuantityOrder, "004217"⟩,
       { orders := [{ Sample.zeroQuantityOrder with Items := [] }],
         order_items := [⟨Sample.itemID 0, Sample.orderID, "widget", 0, Float64.ofDecimal 999 2⟩,
                         ⟨Sample.itemID 1, Sample.orderID, "gadget", 1, Float64.ofDecimal 500 2⟩],
         redis := [Sample.pinEntry],
         chargeCalls := [Float64.ofDecimal 500 2],
         stripeRequests := [500] }) ∧
    OrderHandler.Create Float64.amd64Invalid World.empty Sample.createEnv
        (some Sample.customerID) (.ok Sample.zeroQuantityCart) =
      (.json 201 (OrderResponse.toJSON ⟨Sample.zeroQuantityOrder, "004217"⟩),
       (OrderService.Create Float64.amd64Invalid World.empty Sample.createEnv
          Sample.customerID Sample.zeroQuantityCart).2) := by
  have h : OrderService.Create Float64.amd64Invalid World.empty Sample.createEnv
        Sample.customerID Sample.zeroQuantityCart =
      (.ok ⟨Sample.zeroQuantityOrder, "004217"⟩,
       { orders := [{ Sample.zeroQuantityOrder with Items := [] }],
         order_items := [⟨Sample.itemID 0, Sample.orderID, "widget", 0, Float64.ofDecimal 999 2⟩,
                         ⟨Sample.itemID 1, Sample.orderID, "gadget", 1, Float64.ofDecimal 500 2⟩],
         redis := [Sample.pinEntry],
         chargeCalls := [Float64.ofDecimal 500 2],
         stripeRequests := [500] }) := by decide
  refine ⟨h, ?_⟩
  have he : (OrderResponse.toJSON ⟨Sample.zeroQuantityOrder, "004217"⟩).encodable = true := by
    decide
  simp only [OrderHandler.Create, h, jsonResponse, he, if_true]

/-! ## JWT middleware -/

/-- A text without a space is not cut. -/
theorem cutAtSpace_none (l : List Char) (h : ' ' ∉ l) : cutAtSpace l = none := by
  induction l with
  | nil => rfl
  | cons c rest ih =>
    simp only [List.mem_cons, not_or] at h
    have hc : ¬ c = ' ' := fun e => h.1 e.symm
    simp [cutAtSpace, hc, ih h.2]

/-- A text is cut at its first space. -/
theorem cutAtSpace_append (a b : List Char) (h : ' ' ∉ a) :
    cutAtSpace (a ++ ' ' :: b) = some (a, b) := by
  induction a with
  | nil => simp [cutAtSpace]
  | cons c rest ih =>
    simp only [List.mem_cons, not_or] at h
    have hc : ¬ c = ' ' := fun e => h.1 e.symm
    simp [cutAtSpace, hc, ih h.2]

/-- Splitting a text without a space gives the text as its only part. -/
theorem splitN2_no_space (s : String) (h : ' ' ∉ s.data) : splitN2 s = [s] := by
  simp [splitN2, cutAtSpace_none s.data h]

/-- Splitting gives the part before the first space and the part after it. -/
theorem splitN2_parts (scheme rest : String) (h : ' ' ∉ scheme.data) :
    splitN2 (scheme ++ " " ++ rest) = [scheme, rest] := by
  have hd : (scheme ++ " " ++ rest).data = scheme.data ++ ' ' :: rest.data := by
    simp [String.data_append]
  simp [splitN2, hd, cutAtSpace_append scheme.data rest.data h]

/-- The parser returns the decoded token when the token verifies. -/
theorem parse_ok_of_verifies (lib : JWTLibrary) (secret token : String) (t : DecodedToken)
    (hdec : lib.decode token = some t) (hv : tokenVerifies lib secret token = true) :
    jwtParseWithClaims lib token (JWT.keyFunc secret) = .ok t := by
  simp only [tokenVerifies, hdec, Bool.and_eq_true, decide_eq_true_eq] at hv
  obtain ⟨⟨hm, hs⟩, hc⟩ := hv
  simp [jwtParseWithClaims, hdec, JWT.keyFunc, hm, hc]
  simpa [hm] using hs

/-- The parser returns an error when the token does not verify. -/
theorem parse_error_of_not_verifies (lib : JWTLibrary) (secret token : String)
    (hv : tokenVerifies lib secret token = false) :
    ∃ e, jwtParseWithClaims lib token (JWT.keyFunc secret) = .error e := by
  unfold tokenVerifies at hv
  unfold jwtParseWithClaims
  cases hdec : lib.decode token with
  | none => exact ⟨_, rfl⟩
  | some t =>
    rw [hdec] at hv
    simp only at hv ⊢
    cases hm : t.Method with
    | other => simp [JWT.keyFunc, hm]
    | hmac =>
      simp only [JWT.keyFunc, hm]
      by_cases hs : lib.verify token SigningMethod.hmac secret = false
      · simp [hs]
      · by_cases hc : lib.claimsValid t.Claims = false
        · simp [hs, hc]
        · simp [hm] at hv
          simp only [Bool.not_eq_false] at hs hc
          rw [hv hs] at hc
          cases hc

/-- A token the parser returns without error decodes and verifies. -/
theorem verifies_of_parse_ok (lib : JWTLibrary) (secret token : String) (t : DecodedToken)
    (h : jwtParseWithClaims lib token (JWT.keyFunc secret) = .ok t) :
    lib.decode token = some t ∧ tokenVerifies lib secret token = true := by
  cases hv : tokenVerifies lib secret token with
  | false =>
    obtain ⟨e, he⟩ := parse_error_of_not_verifies lib secret token hv
    rw [he] at h
    cases h
  | true =>
    refine ⟨?_, rfl⟩
    cases hdec : lib.decode token with
    | none => simp [tokenVerifies, hdec] at hv
    | some t2 =>
      rw [parse_ok_of_verifies lib secret token t2 hdec hv] at h
      injection h with h
      rw [h]

/-- C20: for every request, secret, next handler and state the handler works on. With an
empty Authorization header, with a header without a space, and with a header whose part
before the first space is not "bearer" up to case, the middleware returns an HTTP error 401
and the state is untouched, whatever the next handler is; the same holds when the part
after the first space fails verification, which it does when it names a method that is not
HMAC, when its signature is not valid under the secret, and when its claims are not valid
(expired). With a header "Bearer", a space and a token that verifies, the result is that of
the next handler, called on the context with the token's claims stored. In every case the
result is one of the three errors or the next handler's result for a verified token. -/
theorem jwt_invokes_next_only_when_authenticated {σ : Type} (lib : JWTLibrary)
    (secret : String) (next : EchoContext → σ → HandlerResult × σ) (c : EchoContext) (s : σ) :
    (c.authorization = "" →
      JWT lib secret next c s = (.httpError 401 "missing authorization header", s)) ∧
    (c.authorization ≠ "" → ' ' ∉ c.authorization.data →
      JWT lib secret next c s =
        (.httpError 401 "authorization header must be: Bearer <token>", s)) ∧
    (∀ scheme token : String, c.authorization = scheme ++ " " ++ token →
      ' ' ∉ scheme.data →
      (equalFoldBearer scheme = false →
        JWT lib secret next c s =
          (.httpError 401 "authorization header must be: Bearer <token>", s)) ∧
      (equalFoldBearer scheme = true → tokenVerifies lib secret token = false →
        JWT lib secret next c s = (.httpError 401 "invalid or expired token", s)) ∧
      (equalFoldBearer scheme = true → ∀ t, lib.decode token = some t →
        tokenVerifies lib secret token = true →
        JWT lib secret next c s = next { c with claims := some t.Claims } s)) ∧
    (∀ token t, lib.decode token = some t →
      (t.Method ≠ SigningMethod.hmac ∨ lib.verify token t.Method secret = false ∨
        lib.claimsValid t.Claims = false) →
      tokenVerifies lib secret token = false) ∧
    (equalFoldBearer "Bearer" = true ∧ equalFoldBearer "bearer" = true ∧
      equalFoldBearer "BEARER" = true ∧ equalFoldBearer "Token" = false) ∧
    ((JWT lib secret next c s = (.httpError 401 "missing authorization header", s) ∨
      JWT lib secret next c s =
        (.httpError 401 "authorization header must be: Bearer <token>", s) ∨
      JWT lib secret next c s = (.httpError 401 "invalid or expired token", s)) ∨
     (∃ scheme token t, splitN2 c.authorization = [scheme, token] ∧
        equalFoldBearer scheme = true ∧ lib.decode token = some t ∧
        tokenVerifies lib secret token = true ∧
        JWT lib secret next c s = next { c with claims := some t.Claims } s)) := by
  refine ⟨?_, ?_, ?_, ?_, ?_, ?_⟩
  · intro h
    simp [JWT, h]
  · intro hne hsp
    simp [JWT, hne, splitN2_no_space _ hsp]
  · intro scheme token hhead hsp
    have hne : c.authorization ≠ "" := by
      intro h
      have := congrArg String.data (hhead.symm.trans h)
      simp [String.data_append] at this
    have hsplit := splitN2_parts scheme token hsp
    rw [← hhead] at hsplit
    refine ⟨?_, ?_, ?_⟩
    · intro hf
      simp [JWT, hne, hsplit, hf]
    · intro ht hv
      obtain ⟨e, he⟩ := parse_error_of_not_verifies lib secret token hv
      simp [JWT, hne, hsplit, ht, he]
    · intro ht t hdec hv
      simp [JWT, hne, hsplit, ht, parse_ok_of_verifies lib secret token t hdec hv]
  · intro token t hdec h
    simp only [tokenVerifies, hdec]
    rcases h with h | h | h
    · simp [h]
    · simp [h]
    · simp [h]
  · decide
  · unfold JWT
    by_cases h0 : c.authorization = ""
    · simp [h0]
    · simp only [h0, if_false]
      split
      · rename_i scheme token hsplit
        by_cases hf : equalFoldBearer scheme = false
        · simp [hf]
        · simp only [hf, if_false]
          cases hp : jwtParseWithClaims lib token (JWT.keyFunc secret) with
          | error e => simp
          | ok t =>
            right
            have hv := verifies_of_parse_ok lib secret token t hp
            exact ⟨scheme, token, t, hsplit, by simpa using hf, hv.1, hv.2, rfl⟩
      · simp

/-- C20 at the sample library: a good token after "Bearer" reaches the next handler with its
claims stored; an empty header, the scheme "Token", an expired token, a token of another
signing method and a secret the token was not signed under are answered with 401, the
count of invocations staying at 0. -/
theorem jwt_invokes_next_only_when_authenticated_witness :
    JWT Sample.jwtLib "test-secret-key" Sample.countingNext ⟨"Bearer good.token.sig", none⟩ 0 =
      Sample.countingNext
        ⟨"Bearer good.token.sig", some ⟨"user-123", "test@example.com", "customer", some 5000⟩⟩
        0 ∧
    JWT Sample.jwtLib "test-secret-key" Sample.countingNext ⟨"", none⟩ 0 =
      (.httpError 401 "missing authorization header", 0) ∧
    JWT Sample.jwtLib "test-secret-key" Sample.countingNext ⟨"Token good.token.sig", none⟩ 0 =
      (.httpError 401 "authorization header must be: Bearer <token>", 0) ∧
    JWT Sample.jwtLib "test-secret-key" Sample.countingNext ⟨"Bearer old.token.sig", none⟩ 0 =
      (.httpError 401 "invalid or expired token", 0) ∧
    JWT Sample.jwtLib "test-secret-key" Sample.countingNext ⟨"Bearer rsa.token.sig", none⟩ 0 =
      (.httpError 401 "invalid or expired token", 0) ∧
    JWT Sample.jwtLib "wrong-secret" Sample.countingNext ⟨"Bearer good.token.sig", none⟩ 0 =
      (.httpError 401 "invalid or expired token", 0) :=
  ⟨((jwt_invokes_next_only_when_authenticated Sample.jwtLib "test-secret-key"
        Sample.countingNext ⟨"Bearer good.token.sig", none⟩ 0).2.2.1
      "Bearer" "good.token.sig" (by decide) (by decide)).2.2 (by decide)
      ⟨.hmac, ⟨"user-123", "test@example.com", "customer", some 5000⟩⟩ (by decide) (by decide),
   (jwt_invokes_next_only_when_authenticated Sample.jwtLib "test-secret-key"
      Sample.countingNext ⟨"", none⟩ 0).1 (by decide),
   ((jwt_invokes_next_only_when_authenticated Sample.jwtLib "test-secret-key"
        Sample.countingNext ⟨"Token good.token.sig", none⟩ 0).2.2.1
      "Token" "good.token.sig" (by decide) (by decide)).1 (by decide),
   ((jwt_invokes_next_only_when_authenticated Sample.jwtLib "test-secret-key"
        Sample.countingNext ⟨"Bearer old.token.sig", none⟩ 0).2.2.1
      "Bearer" "old.token.sig" (by decide) (by decide)).2.1 (by decide) (by decide),
   ((jwt_invokes_next_only_when_authenticated Sample.jwtLib "test-secret-key"
        Sample.countingNext ⟨"Bearer rsa.token.sig", none⟩ 0).2.2.1
      "Bearer" "rsa.token.sig" (by decide) (by decide)).2.1 (by decide) (by decide),
   ((jwt_invokes_next_only_when_authenticated Sample.jwtLib "wrong-secret"
        Sample.countingNext ⟨"Bearer good.token.sig", none⟩ 0).2.2.1
      "Bearer" "good.token.sig" (by decide) (by decide)).2.1 (by decide) (by decide)⟩

/-! ## Cache coherence and the order left by a failed cache write -/

/-- The PIN key tells the order id. -/
theorem pinKey_injective (a b : UUID) (h : pinPrefix ++ a.String = pinPrefix ++ b.String) :
    a = b := by
  have hd := congrArg String.data h
  simp only [String.data_append, List.append_cancel_left_eq] at hd
  cases a; cases b
  simp only [UUID.String] at hd
  congr
  exact String.ext hd

/-- What Create does to the orders table and the cache: nothing, or one row appended under
the new id with the cache as it was or with the row's PIN written under its key. -/
theorem create_tables (invalid : Float64 → Int) (w : World) (env : CreateEnv)
    (customerID : UUID) (req : CreateOrderRequest) :
    ((OrderService.Create invalid w env customerID req).2.orders = w.orders ∧
      (OrderService.Create invalid w env customerID req).2.redis = w.redis) ∨
    ∃ row : Order, row.ID = env.newOrderID ∧
      (OrderService.Create invalid w env customerID req).2.orders = w.orders ++ [row] ∧
      ((OrderService.Create invalid w env customerID req).2.redis = w.redis ∨
       (OrderService.Create invalid w env customerID req).2.redis =
         ⟨ pinPrefix ++ env.newOrderID.String, row.PIN, pinTTL⟩ ::
           w.redis.filter (fun c => !decide (c.key = pinPrefix ++ env.newOrderID.String))) := by
  have hs := chargeCustomer_state invalid w env.stripe
    (sumOfSubtotals (req.Items.map (fun i => (i.Quantity, i.UnitPrice))))
  unfold OrderService.Create
  simp only [buildItems_total_eq_sum]
  generalize PaymentService.ChargeCustomer invalid w env.stripe
      (sumOfSubtotals (req.Items.map (fun i => (i.Quantity, i.UnitPrice)))) = r at hs
  obtain ⟨r1, w1⟩ := r
  simp only at hs
  cases r1 with
  | error e => exact Or.inl ⟨hs.1, hs.2.2.1⟩
  | ok paymentID =>
    cases hpin : generatePIN env.rand with
    | error e => exact Or.inl ⟨hs.1, hs.2.2.1⟩
    | ok pin =>
      cases hdb : env.dbCreate with
      | some e =>
        simp only [OrderRepository.Create]
        exact Or.inl ⟨hs.1, hs.2.2.1⟩
      | none =>
        right
        cases hset : env.redisSet with
        | some e =>
          simp only [OrderRepository.Create, redisSet, hs.1]
          exact ⟨_, rfl, rfl, Or.inl hs.2.2.1⟩
        | none =>
          simp only [OrderRepository.Create, redisSet, hs.1]
          exact ⟨_, rfl, rfl, Or.inr (by rw [hs.2.2.1])⟩

/-- What ValidatePIN does to the orders table and the cache: rows keep their id and PIN,
and no cache entry is added. -/
theorem validatePIN_tables (w : World) (env : ValidateEnv) (orderID claimerID : UUID)
    (pin : String) :
    (∃ g : Order → Order, (∀ r, (g r).ID = r.ID ∧ (g r).PIN = r.PIN) ∧
      (OrderService.ValidatePIN w env orderID pin claimerID).2.orders = w.orders.map g) ∧
    (∀ c ∈ (OrderService.ValidatePIN w env orderID pin claimerID).2.redis, c ∈ w.redis) := by
  have hsame : (∃ g : Order → Order, (∀ r, (g r).ID = r.ID ∧ (g r).PIN = r.PIN) ∧
      w.orders = w.orders.map g) ∧ (∀ c ∈ w.redis, c ∈ w.redis) :=
    ⟨⟨id, fun _ => ⟨rfl, rfl⟩, by simp⟩, fun _ h => h⟩
  unfold OrderService.ValidatePIN
  cases hget : OrderRepository.GetByID w env.read orderID with
  | error e => exact hsame
  | ok o =>
    simp only []
    split
    · exact hsame
    · split
      · exact hsame
      · split
        · exact hsame
        · split
          · exact hsame
          · cases hupd : env.update with
            | some e => simp only [OrderRepository.UpdateStatus]; exact hsame
            | none =>
              simp only [OrderRepository.UpdateStatus]
              refine ⟨⟨fun r => if r.ID = orderID then
                  { r with Status := OrderStatus.Completed, UpdatedAt := env.now } else r,
                ?_, ?_⟩, ?_⟩
              · intro r
                by_cases hid : r.ID = orderID <;> simp [hid]
              · cases env.redisDelFails <;> rfl
              · intro c hc
                cases hdel : env.redisDelFails with
                | true => simpa [redisDel, hdel] using hc
                | false =>
                  simp only [redisDel, hdel] at hc
                  exact (List.mem_filter.mp hc).1

/-- Every event keeps the cache coherent. -/
theorem run_cacheCoherent (invalid : Float64 → Int) (c : Call) (w : World)
    (h : w.cacheCoherent) : (c.run invalid w).cacheCoherent := by
  cases c with
  | create env customerID req =>
    simp only [Call.run]
    rcases create_tables invalid w env customerID req with ⟨ho, hr⟩ | ⟨row, hid, ho, hr⟩
    · intro c hc
      rw [hr] at hc
      rw [ho]
      exact h c hc
    · intro c hc
      rw [ho]
      rcases hr with hr | hr
      · rw [hr] at hc
        obtain ⟨r, hr1, hr2⟩ := h c hc
        exact ⟨r, List.mem_append_left _ hr1, hr2⟩
      · rw [hr] at hc
        rcases List.mem_cons.mp hc with hc | hc
        · exact ⟨row, by simp, by rw [hc, hid], by rw [hc]⟩
        · obtain ⟨r, hr1, hr2⟩ := h c (List.mem_filter.mp hc).1
          exact ⟨r, List.mem_append_left _ hr1, hr2⟩
  | validatePIN env orderID pin claimerID =>
    simp only [Call.run]
    obtain ⟨⟨g, hg, ho⟩, hr⟩ := validatePIN_tables w env orderID claimerID pin
    intro c hc
    obtain ⟨r, hr1, hr2⟩ := h c (hr c hc)
    refine ⟨g r, ?_, ?_⟩
    · rw [ho]; exact List.mem_map_of_mem g hr1
    · rw [(hg r).1, (hg r).2]; exact hr2
  | expire keep =>
    intro c hc
    exact h c (List.mem_filter.mp hc).1

/-- A state reached from a coherent state with unique ids is coherent with unique ids. -/
theorem runCalls_invariant (invalid : Float64 → Int) (calls : List Call) :
    ∀ (w0 w : World), w0.uniqueOrderIDs → w0.cacheCoherent →
      runCalls invalid calls w0 = some w → w.uniqueOrderIDs ∧ w.cacheCoherent := by
  induction calls with
  | nil =>
    intro w0 w hu hc hrun
    simp only [runCalls, Option.some.injEq] at hrun
    rw [← hrun]
    exact ⟨hu, hc⟩
  | cons c rest ih =>
    intro w0 w hu hc hrun
    simp only [runCalls] at hrun
    split at hrun
    · rename_i hnd
      exact ih _ w hnd (run_cacheCoherent invalid c w0 hc) hrun
    · cases hrun

/-- In a coherent state with unique ids, a value the cache holds under the PIN key of an id
is the PIN of the order read under that id. -/
theorem cached_value_is_durable_pin (w : World) (hu : w.uniqueOrderIDs)
    (hc : w.cacheCoherent) (id : UUID) (v : String)
    (hget : redisGet w none ( pinPrefix ++ id.String) = .value v) :
    ∃ row, w.orders.find? (fun r => decide (r.ID = id)) = some row ∧ row.PIN = v := by
  unfold redisGet at hget
  simp only at hget
  cases hfind : w.redis.find? (fun c => decide (c.key = pinPrefix ++ id.String)) with
  | none => rw [hfind] at hget; cases hget
  | some c =>
    rw [hfind] at hget
    simp only [RedisReply.value.injEq] at hget
    have hkey : c.key = pinPrefix ++ id.String := by simpa using List.find?_some hfind
    obtain ⟨row, hrow, hk, hp⟩ := hc c (List.mem_of_find?_eq_some hfind)
    have hid : row.ID = id := pinKey_injective _ _ (hk.symm.trans hkey)
    cases hf : w.orders.find? (fun r => decide (r.ID = id)) with
    | none =>
      rw [List.find?_eq_none] at hf
      exact absurd hid (by simpa using hf row hrow)
    | some row2 =>
      have := row_eq_of_unique w.orders id row2 row hu hf hrow hid
      exact ⟨row2, rfl, by rw [← this, hp, hget]⟩

/-- In a coherent state with unique ids ValidatePIN does what it would do comparing with
the durable PIN. -/
theorem validatePIN_eq_durable (w : World) (hu : w.uniqueOrderIDs) (hc : w.cacheCoherent)
    (env : ValidateEnv) (orderID : UUID) (pin : String) (claimerID : UUID) :
    OrderService.ValidatePIN w env orderID pin claimerID =
      OrderService.ValidatePINAgainstDurablePIN w env orderID pin claimerID := by
  unfold OrderService.ValidatePIN OrderService.ValidatePINAgainstDurablePIN
  cases hget : OrderRepository.GetByID w env.read orderID with
  | error e => rfl
  | ok o =>
    simp only []
    cases hr : redisGet w env.redisGet ( pinPrefix ++ orderID.String) with
    | err e => rfl
    | Nil => rfl
    | value v =>
      have hv : o.PIN = v := by
        have hnone : env.redisGet = none := by
          cases hf : env.redisGet with
          | none => rfl
          | some e => rw [hf] at hr; simp [redisGet] at hr
        rw [hnone] at hr
        obtain ⟨row, hrow, hp⟩ := cached_value_is_durable_pin w hu hc orderID v hr
        obtain ⟨_, row2, hrow2, _, ho⟩ := getByID_ok hget
        rw [hrow] at hrow2
        injection hrow2 with hrow2
        rw [ho, ← hrow2]
        exact hp
      subst hv
      rfl

/-- C21: in every state reached from the empty store and the empty cache by a sequence of
Create calls, ValidatePIN calls and expiries of cache entries, every cache entry lies under
the PIN key of a stored order and holds that order's PIN; whenever the cache holds a value
under the PIN key of an order identifier, the order read from the store under that
identifier exists and its PIN is the cached value; and every ValidatePIN call on such a
state has the result and the effect it would have if the supplied PIN were always compared
with the durable PIN. -/
theorem cache_coherent_in_reachable_states (invalid : Float64 → Int) (calls : List Call)
    (w : World) (hrun : runCalls invalid calls World.empty = some w) :
    (∀ c ∈ w.redis, ∃ row ∈ w.orders,
      c.key = pinPrefix ++ row.ID.String ∧ row.PIN = c.value) ∧
    (∀ (id : UUID) (v : String),
      redisGet w none ( pinPrefix ++ id.String) = .value v →
      ∃ o, OrderRepository.GetByID w ReadFaults.none id = .ok o ∧ o.ID = id ∧ o.PIN = v) ∧
    (∀ (env : ValidateEnv) (orderID : UUID) (pin : String) (claimerID : UUID),
      OrderService.ValidatePIN w env orderID pin claimerID =
        OrderService.ValidatePINAgainstDurablePIN w env orderID pin claimerID) := by
  have hu0 : World.empty.uniqueOrderIDs := by
    unfold World.uniqueOrderIDs World.empty
    exact List.nodup_nil
  have hc0 : World.empty.cacheCoherent := by
    intro c hc
    cases hc
  obtain ⟨hu, hc⟩ := runCalls_invariant invalid calls World.empty w hu0 hc0 hrun
  refine ⟨hc, ?_, validatePIN_eq_durable w hu hc⟩
  intro id v hget
  obtain ⟨row, hrow, hp⟩ := cached_value_is_durable_pin w hu hc id v hget
  have hid : row.ID = id := by simpa using List.find?_some hrow
  refine ⟨{ row with Items := OrderRepository.getItems w id }, ?_, hid, hp⟩
  unfold OrderRepository.GetByID
  simp only [ReadFaults.none, hrow]

/-- C21 at the sample history: after the example cart was ordered and a wrong PIN was tried,
the cache holds 004217 under the order's key, and ValidatePIN with that PIN does what it
would do comparing with the durable PIN. -/
theorem cache_coherent_in_reachable_states_witness :
    runCalls Float64.amd64Invalid Sample.history World.empty =
      some (OrderService.Create Float64.amd64Invalid World.empty Sample.createEnv
        Sample.customerID Sample.cart).2 ∧
    redisGet (OrderService.Create Float64.amd64Invalid World.empty Sample.createEnv
        Sample.customerID Sample.cart).2 none ( pinPrefix ++ Sample.orderID.String) =
      .value "004217" ∧
    OrderService.ValidatePIN (OrderService.Create Float64.amd64Invalid World.empty
        Sample.createEnv Sample.customerID Sample.cart).2 Sample.calm Sample.orderID "004217"
        Sample.businessID =
      OrderService.ValidatePINAgainstDurablePIN (OrderService.Create Float64.amd64Invalid
        World.empty Sample.createEnv Sample.customerID Sample.cart).2 Sample.calm
        Sample.orderID "004217" Sample.businessID :=
  ⟨by decide, by decide,
   (cache_coherent_in_reachable_states Float64.amd64Invalid Sample.history
      (OrderService.Create Float64.amd64Invalid World.empty Sample.createEnv
        Sample.customerID Sample.cart).2 (by decide)).2.2
      Sample.calm Sample.orderID "004217" Sample.businessID⟩

/-- C22: when the payment step returned a reference, the PIN was generated and the store
transaction succeeded, but the cache write fails with an error e, Create returns the error
"failed to cache PIN: e", and yet the order stays in the store: read under the new id (an
id no row carried before) it is the assembled order in status Paid with its PIN and its
payment reference. With no cache entry under the order's key, a ValidatePIN call that
follows, by the business of the order with that PIN and with no collaborator failing, finds
a cache miss, falls back to the stored PIN, returns no error, and leaves the order in status
Completed. -/
theorem create_cache_failure_leaves_redeemable_order (invalid : Float64 → Int) (w : World)
    (env : CreateEnv) (customerID : UUID) (req : CreateOrderRequest)
    (paymentID pin e : String) (venv : ValidateEnv)
    (hpay : (PaymentService.ChargeCustomer invalid w env.stripe
      (sumOfSubtotals (req.Items.map (fun i => (i.Quantity, i.UnitPrice))))).1 = .ok paymentID)
    (hpin : generatePIN env.rand = .ok pin)
    (hdb : env.dbCreate = none)
    (hset : env.redisSet = some e)
    (hfresh : ∀ r ∈ w.orders, r.ID ≠ env.newOrderID)
    (hnokey : redisGet w none ( pinPrefix ++ env.newOrderID.String) = RedisReply.Nil)
    (hread : venv.read = ReadFaults.none) (hcache : venv.redisGet = none)
    (hupd : venv.update = none) :
    (OrderService.Create invalid w env customerID req).1 =
      .error ("failed to cache PIN: " ++ e) ∧
    OrderRepository.GetByID (OrderService.Create invalid w env customerID req).2
        ReadFaults.none env.newOrderID =
      .ok { ID := env.newOrderID, CustomerID := customerID, BusinessID := req.BusinessID,
            Items := OrderRepository.getItems
              (OrderService.Create invalid w env customerID req).2 env.newOrderID,
            TotalAmount := sumOfSubtotals (req.Items.map (fun i => (i.Quantity, i.UnitPrice))),
            Status := OrderStatus.Paid, PIN := pin, StripePaymentID := paymentID,
            CreatedAt := env.now, UpdatedAt := env.now } ∧
    redisGet (OrderService.Create invalid w env customerID req).2 venv.redisGet
        ( pinPrefix ++ env.newOrderID.String) = RedisReply.Nil ∧
    (OrderService.ValidatePIN (OrderService.Create invalid w env customerID req).2 venv
        env.newOrderID pin req.BusinessID).1 = .ok () ∧
    (OrderRepository.GetByID
        (OrderService.ValidatePIN (OrderService.Create invalid w env customerID req).2 venv
          env.newOrderID pin req.BusinessID).2 ReadFaults.none env.newOrderID).map
        (fun o => (o.Status, o.PIN)) = .ok (OrderStatus.Completed, pin) := by
  have hs := chargeCustomer_state invalid w env.stripe
    (sumOfSubtotals (req.Items.map (fun i => (i.Quantity, i.UnitPrice))))
  have hcreate : ∃ w2, OrderService.Create invalid w env customerID req =
        (.error ("failed to cache PIN: " ++ e), w2) ∧
      w2.orders = w.orders ++
        [{ ID := env.newOrderID, CustomerID := customerID, BusinessID := req.BusinessID,
           Items := [],
           TotalAmount := sumOfSubtotals (req.Items.map (fun i => (i.Quantity, i.UnitPrice))),
           Status := OrderStatus.Paid, PIN := pin, StripePaymentID := paymentID,
           CreatedAt := env.now, UpdatedAt := env.now }] ∧
      w2.redis = w.redis := by
    unfold OrderService.Create
    simp only [buildItems_total_eq_sum]
    generalize PaymentService.ChargeCustomer invalid w env.stripe
      (sumOfSubtotals (req.Items.map (fun i => (i.Quantity, i.UnitPrice)))) = r at hpay hs
    obtain ⟨r1, w1⟩ := r
    simp only at hpay hs
    subst hpay
    simp only [hpin, hdb, hset, OrderRepository.Create, redisSet]
    exact ⟨_, rfl, by simp only [hs.1], hs.2.2.1⟩
  obtain ⟨w2, hc, ho, hr⟩ := hcreate
  rw [hc]
  simp only
  have hget := getByID_after_insert w w2
    { ID := env.newOrderID, CustomerID := customerID, BusinessID := req.BusinessID,
      Items := (OrderService.buildItems env.newItemID req.Items 0 Float64.zero []).2,
      TotalAmount := sumOfSubtotals (req.Items.map (fun i => (i.Quantity, i.UnitPrice))),
      Status := OrderStatus.Paid, PIN := pin, StripePaymentID := paymentID,
      CreatedAt := env.now, UpdatedAt := env.now } hfresh ho
  simp only at hget
  have hmiss : redisGet w2 venv.redisGet ( pinPrefix ++ env.newOrderID.String) =
      RedisReply.Nil := by
    rw [hcache]
    unfold redisGet at hnokey ⊢
    rw [hr]
    exact hnokey
  have hvalid : OrderService.ValidatePIN w2 venv env.newOrderID pin req.BusinessID =
      (.ok (), redisDel (OrderRepository.UpdateStatus w2 none venv.now env.newOrderID
        OrderStatus.Completed).2 venv.redisDelFails ( pinPrefix ++ env.newOrderID.String)) := by
    unfold OrderService.ValidatePIN
    simp [hread, hget, hmiss, hupd, OrderRepository.UpdateStatus]
  refine ⟨trivial, hget, hmiss, by rw [hvalid], ?_⟩
  rw [hvalid]
  simp only
  rw [getByID_after_update w2 venv.now env.newOrderID OrderStatus.Completed _
    ReadFaults.none venv.redisDelFails _ hget]
  rfl

/-- C22 at the example cart with the cache refusing the connection, on the empty store. -/
theorem create_cache_failure_leaves_redeemable_order_witness :
    (OrderService.Create Float64.amd64Invalid World.empty Sample.cacheDown Sample.customerID
      Sample.cart).1 = .error "failed to cache PIN: dial tcp: connection refused" ∧
    (OrderService.ValidatePIN (OrderService.Create Float64.amd64Invalid World.empty
        Sample.cacheDown Sample.customerID Sample.cart).2 Sample.calm
        Sample.cacheDown.newOrderID "004217" Sample.cart.BusinessID).1 = .ok () :=
  ⟨(create_cache_failure_leaves_redeemable_order Float64.amd64Invalid World.empty
      Sample.cacheDown Sample.customerID Sample.cart "pi_3PqL" "004217"
      "dial tcp: connection refused" Sample.calm (by decide) (by decide) (by decide)
      (by decide) (by decide) (by decide) (by decide) (by decide) (by decide)).1,
   (create_cache_failure_leaves_redeemable_order Float64.amd64Invalid World.empty
      Sample.cacheDown Sample.customerID Sample.cart "pi_3PqL" "004217"
      "dial tcp: connection refused" Sample.calm (by decide) (by decide) (by decide)
      (by decide) (by decide) (by decide) (by decide) (by decide) (by decide)).2.2.2.1⟩

/-! ## The total of Create and the exact sum -/

namespace Float64

end Float64

end LocalPickup
